import Mathlib

/-!
# vsfs journal: a shallow embedding of `src/journal.c`

The backing file `vsfs.img` is modelled as a map from block numbers to
4096-byte blocks, together with the position of the file descriptor.  Every C
function of `journal.c` that the properties below talk about is transcribed as
a Lean function of the same name.  `journal_create` and `journal_install` take
the image as it is when the program starts and return the image they leave
together with the C return value; the functions they call take and return the
open file (`Disk`: the image and the file position) and, where the C code
passes a pointer to it, the in-memory journal header.

Modelling conventions, fixed once and used throughout:

* `uint8_t` is `Fin 256`; `uint16_t`/`uint32_t` values are natural numbers and
  every C operation that can wrap carries its explicit `% 2 ^ 32` (stores of
  a 16- or 32-bit field keep the low 2 or 4 bytes of the value); `int`
  counters (`block_count`, `transactions_installed`) are natural numbers.
* Structs are read from and written to byte buffers exactly as the C code
  does with `memcpy`, in little-endian byte order (the layout the tool has on
  the x86-64 / AArch64 hosts it is built for): `struct journal_header` is 8
  bytes, `struct rec_header` 4, the packed `struct data_record` 4104,
  `struct superblock` and `struct inode` 128, `struct dirent` 32.
* `read_block` / `write_block` are the block store.  They compute the file
  offset `block_no * BLOCK_SIZE` in `int`: the model keeps the low 32 bits of
  the product, as the compiled program does.  When these read as a
  non-negative `int` the transfer is at that offset, which is block
  `block_no` itself for `block_no < 2 ^ 19` and block `block_no % 2 ^ 20` in
  general; when they read as a negative `int`, `lseek` fails, its result is
  not checked, and the transfer takes place at the current file position.
  For this reason the file position is part of the state (`Disk.pos`).  The
  file is taken to contain every block that is addressed, so the short-read /
  short-write `exit(1)` branch (a fatal storage error, outside the journal
  logic) does not occur.
* C `while` loops are structural recursions on a fuel argument.  For the two
  copy loops the fuel is the byte count (each round moves at least one byte)
  and the loops are shown to leave with `bytes_remaining = 0`; the replay loop
  of `journal_install` may fail to terminate, so it returns an `Option` and
  `none` means that the fuel ran out.
* `printf` output is represented by the constructor of the outcome type that
  the function returns; the three `time(NULL)` calls are arguments; a file
  name is the list of its bytes.
* `journal_create` is split at its last statement: `journal_create_stage` is
  everything before the final `write_journal_header`, so that the state a
  crash at that point leaves can be talked about.
* The section "Direct addressing" repeats the block store and the journal
  reader and writer on a bare image, with every block number standing for the
  block of that number.  These functions are not part of `journal_create` or
  `journal_install`; they say what an image holds (`Direct.read_journal_header
  img` is the header stored in `img`) and what the calls do when every block
  number is below `2 ^ 19`, which the lemmas named `*_direct` prove.
-/

namespace Vsfs

/-! ## Bytes, blocks, images -/

/-- A `uint8_t`. -/
abbrev Byte := Fin 256

/-- A block buffer `uint8_t block[BLOCK_SIZE]`, `BLOCK_SIZE = 4096`. -/
abbrev Block := Fin 4096 → Byte

/-- The image file: block number to block content. -/
abbrev Image := Nat → Block

/-- Memory reached through a `uint8_t *` pointer: offset to byte. -/
abbrev Buf := Nat → Byte

/-- `BLOCK_SIZE`.  The definitions below write the literal 4096 (and 1 for
`JOURNAL_START_BLOCK`, 28 for `NAME_LEN`), which linear arithmetic can use. -/
def BLOCK_SIZE : Nat := 4096
def JOURNAL_MAGIC : Nat := 0x4A524E4C
def FS_MAGIC : Nat := 0x56534653
def REC_DATA : Nat := 1
def REC_COMMIT : Nat := 2
def NAME_LEN : Nat := 28
def JOURNAL_START_BLOCK : Nat := 1

/-- Conversion of an integer value to `uint8_t`. -/
def byte_of (v : Nat) : Byte := ⟨v % 256, Nat.mod_lt _ (by decide)⟩

/-- Byte `k` of the little-endian representation of the integer `v`. -/
def le_byte (v k : Nat) : Byte := byte_of (v / 256 ^ k)

/-- The `uint16_t` stored at offset `off` of a buffer. -/
def get16 (p : Buf) (off : Nat) : Nat :=
  (p off).val + 256 * (p (off + 1)).val

/-- The `uint32_t` stored at offset `off` of a buffer. -/
def get32 (p : Buf) (off : Nat) : Nat :=
  (p off).val + 256 * (p (off + 1)).val + 65536 * (p (off + 2)).val
    + 16777216 * (p (off + 3)).val

/-- A block seen through a pointer to its first byte (offsets past the block
are never used by the program and read as 0 here). -/
def Block.buf (blk : Block) : Buf :=
  fun k => if h : k < 4096 then blk ⟨k, h⟩ else 0

/-- The first 4096 bytes behind a pointer, as a block:
`memcpy(block, p + off, BLOCK_SIZE)`. -/
def Buf.block (p : Buf) (off : Nat) : Block :=
  fun i => p (off + i.val)

/-- Effect of `memcpy(blk + off, src + src_off, n)` on a block buffer. -/
def splice (blk : Block) (off : Nat) (src : Buf) (src_off n : Nat) : Block :=
  fun i => if off ≤ i.val ∧ i.val < off + n then src (src_off + (i.val - off)) else blk i

/-- Effect of `memcpy(dst + dst_off, src + src_off, n)` on a plain buffer. -/
def Buf.copy_in (dst : Buf) (dst_off : Nat) (src : Buf) (src_off n : Nat) : Buf :=
  fun k => if dst_off ≤ k ∧ k < dst_off + n then src (src_off + (k - dst_off)) else dst k

/-! ## Block store -/

/-- The open file `vsfs.img` behind `fd`: its blocks and the file position,
counted in blocks.  The position is 0 after `open`; the program seeks only to
multiples of `BLOCK_SIZE` and transfers `BLOCK_SIZE` bytes at a time, so the
position is always a whole number of blocks. -/
structure Disk where
  img : Image
  pos : Nat

/-- `lseek(fd, block_no * BLOCK_SIZE, SEEK_SET)`: the file position, in
blocks, after the call when it was `pos` before.  `block_no` and the product
are `int`s: the low 32 bits of the product are the offset.  With bit 31 clear
the offset is non-negative and the call moves the position there; with bit 31
set the offset is negative, `lseek` fails and the position stays. -/
def seek_block (pos block_no : Nat) : Nat :=
  if (block_no * 4096) % 2 ^ 32 < 2 ^ 31 then (block_no * 4096) % 2 ^ 32 / 4096 else pos

/-- `read_block(block_no, buffer)`: the content of `buffer` after the call,
and the file after it (one block further than where the transfer began). -/
def read_block (d : Disk) (block_no : Nat) : Block × Disk :=
  (d.img (seek_block d.pos block_no), ⟨d.img, seek_block d.pos block_no + 1⟩)

/-- `write_block(block_no, buffer)`: the file after the call. -/
def write_block (d : Disk) (block_no : Nat) (buffer : Block) : Disk :=
  ⟨fun b => if b = seek_block d.pos block_no then buffer else d.img b,
   seek_block d.pos block_no + 1⟩

/-! ## Journal header -/

/-- `struct journal_header`. -/
structure journal_header where
  magic : Nat
  nbytes_used : Nat
deriving DecidableEq, Repr

/-- The 8 bytes of a `struct journal_header` in memory. -/
def journal_header.bytes (jh : journal_header) : Buf :=
  fun k => if k < 4 then le_byte jh.magic k else le_byte jh.nbytes_used (k - 4)

/-- `read_journal_header(&jh)`: the header read, and the file after the call. -/
def read_journal_header (d : Disk) : journal_header × Disk :=
  let r := read_block d 1
  ({ magic := get32 r.1.buf 0, nbytes_used := get32 r.1.buf 4 }, r.2)

/-- `write_journal_header(&jh)`: read block 1, overwrite its first
`sizeof(struct journal_header) = 8` bytes, write it back. -/
def write_journal_header (d : Disk) (jh : journal_header) : Disk :=
  let r := read_block d 1
  write_block r.2 1 (splice r.1 0 jh.bytes 0 8)

/-! ## Journal writer and reader -/

/-- State of the `while (bytes_remaining > 0)` loop of
`append_record_to_journal`: the file, `journal_bytes`, `bytes_remaining`. -/
structure AppendState where
  disk : Disk
  journal_bytes : Nat
  bytes_remaining : Nat

/-- The loop of `append_record_to_journal`; `bytes_written` is the fourth
loop variable. -/
def append_loop (record : Buf) :
    Nat → Disk → Nat → Nat → Nat → AppendState
  | 0, d, journal_bytes, bytes_remaining, _ => ⟨d, journal_bytes, bytes_remaining⟩
  | fuel + 1, d, journal_bytes, bytes_remaining, bytes_written =>
    if bytes_remaining > 0 then
      let current_block := 1 + journal_bytes / 4096
      let current_offset := journal_bytes % 4096
      let space_in_block := 4096 - current_offset
      let chunk_size := if bytes_remaining < space_in_block then bytes_remaining else space_in_block
      let r := read_block d current_block
      let journal_block_data := splice r.1 current_offset record bytes_written chunk_size
      let d := write_block r.2 current_block journal_block_data
      append_loop record fuel d ((journal_bytes + chunk_size) % 2 ^ 32)
        (bytes_remaining - chunk_size) (bytes_written + chunk_size)
    else ⟨d, journal_bytes, bytes_remaining⟩

/-- `append_record_to_journal(jh, record, record_size)`: returns the file and
the updated in-memory header (the on-disk header is not written here). -/
def append_record_to_journal (d : Disk) (jh : journal_header) (record : Buf)
    (record_size : Nat) : Disk × journal_header :=
  let s := append_loop record record_size d jh.nbytes_used record_size 0
  (s.disk, { jh with nbytes_used := s.journal_bytes })

/-- State of the loop of `read_from_journal`: the destination buffer,
`bytes_remaining` and the file. -/
structure ReadState where
  buffer : Buf
  bytes_remaining : Nat
  disk : Disk

/-- The loop of `read_from_journal`. -/
def read_loop : Nat → Disk → Buf → Nat → Nat → Nat → ReadState
  | 0, d, buffer, _, bytes_remaining, _ => ⟨buffer, bytes_remaining, d⟩
  | fuel + 1, d, buffer, journal_pos, bytes_remaining, bytes_read =>
    if bytes_remaining > 0 then
      let current_block := 1 + journal_pos / 4096
      let offset_in_block := journal_pos % 4096
      let space_in_block := 4096 - offset_in_block
      let chunk_size := if bytes_remaining < space_in_block then bytes_remaining else space_in_block
      let r := read_block d current_block
      let buffer := buffer.copy_in bytes_read r.1.buf offset_in_block chunk_size
      read_loop fuel r.2 buffer ((journal_pos + chunk_size) % 2 ^ 32)
        (bytes_remaining - chunk_size) (bytes_read + chunk_size)
    else ⟨buffer, bytes_remaining, d⟩

/-- `read_from_journal(journal_pos, buffer, size)`: the destination buffer
after the call (`buffer` is its content before), and the file after it. -/
def read_from_journal (d : Disk) (journal_pos : Nat) (buffer : Buf) (size : Nat) :
    Buf × Disk :=
  let s := read_loop size d buffer journal_pos size 0
  (s.buffer, s.disk)

/-- Byte `q` of the journal's linear byte region (block `1 + q / 4096`,
offset `q % 4096`). -/
def jbyte (img : Image) (q : Nat) : Byte :=
  img (1 + q / 4096) ⟨q % 4096, Nat.mod_lt _ (by decide)⟩


/-! ## Record encoding -/

/-- `struct rec_header`. -/
structure rec_header where
  type : Nat
  size : Nat
deriving DecidableEq, Repr

/-- `struct data_record` (packed: header, `block_no`, one block of data). -/
structure data_record where
  hdr : rec_header
  block_no : Nat
  data : Block

/-- `struct commit_record`. -/
structure commit_record where
  hdr : rec_header

/-- `sizeof(struct data_record)`. -/
def data_record_size : Nat := 4104

/-- `sizeof(struct commit_record)`. -/
def commit_record_size : Nat := 4

/-- The 4 bytes of a `struct rec_header` in memory. -/
def rec_header.bytes (h : rec_header) : Buf :=
  fun k => if k < 2 then le_byte h.type k else le_byte h.size (k - 2)

/-- The 4104 bytes of a `struct data_record` in memory. -/
def data_record.bytes (r : data_record) : Buf :=
  fun k => if k < 4 then r.hdr.bytes k
    else if k < 8 then le_byte r.block_no (k - 4)
    else r.data.buf (k - 8)

/-- The 4 bytes of a `struct commit_record` in memory. -/
def commit_record.bytes (r : commit_record) : Buf := r.hdr.bytes

/-- A `struct rec_header` read out of memory. -/
def rec_header.of_bytes (p : Buf) : rec_header :=
  { type := get16 p 0, size := get16 p 2 }

/-- A `struct data_record` read out of memory. -/
def data_record.of_bytes (p : Buf) : data_record :=
  { hdr := rec_header.of_bytes p, block_no := get32 p 4, data := p.block 8 }

/-- Content of a local variable before it is written.  Every read of such a
variable in the program is preceded by a `memcpy` that fills all of it. -/
def uninit : Buf := fun _ => 0

/-! ## Filesystem metadata -/

/-- `struct superblock` (the nine `uint32_t` fields; the padding is not read). -/
structure superblock where
  magic : Nat
  block_size : Nat
  total_blocks : Nat
  inode_count : Nat
  journal_block : Nat
  inode_bitmap : Nat
  data_bitmap : Nat
  inode_start : Nat
  data_start : Nat
deriving DecidableEq, Repr

/-- A `struct superblock` read out of memory. -/
def superblock.of_bytes (p : Buf) : superblock :=
  { magic := get32 p 0, block_size := get32 p 4, total_blocks := get32 p 8,
    inode_count := get32 p 12, journal_block := get32 p 16, inode_bitmap := get32 p 20,
    data_bitmap := get32 p 24, inode_start := get32 p 28, data_start := get32 p 32 }

/-- Store of a `uint16_t` at byte offset `off` of a block buffer. -/
def put16 (blk : Block) (off v : Nat) : Block := splice blk off (le_byte v) 0 2

/-- Store of a `uint32_t` at byte offset `off` of a block buffer. -/
def put32 (blk : Block) (off v : Nat) : Block := splice blk off (le_byte v) 0 4

/-- Effect of `memset(blk + off, 0, n)`. -/
def memset0 (blk : Block) (off n : Nat) : Block := splice blk off (fun _ => 0) 0 n

/-- The `for` loop of `find_free_inode`, entered with loop variable `i` and
`remaining = inode_count - i` rounds to go.  `none` stands for a read past the
end of the 4096-byte bitmap array (`i / 8 ≥ 4096`), which C leaves undefined. -/
def find_free_inode_from (inode_bitmap : Block) : Nat → Nat → Option Int
  | 0, _ => some (-1)
  | remaining + 1, i =>
    let byte := i / 8
    let bit := i % 8
    if h : byte < 4096 then
      if (inode_bitmap ⟨byte, h⟩).val &&& (1 <<< bit) = 0 then some (i : Int)
      else find_free_inode_from inode_bitmap remaining (i + 1)
    else none

/-- `find_free_inode(inode_bitmap, inode_count)`. -/
def find_free_inode (inode_bitmap : Block) (inode_count : Nat) : Option Int :=
  find_free_inode_from inode_bitmap inode_count 0

/-- The `for` loop of `find_free_dirent_slot`, entered with loop variable `i`
and `remaining = max_entries - i` rounds to go. -/
def find_free_dirent_slot_from (dir_block : Block) : Nat → Nat → Int
  | 0, _ => -1
  | remaining + 1, i =>
    if get32 dir_block.buf (32 * i) = 0 ∧ (dir_block.buf (32 * i + 4)).val = 0 then (i : Int)
    else find_free_dirent_slot_from dir_block remaining (i + 1)

/-- `find_free_dirent_slot(dir_block)`; `max_entries = 4096 / 32 = 128`. -/
def find_free_dirent_slot (dir_block : Block) : Int :=
  find_free_dirent_slot_from dir_block 128 0

/-- `strlen`: the number of bytes before the first NUL. -/
def strlen (s : List Byte) : Nat := (s.takeWhile (fun c => c ≠ 0)).length

/-- The `n` bytes that `strncpy(dst, s, n)` stores: the string up to its
terminator, then NUL padding. -/
def strncpy_bytes (s : List Byte) : Buf :=
  fun k => if k < strlen s then s.getD k 0 else 0

/-! ## `journal_create` -/

/-- How `journal_create` ends: the message it prints and the value it returns. -/
inductive CreateOutcome
  /-- "creation journaled successfully", returns 0. -/
  | created
  /-- "ERROR: Invalid filesystem magic!", returns -1. -/
  | invalid_fs_magic
  /-- "ERROR: Journal has pending transactions.", returns -1. -/
  | journal_busy
  /-- "ERROR: No free inodes available!", returns -1. -/
  | no_free_inodes
  /-- "ERROR: No free directory slots!", returns -1. -/
  | no_free_slots
  /-- "ERROR: Journal full!", returns -1. -/
  | journal_full
  /-- The bitmap scan read past the end of the bitmap array. -/
  | undefined
deriving DecidableEq, Repr

/-- The C return value. -/
def CreateOutcome.ret : CreateOutcome → Int
  | .created => 0
  | _ => -1

/-- The three block images that `journal_create` computes in memory. -/
structure NewBlocks where
  new_inode_bitmap : Block
  new_inode_block : Block
  new_root_dir : Block

/-- Lines 244-286 of `journal_create`: the in-memory computation of the three
new block images from the old ones. -/
def build_blocks (inode_bitmap inode_block root_dir_block : Block) (free_inode free_slot : Nat)
    (name : List Byte) (now_ctime now_mtime now_root : Nat) : NewBlocks :=
  -- Update inode bitmap
  let byte_idx := free_inode / 8
  let bit_idx := free_inode % 8
  let new_inode_bitmap : Block := fun i =>
    if i.val = byte_idx then byte_of ((inode_bitmap i).val ||| (1 <<< bit_idx)) else inode_bitmap i
  -- Update inode table
  let inode_block_index := free_inode / 32
  let inode_slot := free_inode % 32
  let new_inode := 128 * inode_slot
  let b := put16 inode_block new_inode 1
  let b := put16 b (new_inode + 2) 1
  let b := put32 b (new_inode + 4) 0
  let b := memset0 b (new_inode + 8) 32
  let b := put32 b (new_inode + 40) now_ctime
  let b := put32 b (new_inode + 44) now_mtime
  let b := if inode_block_index = 0 then
      let b := put32 b 4 ((get32 b.buf 4 + 32) % 2 ^ 32)
      put32 b 44 now_root
    else b
  -- Update root directory
  let d := put32 root_dir_block (32 * free_slot) free_inode
  let d := splice d (32 * free_slot + 4) (strncpy_bytes name) 0 28
  let d := splice d (32 * free_slot + 4 + 27) (fun _ => 0) 0 1
  { new_inode_bitmap := new_inode_bitmap, new_inode_block := b, new_root_dir := d }

/-- Lines 305-324 of `journal_create`: the four `append_record_to_journal`
calls, in order, each starting from the file and the in-memory header that
the previous one left. -/
def append_transaction (d : Disk) (jh : journal_header)
    (bitmap_record inode_record dir_record : data_record) (commit_rec : commit_record) :
    Disk × journal_header :=
  let a := append_record_to_journal d jh bitmap_record.bytes data_record_size
  let a := append_record_to_journal a.1 a.2 inode_record.bytes data_record_size
  let a := append_record_to_journal a.1 a.2 dir_record.bytes data_record_size
  append_record_to_journal a.1 a.2 commit_rec.bytes commit_record_size

/-- State of `journal_create` when it stops or reaches its last statement:
the outcome so far, the file, and the in-memory header `jh` (all zero as long
as it has not been read). -/
structure Staged where
  outcome : CreateOutcome
  disk : Disk
  jh : journal_header

/-- Lines 198-324 of `journal_create`: everything up to and including the four
`append_record_to_journal` calls, but not the final `write_journal_header`.
With outcome `created` the function has reached line 326.  `img` is the image
when the program starts; `main` has just opened it. -/
def journal_create_stage (img : Image) (name : List Byte)
    (now_ctime now_mtime now_root : Nat) : Staged :=
  let r := read_block ⟨img, 0⟩ 0
  let sb := superblock.of_bytes r.1.buf
  if sb.magic ≠ FS_MAGIC then ⟨.invalid_fs_magic, r.2, ⟨0, 0⟩⟩ else
  let rj := read_journal_header r.2
  let init : Disk × journal_header :=
    if rj.1.magic ≠ JOURNAL_MAGIC then
      let jh : journal_header := { magic := JOURNAL_MAGIC, nbytes_used := 8 }
      (write_journal_header rj.2 jh, jh)
    else (rj.2, rj.1)
  let d := init.1
  let jh := init.2
  if jh.nbytes_used > 8 then ⟨.journal_busy, d, jh⟩ else
  let rb := read_block d sb.inode_bitmap
  let inode_bitmap := rb.1
  match find_free_inode inode_bitmap sb.inode_count with
  | none => ⟨.undefined, rb.2, jh⟩
  | some r =>
  if r = -1 then ⟨.no_free_inodes, rb.2, jh⟩ else
  let free_inode := r.toNat
  let rd := read_block rb.2 sb.data_start
  let root_dir_block := rd.1
  let s := find_free_dirent_slot root_dir_block
  if s = -1 then ⟨.no_free_slots, rd.2, jh⟩ else
  let free_slot := s.toNat
  let inode_block_index := free_inode / 32
  let ri := read_block rd.2 ((sb.inode_start + inode_block_index) % 2 ^ 32)
  let inode_block := ri.1
  let nb := build_blocks inode_bitmap inode_block root_dir_block free_inode free_slot name
    now_ctime now_mtime now_root
  -- Check journal capacity
  let total_transaction_size := 3 * data_record_size + commit_record_size
  let journal_capacity := 16 * 4096
  if (jh.nbytes_used + total_transaction_size) % 2 ^ 32 > journal_capacity then
    ⟨.journal_full, ri.2, jh⟩ else
  -- Append records to journal
  let bitmap_record : data_record :=
    { hdr := { type := REC_DATA, size := data_record_size }, block_no := sb.inode_bitmap,
      data := nb.new_inode_bitmap }
  let inode_record : data_record :=
    { hdr := { type := REC_DATA, size := data_record_size },
      block_no := (sb.inode_start + inode_block_index) % 2 ^ 32, data := nb.new_inode_block }
  let dir_record : data_record :=
    { hdr := { type := REC_DATA, size := data_record_size }, block_no := sb.data_start,
      data := nb.new_root_dir }
  let commit_rec : commit_record := { hdr := { type := REC_COMMIT, size := commit_record_size } }
  let a := append_transaction ri.2 jh bitmap_record inode_record dir_record commit_rec
  ⟨.created, a.1, a.2⟩

/-- `journal_create(name)`: the outcome and the image it leaves. -/
def journal_create (img : Image) (name : List Byte)
    (now_ctime now_mtime now_root : Nat) : CreateOutcome × Image :=
  let s := journal_create_stage img name now_ctime now_mtime now_root
  match s.outcome with
  | .created => (.created, (write_journal_header s.disk s.jh).img)
  | o => (o, s.disk.img)


/-! ## `journal_install` -/

/-- How `journal_install` ends: the message it prints and the value it returns. -/
inductive InstallOutcome
  /-- "ERROR: Journal not initialized!", returns -1. -/
  | not_initialized
  /-- "Journal is empty - nothing to install.", returns 0. -/
  | empty
  /-- "ERROR: Too many data records in one transaction!", returns -1. -/
  | too_many_records
  /-- "ERROR: Unknown record type", returns -1. -/
  | unknown_type (type : Nat)
  /-- "Journal installed successfully. n transaction(s) applied.", returns 0;
  `block_count` is the number of uncommitted records discarded (a warning is
  printed when it is positive). -/
  | installed (transactions_installed : Nat) (block_count : Nat)
deriving DecidableEq, Repr

/-- The C return value. -/
def InstallOutcome.ret : InstallOutcome → Int
  | .empty => 0
  | .installed _ _ => 0
  | _ => -1

/-- The number of transactions the call reports as applied. -/
def InstallOutcome.applied : InstallOutcome → Nat
  | .installed n _ => n
  | _ => 0

/-- The `for` loop at a commit record: `write_block(block_numbers[i],
data_to_replay[i])` for `i = 0 .. block_count - 1`. -/
def apply_pending (d : Disk) (pending : List (Nat × Block)) : Disk :=
  pending.foldl (fun d p => write_block d p.1 p.2) d

/-- The `while (current_pos < jh.nbytes_used)` loop of `journal_install`.
`pending` holds the first `block_count` entries of `block_numbers` /
`data_to_replay`.  The result is the outcome and the file at the point
where the function returns or leaves the loop; `none` means that `fuel`
rounds were not enough. -/
def install_loop (nbytes_used : Nat) :
    Nat → Disk → Nat → List (Nat × Block) → Nat → Option (InstallOutcome × Disk)
  | 0, d, current_pos, pending, transactions_installed =>
    if current_pos < nbytes_used then none
    else some (.installed transactions_installed pending.length, d)
  | fuel + 1, d, current_pos, pending, transactions_installed =>
    if current_pos < nbytes_used then
      let rh := read_from_journal d current_pos uninit 4
      let hdr := rec_header.of_bytes rh.1
      if hdr.type = REC_DATA then
        let rr := read_from_journal rh.2 current_pos uninit 4104
        let data_rec := data_record.of_bytes rr.1
        if pending.length ≥ 16 then some (.too_many_records, rr.2)
        else
          install_loop nbytes_used fuel rr.2 ((current_pos + hdr.size) % 2 ^ 32)
            (pending ++ [(data_rec.block_no, data_rec.data)]) transactions_installed
      else if hdr.type = REC_COMMIT then
        let d := apply_pending rh.2 pending
        install_loop nbytes_used fuel d ((current_pos + hdr.size) % 2 ^ 32)
          [] (transactions_installed + 1)
      else some (.unknown_type hdr.type, rh.2)
    else some (.installed transactions_installed pending.length, d)

/-- `journal_install()`: the outcome and the image it leaves, `none` when the
replay loop does not finish within `fuel` rounds.  `img` is the image when the
program starts; `main` has just opened it. -/
def journal_install (fuel : Nat) (img : Image) : Option (InstallOutcome × Image) :=
  let r := read_journal_header ⟨img, 0⟩
  let jh := r.1
  if jh.magic ≠ JOURNAL_MAGIC then some (.not_initialized, r.2.img)
  else if jh.nbytes_used = 8 then some (.empty, r.2.img)
  else
    match install_loop jh.nbytes_used fuel r.2 8 [] 0 with
    | none => none
    | some (.installed n c, d) =>
      some (.installed n c, (write_journal_header d { jh with nbytes_used := 8 }).img)
    | some (o, d) => some (o, d.img)

/-! ## What the replay loop reads and writes -/

/-- Something the replay loop of `journal_install` does: it reads a record
header at a scan position, or it calls `write_block`. -/
inductive ScanEvent
  /-- The record header read at `current_pos`: its type tag and declared size. -/
  | record (pos type size : Nat)
  /-- A call of `write_block`: the block of the file that it has overwritten
  (the block its `lseek` reached, or the block at the file position). -/
  | write (block : Nat)
deriving DecidableEq, Repr

/-- The blocks overwritten by the `for` loop at a commit record, in order.
The recursion is that of `apply_pending`. -/
def apply_trace : Disk → List (Nat × Block) → List ScanEvent
  | _, [] => []
  | d, p :: rest =>
    ScanEvent.write (seek_block d.pos p.1) :: apply_trace (write_block d p.1 p.2) rest

/-- The record headers read and the blocks overwritten by the first `fuel`
rounds of the loop of `journal_install`, in order.  The recursion is that of
`install_loop`; only what is collected differs. -/
def install_trace (nbytes_used : Nat) :
    Nat → Disk → Nat → List (Nat × Block) → List ScanEvent
  | 0, _, _, _ => []
  | fuel + 1, d, current_pos, pending =>
    if current_pos < nbytes_used then
      let rh := read_from_journal d current_pos uninit 4
      let hdr := rec_header.of_bytes rh.1
      ScanEvent.record current_pos hdr.type hdr.size ::
        (if hdr.type = REC_DATA then
          let rr := read_from_journal rh.2 current_pos uninit 4104
          let data_rec := data_record.of_bytes rr.1
          if pending.length ≥ 16 then []
          else
            install_trace nbytes_used fuel rr.2 ((current_pos + hdr.size) % 2 ^ 32)
              (pending ++ [(data_rec.block_no, data_rec.data)])
        else if hdr.type = REC_COMMIT then
          apply_trace rh.2 pending ++
            install_trace nbytes_used fuel (apply_pending rh.2 pending)
              ((current_pos + hdr.size) % 2 ^ 32) []
        else [])
    else []

/-- Whether a scan event advances the scan: a record header must declare a
size of at least one byte. -/
def ScanEvent.size_ok : ScanEvent → Bool
  | .record _ _ size => decide (0 < size)
  | .write _ => true


/-! ## Direct addressing

The block store and the journal reader and writer on a bare image, every
block number standing for the block of that number.  `Direct.read_block img n`
is what block `n` of `img` holds; the other functions are the ones above with
`Direct.read_block` and `Direct.write_block` in place of `read_block` and
`write_block`, and without the file position. -/

/-- The content of block `block_no` of an image. -/
def Direct.read_block (img : Image) (block_no : Nat) : Block := img block_no

/-- The image with block `block_no` replaced. -/
def Direct.write_block (img : Image) (block_no : Nat) (buffer : Block) : Image :=
  fun b => if b = block_no then buffer else img b

/-- The journal header stored in an image: the first 8 bytes of block 1. -/
def Direct.read_journal_header (img : Image) : journal_header :=
  let block := Direct.read_block img 1
  { magic := get32 block.buf 0, nbytes_used := get32 block.buf 4 }

/-- The image with the journal header replaced: block 1 with its first 8
bytes overwritten. -/
def Direct.write_journal_header (img : Image) (jh : journal_header) : Image :=
  let block := Direct.read_block img 1
  let block := splice block 0 jh.bytes 0 8
  Direct.write_block img 1 block

/-- State of `Direct.append_loop`: the image, `journal_bytes`,
`bytes_remaining`. -/
structure Direct.AppendState where
  img : Image
  journal_bytes : Nat
  bytes_remaining : Nat

/-- The loop of `append_record_to_journal` on a bare image. -/
def Direct.append_loop (record : Buf) :
    Nat → Image → Nat → Nat → Nat → Direct.AppendState
  | 0, img, journal_bytes, bytes_remaining, _ => ⟨img, journal_bytes, bytes_remaining⟩
  | fuel + 1, img, journal_bytes, bytes_remaining, bytes_written =>
    if bytes_remaining > 0 then
      let current_block := 1 + journal_bytes / 4096
      let current_offset := journal_bytes % 4096
      let space_in_block := 4096 - current_offset
      let chunk_size := if bytes_remaining < space_in_block then bytes_remaining else space_in_block
      let journal_block_data := Direct.read_block img current_block
      let journal_block_data :=
        splice journal_block_data current_offset record bytes_written chunk_size
      let img := Direct.write_block img current_block journal_block_data
      Direct.append_loop record fuel img ((journal_bytes + chunk_size) % 2 ^ 32)
        (bytes_remaining - chunk_size) (bytes_written + chunk_size)
    else ⟨img, journal_bytes, bytes_remaining⟩

/-- `append_record_to_journal` on a bare image: the image and the updated
in-memory header. -/
def Direct.append_record_to_journal (img : Image) (jh : journal_header) (record : Buf)
    (record_size : Nat) : Image × journal_header :=
  let s := Direct.append_loop record record_size img jh.nbytes_used record_size 0
  (s.img, { jh with nbytes_used := s.journal_bytes })

/-- State of `Direct.read_loop`: the destination buffer and `bytes_remaining`. -/
structure Direct.ReadState where
  buffer : Buf
  bytes_remaining : Nat

/-- The loop of `read_from_journal` on a bare image. -/
def Direct.read_loop (img : Image) : Nat → Buf → Nat → Nat → Nat → Direct.ReadState
  | 0, buffer, _, bytes_remaining, _ => ⟨buffer, bytes_remaining⟩
  | fuel + 1, buffer, journal_pos, bytes_remaining, bytes_read =>
    if bytes_remaining > 0 then
      let current_block := 1 + journal_pos / 4096
      let offset_in_block := journal_pos % 4096
      let space_in_block := 4096 - offset_in_block
      let chunk_size := if bytes_remaining < space_in_block then bytes_remaining else space_in_block
      let journal_block_data := Direct.read_block img current_block
      let buffer := buffer.copy_in bytes_read journal_block_data.buf offset_in_block chunk_size
      Direct.read_loop img fuel buffer ((journal_pos + chunk_size) % 2 ^ 32)
        (bytes_remaining - chunk_size) (bytes_read + chunk_size)
    else ⟨buffer, bytes_remaining⟩

/-- `read_from_journal` on a bare image: the destination buffer after the
call. -/
def Direct.read_from_journal (img : Image) (journal_pos : Nat) (buffer : Buf) (size : Nat) : Buf :=
  (Direct.read_loop img size buffer journal_pos size 0).buffer

/-- The four appends of one transaction on a bare image. -/
def Direct.append_transaction (img : Image) (jh : journal_header)
    (bitmap_record inode_record dir_record : data_record) (commit_rec : commit_record) :
    Image × journal_header :=
  let a := Direct.append_record_to_journal img jh bitmap_record.bytes data_record_size
  let a := Direct.append_record_to_journal a.1 a.2 inode_record.bytes data_record_size
  let a := Direct.append_record_to_journal a.1 a.2 dir_record.bytes data_record_size
  Direct.append_record_to_journal a.1 a.2 commit_rec.bytes commit_record_size

/-- A list of block writes performed in order on a bare image. -/
def Direct.apply_pending (img : Image) (pending : List (Nat × Block)) : Image :=
  pending.foldl (fun im p => Direct.write_block im p.1 p.2) img


/-! ## Specification-level reading of the journal

These definitions do not come from the C code: they say what the journal of
an image *contains*, read off the image once, before anything is replayed. -/

/-- A journal record as the specification describes it. -/
inductive Rec
  /-- "block `block_no` must eventually contain this payload". -/
  | data (block_no : Nat) (payload : Block)
  /-- The commit boundary of a transaction. -/
  | commit

/-- The journal's byte region from position `pos` on. -/
def journal_at (img : Image) (pos : Nat) : Buf := fun k => jbyte img (pos + k)

/-- The well-formed records laid out in the journal bytes of `img` from `pos`
up to `bytes_used`: a data record has type tag 1 and declared size 4104, a
commit record type tag 2 and declared size 4, and the next record starts
where the previous one ends.  `none` when some record in the range is not of
one of these two shapes. -/
def parse_from (img : Image) (bytes_used : Nat) : Nat → Nat → Option (List Rec)
  | 0, pos => if pos < bytes_used then none else some []
  | fuel + 1, pos =>
    if pos < bytes_used then
      let p := journal_at img pos
      if get16 p 0 = 1 ∧ get16 p 2 = 4104 then
        (parse_from img bytes_used fuel (pos + 4104)).map (fun rs => Rec.data (get32 p 4) (p.block 8) :: rs)
      else if get16 p 0 = 2 ∧ get16 p 2 = 4 then
        (parse_from img bytes_used fuel (pos + 4)).map (fun rs => Rec.commit :: rs)
      else none
    else some []

/-- The records in the scanned range `[8, bytes_used)` of the journal of
`img` (every record takes at least 4 bytes, so `bytes_used` rounds are enough). -/
def parse_journal (img : Image) (bytes_used : Nat) : Option (List Rec) :=
  parse_from img bytes_used bytes_used 8

/-- The block writes of the committed transactions, in journal order: data
records are collected until a commit record releases them; data records not
followed by a commit record are dropped. -/
def committed_writes : List (Nat × Block) → List Rec → List (Nat × Block)
  | _, [] => []
  | pending, Rec.data b p :: rest => committed_writes (pending ++ [(b, p)]) rest
  | pending, Rec.commit :: rest => pending ++ committed_writes [] rest

/-- The content block `b` has after the writes `ws` are performed in order on
`img`: the payload of the last write to `b`, or the old content of `b` when
no write targets it. -/
def block_after (img : Image) (ws : List (Nat × Block)) (b : Nat) : Block :=
  match ws.reverse.find? (fun w => w.1 = b) with
  | some w => w.2
  | none => img b

/-- "At most 16 data records precede each commit": `n` counts the data
records since the last commit. -/
def runs_ok : Nat → List Rec → Bool
  | _, [] => true
  | n, Rec.data _ _ :: rest => runs_ok (n + 1) rest
  | n, Rec.commit :: rest => decide (n ≤ 16) && runs_ok 0 rest

/-- The target block of a data record lies outside the journal region
(blocks 1..16). -/
def Rec.outside_journal : Rec → Prop
  | Rec.data b _ => b = 0 ∨ 16 < b
  | Rec.commit => True

instance Rec.decidable_outside_journal : (r : Rec) → Decidable r.outside_journal
  | Rec.data b _ => inferInstanceAs (Decidable (b = 0 ∨ 16 < b))
  | Rec.commit => inferInstanceAs (Decidable True)

/-! ## Concrete images used as witnesses -/

/-- Bytes of a little-endian `uint32_t` placed at offset `off` of a block
that is zero elsewhere. -/
def word_at (off v : Nat) (rest : Block) : Block :=
  fun i => if off ≤ i.val ∧ i.val < off + 4 then le_byte v (i.val - off) else rest i

/-- The all-zero block. -/
def zero_block : Block := fun _ => 0

/-- An image whose journal holds one data record for block 20 (payload: the
single byte 7 at offset 0) followed by a commit record. -/
def img_one_txn : Image := fun b =>
  if b = 1 then
    word_at 0 JOURNAL_MAGIC (word_at 4 4116 (word_at 8 0x10080001 (word_at 12 20 (word_at 16 7 zero_block))))
  else if b = 2 then word_at 16 0x00040002 zero_block
  else zero_block

/-- An image with a valid superblock magic whose journal header says that
12324 bytes are in use. -/
def img_busy : Image := fun b =>
  if b = 0 then word_at 0 FS_MAGIC zero_block
  else if b = 1 then word_at 0 JOURNAL_MAGIC (word_at 4 12324 zero_block)
  else zero_block

/-- The image `img_one_txn` after its transaction has been installed. -/
def img_one_txn_installed : Image :=
  Direct.write_journal_header
    (Direct.write_block img_one_txn 20 ((Direct.read_from_journal img_one_txn 8 uninit 4104).block 8))
    ⟨JOURNAL_MAGIC, 8⟩

/-- The number of commit records, that is of complete transactions. -/
def num_commits : List Rec → Nat
  | [] => 0
  | Rec.data _ _ :: rest => num_commits rest
  | Rec.commit :: rest => num_commits rest + 1

/-- Journal bytes of the image `img_long`: a header with `bytes_used = 65680`,
15 data records at positions `8 + 4104 * k` (the first for block 17, the
others for block 20), a commit record at 61568, a data record for block 20 at
61572 whose payload starts with the byte 9, and a commit record at 65676,
which is in block 17.  The payload of the first data record carries, at its
offset 140, the four bytes of a data-record header. -/
def img_long_journal (q : Nat) : Nat :=
  if q < 8 then
    (if q = 0 then 0x4C else if q = 1 then 0x4E else if q = 2 then 0x52 else if q = 3 then 0x4A
     else if q = 4 then 0x90 else if q = 5 then 0x00 else if q = 6 then 0x01 else 0)
  else if q < 61568 then
    (if (q - 8) % 4104 = 0 then 1
     else if (q - 8) % 4104 = 2 then 0x08
     else if (q - 8) % 4104 = 3 then 0x10
     else if (q - 8) % 4104 = 4 then (if q < 4112 then 17 else 20)
     else if q = 156 then 1
     else if q = 158 then 0x08
     else if q = 159 then 0x10
     else 0)
  else if q = 61568 then 2
  else if q = 61570 then 4
  else if q = 61572 then 1
  else if q = 61574 then 0x08
  else if q = 61575 then 0x10
  else if q = 61576 then 20
  else if q = 61580 then 9
  else if q = 65676 then 2
  else if q = 65678 then 4
  else 0

/-- An image whose journal header claims more bytes than the 16 journal
blocks hold; all blocks outside the journal bytes are zero. -/
def img_long : Image := fun b i =>
  if b = 0 then 0 else byte_of (img_long_journal (4096 * (b - 1) + i.val))

/-- The records in the journal of `img_long`. -/
def img_long_recs : List Rec :=
  (List.range 15).map
      (fun k => Rec.data (if k = 0 then 17 else 20) ((journal_at img_long (8 + 4104 * k)).block 8))
    ++ [Rec.commit, Rec.data 20 ((journal_at img_long 61572).block 8), Rec.commit]

/-- The record is a data record. -/
def Rec.is_data : Rec → Prop
  | Rec.data _ _ => True
  | Rec.commit => False

instance Rec.decidable_is_data : (r : Rec) → Decidable r.is_data
  | Rec.data _ _ => inferInstanceAs (Decidable True)
  | Rec.commit => inferInstanceAs (Decidable False)

/-- An image whose journal holds two data records (for blocks 20 and 21) and
no commit record. -/
def img_uncommitted : Image := fun b =>
  if b = 1 then
    word_at 0 JOURNAL_MAGIC (word_at 4 8216 (word_at 8 0x10080001 (word_at 12 20 (word_at 16 7 zero_block))))
  else if b = 2 then word_at 16 0x10080001 (word_at 20 21 (word_at 24 5 zero_block))
  else zero_block

/-! ## Specification-level reading of the filesystem metadata -/

/-- The superblock of an image. -/
def sb_of (img : Image) : superblock := superblock.of_bytes (Direct.read_block img 0).buf

/-- Bit `i` of a bitmap block: byte `i / 8`, bit `i % 8`. -/
def inode_bit (bm : Block) (i : Nat) : Bool := (bm.buf (i / 8)).val.testBit (i % 8)

/-- Directory slot `s` is free: its inode field is 0 and its name is empty. -/
def slot_free (d : Block) (s : Nat) : Prop :=
  get32 d.buf (32 * s) = 0 ∧ (d.buf (32 * s + 4)).val = 0

instance slot_free_decidable (d : Block) (s : Nat) : Decidable (slot_free d s) :=
  inferInstanceAs (Decidable (_ ∧ _))

/-- The inode-table block that holds inode `i`. -/
def inode_table_block (img : Image) (i : Nat) : Nat :=
  ((sb_of img).inode_start + i / 32) % 2 ^ 32

/-- The preconditions of `journal_create` on an image, with `i` the inode
that will be allocated and `s` the directory slot that will be used. -/
@[mk_iff]
structure create_pre (img : Image) (i s : Nat) : Prop where
  /-- The filesystem magic is `FS_MAGIC`. -/
  fs_magic : (sb_of img).magic = FS_MAGIC
  /-- The journal header is uninitialized or empty. -/
  journal_free : (Direct.read_journal_header img).magic ≠ JOURNAL_MAGIC ∨
    (Direct.read_journal_header img).nbytes_used = 8
  /-- The bitmap scan stays inside the bitmap block. -/
  inode_count_le : (sb_of img).inode_count ≤ 32768
  /-- Inode `i` is the first one below `inode_count` whose bit is clear. -/
  inode_lt : i < (sb_of img).inode_count
  inode_clear : inode_bit (img (sb_of img).inode_bitmap) i = false
  inode_first : ∀ j, j < i → inode_bit (img (sb_of img).inode_bitmap) j = true
  /-- Slot `s` is the first free slot of the root directory. -/
  slot_lt : s < 128
  slot_is_free : slot_free (img (sb_of img).data_start) s
  slot_first : ∀ j, j < s → ¬ slot_free (img (sb_of img).data_start) j
  /-- The three target blocks lie outside the journal region (blocks 1..16). -/
  bitmap_outside : (sb_of img).inode_bitmap = 0 ∨ 16 < (sb_of img).inode_bitmap
  table_outside : inode_table_block img i = 0 ∨ 16 < inode_table_block img i
  dir_outside : (sb_of img).data_start = 0 ∨ 16 < (sb_of img).data_start
  /-- The three target blocks are pairwise distinct. -/
  bitmap_ne_table : (sb_of img).inode_bitmap ≠ inode_table_block img i
  bitmap_ne_dir : (sb_of img).inode_bitmap ≠ (sb_of img).data_start
  table_ne_dir : inode_table_block img i ≠ (sb_of img).data_start

instance create_pre_decidable (img : Image) (i s : Nat) : Decidable (create_pre img i s) :=
  decidable_of_iff _ (create_pre_iff img i s).symm

/-- The three block numbers that `journal_create` uses when it allocates
inode `i` are below `2 ^ 19`, so that for each of them the `int` product
`block_no * BLOCK_SIZE` is the offset of the block of that number. -/
@[mk_iff]
structure blocks_in_range (img : Image) (i : Nat) : Prop where
  bitmap_in_range : (sb_of img).inode_bitmap < 524288
  table_in_range : inode_table_block img i < 524288
  dir_in_range : (sb_of img).data_start < 524288

instance blocks_in_range_decidable (img : Image) (i : Nat) : Decidable (blocks_in_range img i) :=
  decidable_of_iff _ (blocks_in_range_iff img i).symm

/-- The `REC_DATA` record for block `block_no` with payload `data`, as
`journal_create` fills it in. -/
def mk_data_record (block_no : Nat) (data : Block) : data_record :=
  { hdr := { type := REC_DATA, size := data_record_size }, block_no := block_no, data := data }

/-- The `REC_COMMIT` record, as `journal_create` fills it in. -/
def mk_commit_record : commit_record :=
  { hdr := { type := REC_COMMIT, size := commit_record_size } }

/-- The image that `Direct.append_record_to_journal` leaves when the cursor of the
in-memory header is `p`: the first component of its result. -/
def append_image (img : Image) (p : Nat) (record : Buf) (record_size : Nat) : Image :=
  (Direct.append_loop record record_size img p record_size 0).img

/-- The image after the four appends of one transaction (three data records
and a commit record) to an empty journal. -/
def staged_image (img : Image) (r1 r2 r3 : data_record) (c : commit_record) : Image :=
  append_image
    (append_image
      (append_image
        (append_image img 8 r1.bytes 4104)
        4112 r2.bytes 4104)
      8216 r3.bytes 4104)
    12320 c.bytes 4

/-- The image on which `journal_create` works after its header check: the
old image, with a fresh header written when the magic was not there. -/
def init_image (img : Image) : Image :=
  if (Direct.read_journal_header img).magic ≠ JOURNAL_MAGIC then
    Direct.write_journal_header img ⟨JOURNAL_MAGIC, 8⟩
  else img

/-- The three block images `journal_create` computes for an image, when it
allocates inode `i` and uses directory slot `s`. -/
def new_blocks (img : Image) (i s : Nat) (name : List Byte)
    (now_ctime now_mtime now_root : Nat) : NewBlocks :=
  build_blocks (img (sb_of img).inode_bitmap) (img (inode_table_block img i))
    (img (sb_of img).data_start) i s name now_ctime now_mtime now_root

/-- A small filesystem image: superblock with `inode_count = 64`, inode bitmap
in block 17, inode table from block 18, root directory in block 19; the first
bitmap word is `bitmap0`, the root inode's size field `root_size`, the first
four name bytes of directory slot 0 `dir0`, and the journal header
`{jmagic, jused}`. -/
def mk_fs_image (bitmap0 root_size dir0 jmagic jused : Nat) : Image := fun b =>
  if b = 0 then
    word_at 0 FS_MAGIC (word_at 12 64 (word_at 20 17 (word_at 28 18 (word_at 32 19 zero_block))))
  else if b = 1 then word_at 0 jmagic (word_at 4 jused zero_block)
  else if b = 17 then word_at 0 bitmap0 zero_block
  else if b = 18 then word_at 4 root_size zero_block
  else if b = 19 then word_at 4 dir0 zero_block
  else zero_block

/-- Inode 0 allocated, directory slot 0 taken by ".", journal never used. -/
def img_fs : Image := mk_fs_image 1 64 46 0 0

/-- As `img_fs`, with an initialized empty journal. -/
def img_ready : Image := mk_fs_image 1 64 46 JOURNAL_MAGIC 8

/-- No inode allocated (not even the root inode, inode 0), an empty root
directory, a root inode whose size field is 5, journal never used. -/
def img_root_free : Image := mk_fs_image 0 5 0 0 0

/-- The name "foo.txt". -/
def foo_txt : List Byte := [102, 111, 111, 46, 116, 120, 116]

/-- The image `img_ready` after the four appends of `journal_create` for the
name "foo.txt" (inode 1, directory slot 1), before the final header write. -/
def img_ready_staged : Image :=
  staged_image (init_image img_ready)
    (mk_data_record (sb_of img_ready).inode_bitmap
      (new_blocks img_ready 1 1 foo_txt 7 7 7).new_inode_bitmap)
    (mk_data_record (inode_table_block img_ready 1)
      (new_blocks img_ready 1 1 foo_txt 7 7 7).new_inode_block)
    (mk_data_record (sb_of img_ready).data_start
      (new_blocks img_ready 1 1 foo_txt 7 7 7).new_root_dir)
    mk_commit_record

/-- The in-memory header `jh` of `journal_create` after its header check: a
fresh one when the magic was not there, else the one read from disk. -/
def init_header (img : Image) : journal_header :=
  if (Direct.read_journal_header img).magic ≠ JOURNAL_MAGIC then ⟨JOURNAL_MAGIC, 8⟩
  else Direct.read_journal_header img

/-! ## More concrete images -/

/-- As `img_ready`, but the journal header says that 60000 bytes are in use:
5536 bytes of the journal region remain. -/
def img_nearly_full : Image := mk_fs_image 1 64 46 JOURNAL_MAGIC 60000

/-- As `img_ready`, but the journal header says that 0 bytes are in use. -/
def img_short_header : Image := mk_fs_image 1 64 46 JOURNAL_MAGIC 0

/-- A journal of 4120 bytes: a data record for block 1 (the block of the
journal header) with an all-zero payload, a commit record at 4112, and at
4116 four zero bytes, which read as a record of type 0. -/
def img_hdr_clobber : Image := fun b =>
  if b = 1 then
    word_at 0 JOURNAL_MAGIC (word_at 4 4120 (word_at 8 0x10080001 (word_at 12 1 zero_block)))
  else if b = 2 then word_at 16 0x00040002 zero_block
  else zero_block

/-- A valid superblock magic and a journal of 12 bytes whose only record, at
offset 8, has type 7 and declared size 4. -/
def img_unknown_rec : Image := fun b =>
  if b = 0 then word_at 0 FS_MAGIC zero_block
  else if b = 1 then word_at 0 JOURNAL_MAGIC (word_at 4 12 (word_at 8 0x00040007 zero_block))
  else zero_block

/-- A valid superblock magic with `inode_count = 0`, and a journal header that
was never written. -/
def img_no_inodes : Image := fun b =>
  if b = 0 then word_at 0 FS_MAGIC zero_block else zero_block

/-- A journal of 12 bytes whose only record, at offset 8, is a commit record
that declares size 0. -/
def img_zero_commit : Image := fun b =>
  if b = 1 then word_at 0 JOURNAL_MAGIC (word_at 4 12 (word_at 8 0x00000002 zero_block))
  else zero_block

/-- The target block number of a data record is below `2 ^ 19`, so that the
`int` product `block_no * BLOCK_SIZE` is the offset of that block. -/
def Rec.in_range : Rec → Prop
  | Rec.data b _ => b < 524288
  | Rec.commit => True

instance Rec.decidable_in_range : (r : Rec) → Decidable r.in_range
  | Rec.data b _ => inferInstanceAs (Decidable (b < 524288))
  | Rec.commit => inferInstanceAs (Decidable True)

/-- The call `read_block(sb.inode_bitmap, inode_bitmap)` of `journal_create`:
the block it returns and the file after it.  The call comes after the header
check, which leaves the image `init_image img` and the file position 2. -/
def bitmap_read (img : Image) : Block × Disk :=
  read_block ⟨init_image img, 2⟩ (sb_of img).inode_bitmap

/-- The call `read_block(sb.data_start, root_dir_block)` of `journal_create`,
which follows the one above. -/
def root_dir_read (img : Image) : Block × Disk :=
  read_block (bitmap_read img).2 (sb_of img).data_start

/-- The file when the replay loop of `journal_install` starts: the image the
program was started on, the header having been read. -/
def scan_start (img : Image) : Disk := (read_journal_header ⟨img, 0⟩).2

/-- As `img_fs`, but the superblock gives `2 ^ 20 + 17` as the first data
block (the root directory block); the inode bitmap is block 17. -/
def img_far_dir : Image := fun b =>
  if b = 0 then
    word_at 0 FS_MAGIC (word_at 12 64 (word_at 20 17 (word_at 28 18 (word_at 32 1048593 zero_block))))
  else if b = 17 then word_at 0 1 zero_block
  else if b = 18 then word_at 4 64 zero_block
  else zero_block

/-- A journal of 8220 bytes: a data record for block 2 (a journal block), a
commit record at 4112, and a data record for block 20 at 4116, which no commit
record follows.  The payload of the first record repeats what block 2 holds,
except that at its offset 20 it has a record header of type 1 and size 8
where block 2 has the header of the last record. -/
def img_tail_written : Image := fun b =>
  if b = 1 then
    word_at 0 JOURNAL_MAGIC (word_at 4 8220 (word_at 8 0x10080001 (word_at 12 2
      (word_at 32 0x00040002 (word_at 36 0x00080001 (word_at 40 20
        (word_at 44 0x10000002 zero_block)))))))
  else if b = 2 then
    word_at 16 0x00040002 (word_at 20 0x10080001 (word_at 24 20
      (word_at 28 0x10000002 zero_block)))
  else zero_block

/-- The records in the journal of `img_tail_written`. -/
def img_tail_written_recs : List Rec :=
  [Rec.data 2 ((journal_at img_tail_written 8).block 8), Rec.commit,
   Rec.data 20 ((journal_at img_tail_written 4116).block 8)]

/-- A journal of 8220 bytes: a data record for block 20 (payload byte 7 at
offset 0), a commit record at 4112, and at 4116 a data record for block 21
(payload byte 5 at offset 0) that no commit record follows. -/
def img_txn_tail : Image := fun b =>
  if b = 1 then
    word_at 0 JOURNAL_MAGIC (word_at 4 8220 (word_at 8 0x10080001 (word_at 12 20 (word_at 16 7 zero_block))))
  else if b = 2 then
    word_at 16 0x00040002 (word_at 20 0x10080001 (word_at 24 21 (word_at 28 5 zero_block)))
  else zero_block

/-! ## Closed forms of the two copy loops, direct addressing -/

theorem jbyte_of_block (img : Image) (b : Nat) (i : Fin 4096) :
    jbyte img (4096 * b + i.val) = img (1 + b) i := by
  unfold jbyte
  have h1 : (4096 * b + i.val) / 4096 = b := by omega
  have h2 : (4096 * b + i.val) % 4096 = i.val := by omega
  simp only [h1, h2]

theorem block_buf_eq_jbyte (img : Image) (q d : Nat) (hd : q % 4096 + d < 4096) :
    (Direct.read_block img (1 + q / 4096)).buf (q % 4096 + d) = jbyte img (q + d) := by
  unfold Block.buf Direct.read_block
  rw [dif_pos hd]
  have h := jbyte_of_block img (q / 4096) ⟨q % 4096 + d, hd⟩
  have e : 4096 * (q / 4096) + (q % 4096 + d) = q + d := by omega
  simp only [e] at h
  exact h.symm

theorem read_loop_spec (img : Image) : ∀ (fuel : Nat) (buffer : Buf) (jp rem br : Nat),
    rem ≤ fuel → jp + rem ≤ 2 ^ 32 →
    (Direct.read_loop img fuel buffer jp rem br).bytes_remaining = 0 ∧
    ∀ k, (Direct.read_loop img fuel buffer jp rem br).buffer k =
      if br ≤ k ∧ k < br + rem then jbyte img (jp + (k - br)) else buffer k := by
  intro fuel
  induction fuel with
  | zero =>
    intro buffer jp rem br h _
    have : rem = 0 := by omega
    subst this
    refine ⟨rfl, fun k => ?_⟩
    simp only [Direct.read_loop]
    rw [if_neg (by omega)]
  | succ fuel ih =>
    intro buffer jp rem br hf hj
    unfold Direct.read_loop
    by_cases hr : rem > 0
    · simp only [hr, if_true]
      have hmod : jp % 4096 < 4096 := Nat.mod_lt _ (by decide)
      generalize hc : (if rem < 4096 - jp % 4096 then rem else 4096 - jp % 4096) = chunk
      have hc1 : 1 ≤ chunk := by rw [← hc]; split_ifs <;> omega
      have hc2 : chunk ≤ rem := by rw [← hc]; split_ifs <;> omega
      have hc3 : jp % 4096 + chunk ≤ 4096 := by rw [← hc]; split_ifs <;> omega
      have hj2 : (jp + chunk) % 2 ^ 32 + (rem - chunk) ≤ 2 ^ 32 := by
        have := Nat.mod_le (jp + chunk) (2 ^ 32)
        omega
      obtain ⟨h0, hk⟩ := ih (buffer.copy_in br (Direct.read_block img (1 + jp / 4096)).buf (jp % 4096) chunk)
        ((jp + chunk) % 2 ^ 32) (rem - chunk) (br + chunk) (by omega) hj2
      refine ⟨h0, fun k => ?_⟩
      rw [hk k]
      by_cases hin : br + chunk ≤ k ∧ k < br + chunk + (rem - chunk)
      · rw [if_pos hin, if_pos (by omega)]
        have hlt : jp + chunk < 2 ^ 32 := by omega
        rw [Nat.mod_eq_of_lt hlt]
        congr 1
        omega
      · rw [if_neg hin]
        unfold Buf.copy_in
        by_cases hin2 : br ≤ k ∧ k < br + chunk
        · rw [if_pos hin2, if_pos (by omega)]
          exact block_buf_eq_jbyte img jp (k - br) (by omega)
        · rw [if_neg hin2, if_neg (by omega)]
    · simp only [hr, if_false]
      have : rem = 0 := by omega
      subst this
      refine ⟨rfl, fun k => ?_⟩
      rw [if_neg (by omega)]

/-- Closed form of `Direct.read_from_journal`: the `size` bytes of the journal region
starting at `journal_pos` land at offsets `0 .. size - 1` of the buffer. -/
theorem read_from_journal_spec (img : Image) (journal_pos : Nat) (buffer : Buf) (size : Nat)
    (h : journal_pos + size ≤ 2 ^ 32) (k : Nat) :
    Direct.read_from_journal img journal_pos buffer size k =
      if k < size then jbyte img (journal_pos + k) else buffer k := by
  unfold Direct.read_from_journal
  rw [(read_loop_spec img size buffer journal_pos size 0 (le_refl _) h).2 k]
  simp

theorem read_from_journal_done (img : Image) (journal_pos : Nat) (buffer : Buf) (size : Nat)
    (h : journal_pos + size ≤ 2 ^ 32) :
    (Direct.read_loop img size buffer journal_pos size 0).bytes_remaining = 0 :=
  (read_loop_spec img size buffer journal_pos size 0 (le_refl _) h).1

theorem append_loop_spec (record : Buf) : ∀ (fuel : Nat) (img : Image) (jb rem bw : Nat),
    rem ≤ fuel → jb < 2 ^ 32 → jb + rem ≤ 2 ^ 32 →
    (Direct.append_loop record fuel img jb rem bw).bytes_remaining = 0 ∧
    (Direct.append_loop record fuel img jb rem bw).journal_bytes = (jb + rem) % 2 ^ 32 ∧
    ∀ (b : Nat) (i : Fin 4096), (Direct.append_loop record fuel img jb rem bw).img b i =
      if 1 ≤ b ∧ jb ≤ 4096 * (b - 1) + i.val ∧ 4096 * (b - 1) + i.val < jb + rem
      then record (bw + (4096 * (b - 1) + i.val - jb)) else img b i := by
  intro fuel
  induction fuel with
  | zero =>
    intro img jb rem bw h hjb hj
    have : rem = 0 := by omega
    subst this
    refine ⟨rfl, ?_, fun b i => ?_⟩
    · simp only [Direct.append_loop]
      rw [Nat.add_zero, Nat.mod_eq_of_lt hjb]
    · simp only [Direct.append_loop]
      rw [if_neg (by omega)]
  | succ fuel ih =>
    intro img jb rem bw hf hjb hj
    unfold Direct.append_loop
    by_cases hr : rem > 0
    · simp only [hr, if_true]
      have hmod : jb % 4096 < 4096 := Nat.mod_lt _ (by decide)
      generalize hc : (if rem < 4096 - jb % 4096 then rem else 4096 - jb % 4096) = chunk
      have hc1 : 1 ≤ chunk := by rw [← hc]; split_ifs <;> omega
      have hc2 : chunk ≤ rem := by rw [← hc]; split_ifs <;> omega
      have hc3 : jb % 4096 + chunk ≤ 4096 := by rw [← hc]; split_ifs <;> omega
      have hj2 : (jb + chunk) % 2 ^ 32 + (rem - chunk) ≤ 2 ^ 32 := by
        have := Nat.mod_le (jb + chunk) (2 ^ 32)
        omega
      obtain ⟨h0, h1, hk⟩ := ih
        (Direct.write_block img (1 + jb / 4096)
          (splice (Direct.read_block img (1 + jb / 4096)) (jb % 4096) record bw chunk))
        ((jb + chunk) % 2 ^ 32) (rem - chunk) (bw + chunk) (by omega)
        (Nat.mod_lt _ (by decide)) hj2
      refine ⟨h0, ?_, fun b i => ?_⟩
      · rw [h1]
        by_cases hlt : jb + chunk < 2 ^ 32
        · rw [Nat.mod_eq_of_lt hlt]
          congr 1
          omega
        · have e1 : jb + chunk = 2 ^ 32 := by omega
          have e2 : rem - chunk = 0 := by omega
          have e3 : jb + rem = 2 ^ 32 := by omega
          rw [e1, e2, e3]
          simp
      · rw [hk b i]
        have hi := i.isLt
        by_cases hin : 1 ≤ b ∧ (jb + chunk) % 2 ^ 32 ≤ 4096 * (b - 1) + i.val ∧
            4096 * (b - 1) + i.val < (jb + chunk) % 2 ^ 32 + (rem - chunk)
        · rw [if_pos hin]
          have hlt : jb + chunk < 2 ^ 32 := by omega
          rw [Nat.mod_eq_of_lt hlt] at hin
          rw [if_pos (by omega), Nat.mod_eq_of_lt hlt]
          congr 1
          omega
        · rw [if_neg hin]
          unfold Direct.write_block splice Direct.read_block
          by_cases hb : b = 1 + jb / 4096
          · rw [if_pos hb]
            by_cases hin2 : jb % 4096 ≤ i.val ∧ i.val < jb % 4096 + chunk
            · rw [if_pos hin2, if_pos (by omega)]
              congr 1
              omega
            · rw [if_neg hin2]
              have hnot : ¬ (1 ≤ b ∧ jb ≤ 4096 * (b - 1) + i.val ∧
                  4096 * (b - 1) + i.val < jb + rem) := by
                intro hh
                apply hin
                have hlt : jb + chunk < 2 ^ 32 ∨ rem = chunk := by omega
                rcases hlt with hlt | hlt
                · rw [Nat.mod_eq_of_lt hlt]; omega
                · omega
              rw [if_neg hnot, hb]
          · rw [if_neg hb]
            have hiff : (1 ≤ b ∧ jb ≤ 4096 * (b - 1) + i.val ∧
                  4096 * (b - 1) + i.val < jb + rem) → False := by
              intro hh
              apply hin
              have hlt : jb + chunk < 2 ^ 32 ∨ rem = chunk := by omega
              rcases hlt with hlt | hlt
              · rw [Nat.mod_eq_of_lt hlt]; omega
              · omega
            rw [if_neg hiff]
    · simp only [hr, if_false]
      have : rem = 0 := by omega
      subst this
      refine ⟨rfl, ?_, fun b i => ?_⟩
      · rw [Nat.add_zero, Nat.mod_eq_of_lt hjb]
      · rw [if_neg (by omega)]

/-- Closed form of `Direct.append_record_to_journal` on the journal's byte region:
bytes `[p, p + n)` hold the record, every other journal byte is unchanged. -/
theorem append_jbyte (img : Image) (jh : journal_header) (record : Buf) (n : Nat)
    (hp : jh.nbytes_used < 2 ^ 32) (h : jh.nbytes_used + n ≤ 2 ^ 32) (q : Nat) :
    jbyte (Direct.append_record_to_journal img jh record n).1 q =
      if jh.nbytes_used ≤ q ∧ q < jh.nbytes_used + n then record (q - jh.nbytes_used)
      else jbyte img q := by
  unfold Direct.append_record_to_journal jbyte
  simp only
  rw [(append_loop_spec record n img jh.nbytes_used n 0 (le_refl _) hp h).2.2]
  simp only [Nat.add_sub_cancel_left, Nat.zero_add]
  have e : 4096 * (q / 4096) + q % 4096 = q := by omega
  rw [e]
  simp

/-- The append leaves block 0 (the superblock) alone. -/
theorem append_block (img : Image) (jh : journal_header) (record : Buf) (n : Nat)
    (hp : jh.nbytes_used < 2 ^ 32) (h : jh.nbytes_used + n ≤ 2 ^ 32) (b : Nat)
    (hb : b = 0 ∨ 4096 * b ≤ jh.nbytes_used ∨ jh.nbytes_used + n ≤ 4096 * (b - 1)) :
    (Direct.append_record_to_journal img jh record n).1 b = img b := by
  funext i
  unfold Direct.append_record_to_journal
  simp only
  rw [(append_loop_spec record n img jh.nbytes_used n 0 (le_refl _) hp h).2.2]
  have := i.isLt
  rw [if_neg (by omega)]

theorem append_cursor (img : Image) (jh : journal_header) (record : Buf) (n : Nat)
    (hp : jh.nbytes_used < 2 ^ 32) (h : jh.nbytes_used + n ≤ 2 ^ 32) :
    (Direct.append_record_to_journal img jh record n).2 =
      { magic := jh.magic, nbytes_used := (jh.nbytes_used + n) % 2 ^ 32 } := by
  unfold Direct.append_record_to_journal
  simp only
  rw [(append_loop_spec record n img jh.nbytes_used n 0 (le_refl _) hp h).2.1]

theorem get32_le_byte (v : Nat) :
    (le_byte v 0).val + 256 * (le_byte v 1).val + 65536 * (le_byte v 2).val
      + 16777216 * (le_byte v 3).val = v % 2 ^ 32 := by
  simp only [le_byte, byte_of]
  norm_num
  omega

theorem get16_le_byte (v : Nat) :
    (le_byte v 0).val + 256 * (le_byte v 1).val = v % 2 ^ 16 := by
  simp only [le_byte, byte_of]
  norm_num
  omega

theorem block_buf_lt (blk : Block) (k : Nat) (h : k < 4096) : blk.buf k = blk ⟨k, h⟩ := by
  unfold Block.buf
  rw [dif_pos h]

theorem block_buf_eq_jbyte_one (img : Image) (q : Nat) (h : q < 4096) :
    (img 1).buf q = jbyte img q := by
  have := block_buf_eq_jbyte img 0 q (by omega)
  simpa [Direct.read_block] using this

/-- The header read back is decoded from journal bytes `0 .. 7`. -/
theorem read_journal_header_eq (img : Image) :
    Direct.read_journal_header img = ⟨get32 (journal_at img 0) 0, get32 (journal_at img 0) 4⟩ := by
  unfold Direct.read_journal_header get32 journal_at Direct.read_block
  simp only [block_buf_eq_jbyte_one img _ (show 0 < 4096 by decide),
    block_buf_eq_jbyte_one img _ (show 0 + 1 < 4096 by decide),
    block_buf_eq_jbyte_one img _ (show 0 + 2 < 4096 by decide),
    block_buf_eq_jbyte_one img _ (show 0 + 3 < 4096 by decide),
    block_buf_eq_jbyte_one img _ (show 4 < 4096 by decide),
    block_buf_eq_jbyte_one img _ (show 4 + 1 < 4096 by decide),
    block_buf_eq_jbyte_one img _ (show 4 + 2 < 4096 by decide),
    block_buf_eq_jbyte_one img _ (show 4 + 3 < 4096 by decide), Nat.zero_add]

theorem read_journal_header_congr (img img' : Image)
    (h : ∀ q, q < 8 → jbyte img' q = jbyte img q) :
    Direct.read_journal_header img' = Direct.read_journal_header img := by
  rw [read_journal_header_eq, read_journal_header_eq]
  unfold get32 journal_at
  simp only [Nat.zero_add]
  rw [h 0 (by decide), h 1 (by decide), h 2 (by decide), h 3 (by decide), h 4 (by decide),
    h 5 (by decide), h 6 (by decide), h 7 (by decide)]

theorem write_journal_header_jbyte (img : Image) (jh : journal_header) (q : Nat) :
    jbyte (Direct.write_journal_header img jh) q = if q < 8 then jh.bytes q else jbyte img q := by
  unfold Direct.write_journal_header jbyte Direct.write_block splice Direct.read_block
  by_cases hq : q < 8
  · have h1 : q / 4096 = 0 := by omega
    have h2 : q % 4096 = q := by omega
    simp [h1, h2, hq]
  · by_cases hb : q / 4096 = 0
    · have h2 : q % 4096 = q := by omega
      simp [hb, h2, hq]
    · have : 1 + q / 4096 ≠ 1 := by omega
      simp [this, hq]

theorem write_journal_header_block (img : Image) (jh : journal_header) (b : Nat) (hb : b ≠ 1) :
    Direct.write_journal_header img jh b = img b := by
  unfold Direct.write_journal_header Direct.write_block
  simp [hb]

/-- Reading the header after writing it gives the value written (its two
fields are `uint32_t`). -/
theorem read_write_journal_header (img : Image) (jh : journal_header)
    (h1 : jh.magic < 2 ^ 32) (h2 : jh.nbytes_used < 2 ^ 32) :
    Direct.read_journal_header (Direct.write_journal_header img jh) = jh := by
  rw [read_journal_header_eq]
  unfold get32 journal_at
  simp only [write_journal_header_jbyte, journal_header.bytes, Nat.zero_add]
  norm_num
  have e1 := get32_le_byte jh.magic
  have e2 := get32_le_byte jh.nbytes_used
  rw [Nat.mod_eq_of_lt h1] at e1
  rw [Nat.mod_eq_of_lt h2] at e2
  cases jh
  simp only [journal_header.mk.injEq]
  exact ⟨e1, e2⟩

theorem read_journal_header_block (img img' : Image) (h : img' 1 = img 1) :
    Direct.read_journal_header img' = Direct.read_journal_header img := by
  unfold Direct.read_journal_header Direct.read_block
  rw [h]

theorem write_journal_header_bytes (img : Image) (h : journal_header) (b : Nat) (i : Fin 4096)
    (hb : ¬ (b = 1 ∧ i.val < 8)) : Direct.write_journal_header img h b i = img b i := by
  by_cases hb1 : b = 1
  · subst hb1
    unfold Direct.write_journal_header Direct.write_block splice Direct.read_block
    simp only [if_true]
    rw [if_neg (by omega)]
  · rw [write_journal_header_block img h b hb1]

theorem le_byte_of_get32 (p : Buf) (off v : Nat) (h : get32 p off = v) :
    p off = le_byte v 0 ∧ p (off + 1) = le_byte v 1 ∧ p (off + 2) = le_byte v 2 ∧
      p (off + 3) = le_byte v 3 := by
  unfold get32 at h
  simp only [le_byte, byte_of]
  norm_num
  refine ⟨Fin.ext ?_, Fin.ext ?_, Fin.ext ?_, Fin.ext ?_⟩ <;> simp only <;> omega

/-- Writing a header whose magic is the one already on disk changes nothing
but bytes 4..7 of block 1. -/
theorem write_journal_header_same_magic (img : Image) (v : Nat) (b : Nat) (i : Fin 4096)
    (h : ¬ (b = 1 ∧ 4 ≤ i.val ∧ i.val < 8)) :
    Direct.write_journal_header img ⟨(Direct.read_journal_header img).magic, v⟩ b i = img b i := by
  by_cases hb : b = 1
  · subst hb
    have hmag := le_byte_of_get32 (img 1).buf 0 (Direct.read_journal_header img).magic rfl
    unfold Direct.write_journal_header Direct.write_block splice Direct.read_block journal_header.bytes
    simp only [if_true, Nat.zero_le, true_and, Nat.zero_add, Nat.sub_zero]
    by_cases hi : i.val < 8
    · rw [if_pos hi]
      have hi4 : i.val < 4 := by omega
      rw [if_pos hi4]
      have hv : i.val = 0 ∨ i.val = 1 ∨ i.val = 2 ∨ i.val = 3 := by omega
      have hbuf : (img 1).buf i.val = img 1 i := block_buf_lt _ _ i.isLt
      rw [← hbuf]
      rcases hv with hv | hv | hv | hv <;> rw [hv]
      · exact hmag.1.symm
      · exact hmag.2.1.symm
      · exact hmag.2.2.1.symm
      · exact hmag.2.2.2.symm
    · rw [if_neg hi]
  · rw [write_journal_header_block _ _ _ hb]

theorem get32_lt (p : Buf) (off : Nat) : get32 p off < 2 ^ 32 := by
  unfold get32
  have h0 := (p off).isLt
  have h1 := (p (off + 1)).isLt
  have h2 := (p (off + 2)).isLt
  have h3 := (p (off + 3)).isLt
  omega

theorem get16_lt (p : Buf) (off : Nat) : get16 p off < 2 ^ 16 := by
  unfold get16
  have h0 := (p off).isLt
  have h1 := (p (off + 1)).isLt
  omega

theorem append_cursor_eq (img : Image) (m p : Nat) (record : Buf) (n : Nat)
    (hp : p < 2 ^ 32) (h : p + n < 2 ^ 32) :
    (Direct.append_record_to_journal img ⟨m, p⟩ record n).2 = ⟨m, p + n⟩ := by
  rw [append_cursor img ⟨m, p⟩ record n hp (by simp only; omega)]
  simp only [Nat.mod_eq_of_lt h]

theorem append_fst (img : Image) (m p : Nat) (record : Buf) (n : Nat) :
    (Direct.append_record_to_journal img ⟨m, p⟩ record n).1 = append_image img p record n := rfl

theorem append_image_jbyte (img : Image) (p : Nat) (record : Buf) (n : Nat)
    (hp : p < 2 ^ 32) (h : p + n ≤ 2 ^ 32) (q : Nat) :
    jbyte (append_image img p record n) q =
      if p ≤ q ∧ q < p + n then record (q - p) else jbyte img q :=
  append_jbyte img ⟨0, p⟩ record n hp h q

theorem append_image_block (img : Image) (p : Nat) (record : Buf) (n : Nat)
    (hp : p < 2 ^ 32) (h : p + n ≤ 2 ^ 32) (b : Nat)
    (hb : b = 0 ∨ 4096 * b ≤ p ∨ p + n ≤ 4096 * (b - 1)) :
    append_image img p record n b = img b :=
  append_block img ⟨0, p⟩ record n hp h b hb

/-- The four appends of a transaction to an empty journal. -/
theorem append_transaction_eq (img : Image) (m : Nat) (r1 r2 r3 : data_record)
    (c : commit_record) :
    Direct.append_transaction img ⟨m, 8⟩ r1 r2 r3 c = (staged_image img r1 r2 r3 c, ⟨m, 12324⟩) := by
  unfold Direct.append_transaction
  simp only [data_record_size, commit_record_size]
  rw [append_cursor_eq _ _ 8 _ 4104 (by decide) (by decide),
    append_cursor_eq _ _ 4112 _ 4104 (by decide) (by decide),
    append_cursor_eq _ _ 8216 _ 4104 (by decide) (by decide)]
  rw [append_fst, append_fst, append_fst]
  have h2 : (Direct.append_record_to_journal
      (append_image (append_image (append_image img 8 r1.bytes 4104) 4112 r2.bytes 4104)
        8216 r3.bytes 4104) ⟨m, 12320⟩ c.bytes 4).2 = ⟨m, 12324⟩ :=
    append_cursor_eq _ _ 12320 _ 4 (by decide) (by decide)
  have h1 : (Direct.append_record_to_journal
      (append_image (append_image (append_image img 8 r1.bytes 4104) 4112 r2.bytes 4104)
        8216 r3.bytes 4104) ⟨m, 12320⟩ c.bytes 4).1 = staged_image img r1 r2 r3 c :=
    append_fst _ _ _ _ _
  exact Prod.ext h1 h2

/-- Journal bytes after the four appends of a transaction. -/
theorem staged_image_jbyte (img : Image) (r1 r2 r3 : data_record) (c : commit_record)
    (q : Nat) :
    jbyte (staged_image img r1 r2 r3 c) q =
      if 8 ≤ q ∧ q < 4112 then r1.bytes (q - 8)
      else if 4112 ≤ q ∧ q < 8216 then r2.bytes (q - 4112)
      else if 8216 ≤ q ∧ q < 12320 then r3.bytes (q - 8216)
      else if 12320 ≤ q ∧ q < 12324 then c.bytes (q - 12320)
      else jbyte img q := by
  unfold staged_image
  rw [append_image_jbyte _ _ _ _ (by omega) (by omega),
    append_image_jbyte _ _ _ _ (by omega) (by omega),
    append_image_jbyte _ _ _ _ (by omega) (by omega),
    append_image_jbyte _ _ _ _ (by omega) (by omega)]
  by_cases h1 : 8 ≤ q ∧ q < 4112
  · rw [if_neg (by omega), if_neg (by omega), if_neg (by omega), if_pos (by omega), if_pos h1]
  · by_cases h2 : 4112 ≤ q ∧ q < 8216
    · rw [if_neg (by omega), if_neg (by omega), if_pos (by omega), if_neg h1, if_pos h2]
    · by_cases h3 : 8216 ≤ q ∧ q < 12320
      · rw [if_neg (by omega), if_pos (by omega), if_neg h1, if_neg h2, if_pos h3]
      · by_cases h4 : 12320 ≤ q ∧ q < 12324
        · rw [if_pos (by omega), if_neg h1, if_neg h2, if_neg h3, if_pos h4]
        · rw [if_neg (by omega), if_neg (by omega), if_neg (by omega), if_neg (by omega),
            if_neg h1, if_neg h2, if_neg h3, if_neg h4]

/-- The four appends of a transaction touch journal blocks 1..4 only. -/
theorem staged_image_block (img : Image) (r1 r2 r3 : data_record) (c : commit_record)
    (b : Nat) (hb : b = 0 ∨ 4 < b) : staged_image img r1 r2 r3 c b = img b := by
  unfold staged_image
  rw [append_image_block _ _ _ _ (by omega) (by omega) b (by omega),
    append_image_block _ _ _ _ (by omega) (by omega) b (by omega),
    append_image_block _ _ _ _ (by omega) (by omega) b (by omega),
    append_image_block _ _ _ _ (by omega) (by omega) b (by omega)]

/-- The four appends of a transaction from a cursor `p ≤ 8`: the cursor ends
at `p + 12316`, and only journal blocks 1..4 are touched. -/
theorem append_transaction_frame (img : Image) (m p : Nat) (r1 r2 r3 : data_record)
    (c : commit_record) (hp : p ≤ 8) :
    (Direct.append_transaction img ⟨m, p⟩ r1 r2 r3 c).2 = ⟨m, p + 12316⟩ ∧
    ∀ b, (b = 0 ∨ 4 < b) → (Direct.append_transaction img ⟨m, p⟩ r1 r2 r3 c).1 b = img b := by
  unfold Direct.append_transaction
  simp only [data_record_size, commit_record_size]
  rw [append_cursor_eq _ _ p _ 4104 (by omega) (by omega),
    append_cursor_eq _ _ (p + 4104) _ 4104 (by omega) (by omega),
    append_cursor_eq _ _ (p + 4104 + 4104) _ 4104 (by omega) (by omega)]
  rw [append_fst, append_fst, append_fst]
  refine ⟨?_, ?_⟩
  · rw [append_cursor_eq _ _ (p + 4104 + 4104 + 4104) _ 4 (by omega) (by omega)]
  · intro b hb
    rw [append_fst,
      append_image_block _ _ _ _ (by omega) (by omega) b (by omega),
      append_image_block _ _ _ _ (by omega) (by omega) b (by omega),
      append_image_block _ _ _ _ (by omega) (by omega) b (by omega),
      append_image_block _ _ _ _ (by omega) (by omega) b (by omega)]

/-! ## Reading records off the journal bytes -/

theorem read4_get16_0 (img : Image) (pos : Nat) (h : pos + 4 ≤ 2 ^ 32) :
    get16 (Direct.read_from_journal img pos uninit 4) 0 = get16 (journal_at img pos) 0 := by
  unfold get16 journal_at
  rw [read_from_journal_spec _ _ _ _ h, read_from_journal_spec _ _ _ _ h]
  simp

theorem read4_get16_2 (img : Image) (pos : Nat) (h : pos + 4 ≤ 2 ^ 32) :
    get16 (Direct.read_from_journal img pos uninit 4) 2 = get16 (journal_at img pos) 2 := by
  unfold get16 journal_at
  rw [read_from_journal_spec _ _ _ _ h, read_from_journal_spec _ _ _ _ h]
  simp

theorem read4104_get32_4 (img : Image) (pos : Nat) (h : pos + 4104 ≤ 2 ^ 32) :
    get32 (Direct.read_from_journal img pos uninit 4104) 4 = get32 (journal_at img pos) 4 := by
  unfold get32 journal_at
  rw [read_from_journal_spec _ _ _ _ h, read_from_journal_spec _ _ _ _ h,
    read_from_journal_spec _ _ _ _ h, read_from_journal_spec _ _ _ _ h]
  simp

theorem read4104_block_8 (img : Image) (pos : Nat) (h : pos + 4104 ≤ 2 ^ 32) :
    (Direct.read_from_journal img pos uninit 4104).block 8 = (journal_at img pos).block 8 := by
  funext i
  unfold Buf.block journal_at
  rw [read_from_journal_spec _ _ _ _ h]
  have := i.isLt
  rw [if_pos (by omega)]

/-- Two images that agree on the journal blocks 1..16 have the same journal
bytes below 16 * 4096. -/
theorem jbyte_congr (img img0 : Image) (h : ∀ b, 1 ≤ b → b ≤ 16 → img b = img0 b) (q : Nat)
    (hq : q < 65536) : jbyte img q = jbyte img0 q := by
  unfold jbyte
  rw [h (1 + q / 4096) (by omega) (by omega)]

theorem get16_journal_congr (img img0 : Image) (h : ∀ b, 1 ≤ b → b ≤ 16 → img b = img0 b)
    (pos off : Nat) (hq : pos + off + 1 < 65536) :
    get16 (journal_at img pos) off = get16 (journal_at img0 pos) off := by
  unfold get16 journal_at
  rw [jbyte_congr img img0 h _ (by omega), jbyte_congr img img0 h _ (by omega)]

theorem get32_journal_congr (img img0 : Image) (h : ∀ b, 1 ≤ b → b ≤ 16 → img b = img0 b)
    (pos off : Nat) (hq : pos + off + 3 < 65536) :
    get32 (journal_at img pos) off = get32 (journal_at img0 pos) off := by
  unfold get32 journal_at
  rw [jbyte_congr img img0 h _ (by omega), jbyte_congr img img0 h _ (by omega),
    jbyte_congr img img0 h _ (by omega), jbyte_congr img img0 h _ (by omega)]

theorem block_journal_congr (img img0 : Image) (h : ∀ b, 1 ≤ b → b ≤ 16 → img b = img0 b)
    (pos : Nat) (hq : pos + 4104 ≤ 65536) :
    (journal_at img pos).block 8 = (journal_at img0 pos).block 8 := by
  funext i
  unfold Buf.block journal_at
  have := i.isLt
  rw [jbyte_congr img img0 h _ (by omega)]

theorem parse_from_done (img : Image) (bu fuel pos : Nat) (h : ¬ pos < bu) :
    parse_from img bu fuel pos = some [] := by
  cases fuel <;> simp [parse_from, h]

theorem data_record_fields (J : Image) (pos b : Nat) (p : Block) (hb : b < 2 ^ 32)
    (h : ∀ k, k < 4104 → jbyte J (pos + k) = (mk_data_record b p).bytes k) :
    get16 (journal_at J pos) 0 = 1 ∧ get16 (journal_at J pos) 2 = 4104 ∧
      get32 (journal_at J pos) 4 = b ∧ (journal_at J pos).block 8 = p := by
  refine ⟨?_, ?_, ?_, ?_⟩
  · unfold get16 journal_at
    rw [h 0 (by decide), h (0 + 1) (by decide)]
    simp [data_record.bytes, rec_header.bytes, mk_data_record, REC_DATA, le_byte, byte_of]
  · unfold get16 journal_at
    rw [h 2 (by decide), h (2 + 1) (by decide)]
    simp only [data_record.bytes, rec_header.bytes, mk_data_record, data_record_size, le_byte,
      byte_of]
    norm_num
  · unfold get32 journal_at
    rw [h 4 (by decide), h (4 + 1) (by decide), h (4 + 2) (by decide), h (4 + 3) (by decide)]
    simp only [data_record.bytes, mk_data_record]
    norm_num
    have := get32_le_byte b
    rw [Nat.mod_eq_of_lt hb] at this
    exact this
  · funext i
    unfold Buf.block journal_at
    have hi := i.isLt
    rw [h (8 + i.val) (by omega)]
    simp only [data_record.bytes, mk_data_record]
    rw [if_neg (by omega), if_neg (by omega)]
    have e : 8 + i.val - 8 = i.val := by omega
    rw [e, block_buf_lt _ _ hi]

theorem commit_record_fields (J : Image) (pos : Nat)
    (h : ∀ k, k < 4 → jbyte J (pos + k) = mk_commit_record.bytes k) :
    get16 (journal_at J pos) 0 = 2 ∧ get16 (journal_at J pos) 2 = 4 := by
  refine ⟨?_, ?_⟩
  · unfold get16 journal_at
    rw [h 0 (by decide), h (0 + 1) (by decide)]
    simp [commit_record.bytes, rec_header.bytes, mk_commit_record, REC_COMMIT, le_byte, byte_of]
  · unfold get16 journal_at
    rw [h 2 (by decide), h (2 + 1) (by decide)]
    simp only [commit_record.bytes, rec_header.bytes, mk_commit_record, commit_record_size,
      le_byte, byte_of]
    norm_num

theorem parse_from_data (J : Image) (bu fuel pos : Nat) (hlt : pos < bu)
    (h0 : get16 (journal_at J pos) 0 = 1) (h2 : get16 (journal_at J pos) 2 = 4104) :
    parse_from J bu (fuel + 1) pos =
      (parse_from J bu fuel (pos + 4104)).map
        (fun rs => Rec.data (get32 (journal_at J pos) 4) ((journal_at J pos).block 8) :: rs) := by
  rw [parse_from]
  simp only [hlt, h0, h2, if_true, and_self]

theorem parse_from_commit (J : Image) (bu fuel pos : Nat) (hlt : pos < bu)
    (h0 : get16 (journal_at J pos) 0 = 2) (h2 : get16 (journal_at J pos) 2 = 4) :
    parse_from J bu (fuel + 1) pos =
      (parse_from J bu fuel (pos + 4)).map (fun rs => Rec.commit :: rs) := by
  rw [parse_from]
  simp only [hlt, h0, h2, if_true, and_self]
  simp

/-- The journal of an image that holds one three-block transaction. -/
theorem parse_journal_txn (J : Image) (b1 b2 b3 : Nat) (p1 p2 p3 : Block)
    (hb1 : b1 < 2 ^ 32) (hb2 : b2 < 2 ^ 32) (hb3 : b3 < 2 ^ 32)
    (h1 : ∀ k, k < 4104 → jbyte J (8 + k) = (mk_data_record b1 p1).bytes k)
    (h2 : ∀ k, k < 4104 → jbyte J (4112 + k) = (mk_data_record b2 p2).bytes k)
    (h3 : ∀ k, k < 4104 → jbyte J (8216 + k) = (mk_data_record b3 p3).bytes k)
    (h4 : ∀ k, k < 4 → jbyte J (12320 + k) = mk_commit_record.bytes k) :
    parse_journal J 12324 = some [Rec.data b1 p1, Rec.data b2 p2, Rec.data b3 p3, Rec.commit] := by
  obtain ⟨a0, a2, a4, a8⟩ := data_record_fields J 8 b1 p1 hb1 h1
  obtain ⟨b0, b2', b4, b8⟩ := data_record_fields J 4112 b2 p2 hb2 h2
  obtain ⟨c0, c2, c4, c8⟩ := data_record_fields J 8216 b3 p3 hb3 h3
  obtain ⟨d0, d2⟩ := commit_record_fields J 12320 h4
  have key : ∀ f, parse_from J 12324 (f + 1 + 1 + 1 + 1) 8 =
      some [Rec.data b1 p1, Rec.data b2 p2, Rec.data b3 p3, Rec.commit] := by
    intro f
    rw [parse_from_data J _ _ 8 (by omega) a0 a2, parse_from_data J _ _ 4112 (by omega) b0 b2',
      parse_from_data J _ _ 8216 (by omega) c0 c2, parse_from_commit J _ _ 12320 (by omega) d0 d2,
      parse_from_done J _ _ _ (by omega)]
    simp only [Option.map_some', a4, a8, b4, b8, c4, c8]
  exact key 12320

/-! ## Block writes in order -/

theorem apply_pending_append (img : Image) (ws ws' : List (Nat × Block)) :
    Direct.apply_pending img (ws ++ ws') = Direct.apply_pending (Direct.apply_pending img ws) ws' := by
  unfold Direct.apply_pending
  rw [List.foldl_append]

theorem apply_pending_other (ws : List (Nat × Block)) : ∀ (img : Image) (b : Nat),
    (∀ w ∈ ws, w.1 ≠ b) → Direct.apply_pending img ws b = img b := by
  induction ws with
  | nil => intro img b _; rfl
  | cons w ws ih =>
    intro img b h
    have h1 : w.1 ≠ b := h w (List.mem_cons_self _ _)
    have h2 : ∀ w' ∈ ws, w'.1 ≠ b := fun w' hw' => h w' (List.mem_cons_of_mem _ hw')
    show Direct.apply_pending (Direct.write_block img w.1 w.2) ws b = img b
    rw [ih _ b h2]
    unfold Direct.write_block
    rw [if_neg (fun e => h1 e.symm)]

/-- Writing a list of blocks in order leaves in each block the payload of the
last write that targets it. -/
theorem apply_pending_eq_block_after (ws : List (Nat × Block)) (img : Image) (b : Nat) :
    Direct.apply_pending img ws b = block_after img ws b := by
  induction ws using List.reverseRecOn with
  | nil => rfl
  | append_singleton ws w ih =>
    rw [apply_pending_append]
    unfold block_after
    rw [List.reverse_append]
    simp only [List.reverse_cons, List.reverse_nil, List.nil_append, List.singleton_append,
      List.find?_cons]
    by_cases hb : w.1 = b
    · simp [hb, Direct.apply_pending, Direct.write_block]
    · have : Direct.apply_pending (Direct.apply_pending img ws) [w] b = Direct.apply_pending img ws b := by
        simp only [Direct.apply_pending, List.foldl_cons, List.foldl_nil, Direct.write_block]
        rw [if_neg (fun e => hb e.symm)]
      rw [this, ih]
      simp [hb, block_after]

/-! ## The header check of `journal_create` -/

theorem init_image_block (img : Image) (b : Nat) (hb : b ≠ 1) : init_image img b = img b := by
  unfold init_image
  split_ifs
  · exact write_journal_header_block _ _ _ hb
  · rfl

theorem init_pair_eq (img : Image) :
    (if (Direct.read_journal_header img).magic ≠ JOURNAL_MAGIC then
      (Direct.write_journal_header img ⟨JOURNAL_MAGIC, 8⟩, (⟨JOURNAL_MAGIC, 8⟩ : journal_header))
      else (img, Direct.read_journal_header img)) = (init_image img, init_header img) := by
  unfold init_image init_header
  split_ifs <;> rfl

theorem init_header_magic (img : Image) : (init_header img).magic = JOURNAL_MAGIC := by
  unfold init_header
  split_ifs with h
  · rfl
  · exact not_not.mp h

theorem init_header_eq_mk (img : Image) :
    init_header img = ⟨JOURNAL_MAGIC, (init_header img).nbytes_used⟩ := by
  have h := init_header_magic img
  cases hh : init_header img with
  | mk a b => rw [hh] at h; simp only at h; rw [h]

theorem init_header_of_magic (img : Image)
    (hm : (Direct.read_journal_header img).magic = JOURNAL_MAGIC) :
    init_header img = Direct.read_journal_header img := by
  unfold init_header
  rw [if_neg (by simp [hm])]

theorem init_image_of_magic (img : Image)
    (hm : (Direct.read_journal_header img).magic = JOURNAL_MAGIC) :
    init_image img = img := by
  unfold init_image
  rw [if_neg (by simp [hm])]

theorem init_image_bytes (img : Image) (b : Nat) (i : Fin 4096)
    (hb : ¬ (b = 1 ∧ i.val < 8)) : init_image img b i = img b i := by
  unfold init_image
  split_ifs
  · exact write_journal_header_bytes _ _ _ _ hb
  · rfl

theorem init_image_of_not_magic (img : Image)
    (hm : (Direct.read_journal_header img).magic ≠ JOURNAL_MAGIC) :
    init_image img = Direct.write_journal_header img ⟨JOURNAL_MAGIC, 8⟩ := by
  unfold init_image
  rw [if_pos hm]

/-! ## The two free-entry scans -/

set_option maxRecDepth 100000 in
theorem bit_test_iff : ∀ (x : Fin 256) (k : Fin 8),
    (x.val &&& (1 <<< k.val) = 0) ↔ x.val.testBit k.val = false := by decide

theorem inode_bit_test (bm : Block) (i : Nat) (h : i / 8 < 4096) :
    ((bm ⟨i / 8, h⟩).val &&& (1 <<< (i % 8)) = 0) ↔ inode_bit bm i = false := by
  unfold inode_bit
  rw [block_buf_lt bm _ h]
  exact bit_test_iff (bm ⟨i / 8, h⟩) ⟨i % 8, Nat.mod_lt _ (by decide)⟩

/-- `find_free_inode_from` returns the first clear bit at or after `i0`. -/
theorem find_free_inode_from_found (bm : Block) : ∀ (remaining i0 i : Nat),
    i0 ≤ i → i < i0 + remaining → i < 32768 → inode_bit bm i = false →
    (∀ j, i0 ≤ j → j < i → inode_bit bm j = true) →
    find_free_inode_from bm remaining i0 = some (i : Int) := by
  intro remaining
  induction remaining with
  | zero => intro i0 i h1 h2; omega
  | succ r ih =>
    intro i0 i h1 h2 h3 hclear hfirst
    unfold find_free_inode_from
    have hb : i0 / 8 < 4096 := by omega
    simp only [dif_pos hb]
    by_cases he : i0 = i
    · subst he
      rw [if_pos ((inode_bit_test bm i0 hb).mpr hclear)]
    · have hset := hfirst i0 (le_refl _) (by omega)
      have : ¬ ((bm ⟨i0 / 8, hb⟩).val &&& (1 <<< (i0 % 8)) = 0) := by
        rw [inode_bit_test bm i0 hb, hset]; simp
      rw [if_neg this]
      exact ih (i0 + 1) i (by omega) (by omega) h3 hclear
        (fun j hj1 hj2 => hfirst j (by omega) hj2)

theorem find_free_inode_found (bm : Block) (count i : Nat) (hi : i < count) (h3 : i < 32768)
    (hclear : inode_bit bm i = false) (hfirst : ∀ j, j < i → inode_bit bm j = true) :
    find_free_inode bm count = some (i : Int) :=
  find_free_inode_from_found bm count 0 i (Nat.zero_le _) (by omega) h3 hclear
    (fun j _ hj => hfirst j hj)

/-- `find_free_dirent_slot_from` returns the first free slot at or after `i0`. -/
theorem find_free_dirent_slot_from_found (d : Block) : ∀ (remaining i0 s : Nat),
    i0 ≤ s → s < i0 + remaining → slot_free d s →
    (∀ j, i0 ≤ j → j < s → ¬ slot_free d j) →
    find_free_dirent_slot_from d remaining i0 = (s : Int) := by
  intro remaining
  induction remaining with
  | zero => intro i0 s h1 h2; omega
  | succ r ih =>
    intro i0 s h1 h2 hfree hfirst
    unfold find_free_dirent_slot_from
    by_cases he : i0 = s
    · subst he
      unfold slot_free at hfree
      rw [if_pos hfree]
    · have hn := hfirst i0 (le_refl _) (by omega)
      unfold slot_free at hn
      rw [if_neg hn]
      exact ih (i0 + 1) s (by omega) (by omega) hfree
        (fun j hj1 hj2 => hfirst j (by omega) hj2)

theorem find_free_dirent_slot_found (d : Block) (s : Nat) (hs : s < 128)
    (hfree : slot_free d s) (hfirst : ∀ j, j < s → ¬ slot_free d j) :
    find_free_dirent_slot d = (s : Int) :=
  find_free_dirent_slot_from_found d 128 0 s (Nat.zero_le _) (by omega) hfree
    (fun j _ hj => hfirst j hj)

/-- With every bit from `i0` on set, the scan of `find_free_inode` runs to
its end and returns -1. -/
theorem find_free_inode_from_full (bm : Block) : ∀ (remaining i0 : Nat),
    i0 + remaining ≤ 32768 →
    (∀ j, i0 ≤ j → j < i0 + remaining → inode_bit bm j = true) →
    find_free_inode_from bm remaining i0 = some (-1) := by
  intro remaining
  induction remaining with
  | zero => intro i0 _ _; rfl
  | succ r ih =>
    intro i0 hle hset
    unfold find_free_inode_from
    have hb : i0 / 8 < 4096 := by omega
    simp only [dif_pos hb]
    have : ¬ ((bm ⟨i0 / 8, hb⟩).val &&& (1 <<< (i0 % 8)) = 0) := by
      rw [inode_bit_test bm i0 hb, hset i0 (le_refl _) (by omega)]; simp
    rw [if_neg this]
    exact ih (i0 + 1) (by omega) (fun j hj1 hj2 => hset j (by omega) (by omega))

/-- A clear bit below `count` has a first one, which `find_free_inode`
returns. -/
theorem find_free_inode_least (bm : Block) (count : Nat) (hn : count ≤ 32768)
    (h : ∃ i, i < count ∧ inode_bit bm i = false) :
    ∃ i, i < count ∧ inode_bit bm i = false ∧ (∀ j, j < i → inode_bit bm j = true) ∧
      find_free_inode bm count = some (i : Int) := by
  classical
  have hlt := (Nat.find_spec h).1
  have hclear := (Nat.find_spec h).2
  have hfirst : ∀ j, j < Nat.find h → inode_bit bm j = true := by
    intro j hj
    have hmin := Nat.find_min h hj
    by_contra hne
    exact hmin ⟨by omega, by simpa using hne⟩
  exact ⟨Nat.find h, hlt, hclear, hfirst,
    find_free_inode_found bm count _ hlt (by omega) hclear hfirst⟩

theorem find_free_inode_full_iff (bm : Block) (count : Nat) (hn : count ≤ 32768) :
    find_free_inode bm count = some (-1) ↔ ∀ i, i < count → inode_bit bm i = true := by
  constructor
  · intro hr i hi
    by_contra hne
    obtain ⟨k, _, _, _, hk⟩ := find_free_inode_least bm count hn ⟨i, hi, by simpa using hne⟩
    rw [hk] at hr
    have := Option.some.inj hr
    omega
  · intro hall
    exact find_free_inode_from_full bm count 0 (by omega) (fun j _ hj => hall j (by omega))

theorem find_free_inode_ne_none (bm : Block) (count : Nat) (hn : count ≤ 32768) :
    find_free_inode bm count ≠ none := by
  by_cases h : ∃ i, i < count ∧ inode_bit bm i = false
  · obtain ⟨k, _, _, _, hk⟩ := find_free_inode_least bm count hn h
    rw [hk]; simp
  · have hall : ∀ i, i < count → inode_bit bm i = true := by
      intro i hi
      by_contra hne
      exact h ⟨i, hi, by simpa using hne⟩
    rw [(find_free_inode_full_iff bm count hn).mpr hall]; simp

/-! ## The three block images -/

theorem splice_buf (blk : Block) (off : Nat) (src : Buf) (so n k : Nat) (hk : k < 4096) :
    (splice blk off src so n).buf k =
      if off ≤ k ∧ k < off + n then src (so + (k - off)) else blk.buf k := by
  rw [block_buf_lt _ _ hk, block_buf_lt _ _ hk]
  rfl

theorem get16_splice_disjoint (blk : Block) (off : Nat) (src : Buf) (so n a : Nat)
    (ha : a + 2 ≤ 4096) (h : a + 2 ≤ off ∨ off + n ≤ a) :
    get16 (splice blk off src so n).buf a = get16 blk.buf a := by
  unfold get16
  rw [splice_buf _ _ _ _ _ _ (by omega), splice_buf _ _ _ _ _ _ (by omega),
    if_neg (by omega), if_neg (by omega)]

theorem get32_splice_disjoint (blk : Block) (off : Nat) (src : Buf) (so n a : Nat)
    (ha : a + 4 ≤ 4096) (h : a + 4 ≤ off ∨ off + n ≤ a) :
    get32 (splice blk off src so n).buf a = get32 blk.buf a := by
  unfold get32
  rw [splice_buf _ _ _ _ _ _ (by omega), splice_buf _ _ _ _ _ _ (by omega),
    splice_buf _ _ _ _ _ _ (by omega), splice_buf _ _ _ _ _ _ (by omega),
    if_neg (by omega), if_neg (by omega), if_neg (by omega), if_neg (by omega)]

theorem get16_put16 (blk : Block) (off v : Nat) (h : off + 2 ≤ 4096) :
    get16 (put16 blk off v).buf off = v % 2 ^ 16 := by
  unfold get16 put16
  rw [splice_buf _ _ _ _ _ _ (by omega), splice_buf _ _ _ _ _ _ (by omega),
    if_pos (by omega), if_pos (by omega)]
  simp only [Nat.sub_self, Nat.add_sub_cancel_left, Nat.zero_add]
  exact get16_le_byte v

theorem get32_put32 (blk : Block) (off v : Nat) (h : off + 4 ≤ 4096) :
    get32 (put32 blk off v).buf off = v % 2 ^ 32 := by
  unfold get32 put32
  rw [splice_buf _ _ _ _ _ _ (by omega), splice_buf _ _ _ _ _ _ (by omega),
    splice_buf _ _ _ _ _ _ (by omega), splice_buf _ _ _ _ _ _ (by omega),
    if_pos (by omega), if_pos (by omega), if_pos (by omega), if_pos (by omega)]
  simp only [Nat.sub_self, Nat.add_sub_cancel_left, Nat.zero_add]
  exact get32_le_byte v

set_option maxRecDepth 100000 in
theorem set_bit_test : ∀ (x : Fin 256) (k l : Fin 8),
    ((x.val ||| (1 <<< k.val)) % 256).testBit l.val = (decide (l = k) || x.val.testBit l.val) := by
  decide

/-- The new inode bitmap has bit `i` set and every other bit as before. -/
theorem new_inode_bitmap_bit (bm ib rd : Block) (i s : Nat) (name : List Byte) (t1 t2 t3 : Nat)
    (j : Nat) (hj : j < 32768) :
    inode_bit (build_blocks bm ib rd i s name t1 t2 t3).new_inode_bitmap j =
      if j = i then true else inode_bit bm j := by
  have hj8 : j / 8 < 4096 := by omega
  unfold inode_bit build_blocks
  simp only
  rw [block_buf_lt _ _ hj8, block_buf_lt _ _ hj8]
  simp only
  by_cases hb : j / 8 = i / 8
  · rw [if_pos hb]
    have := set_bit_test (bm ⟨j / 8, hj8⟩) ⟨i % 8, Nat.mod_lt _ (by decide)⟩
      ⟨j % 8, Nat.mod_lt _ (by decide)⟩
    simp only [byte_of]
    rw [this]
    by_cases hji : j = i
    · subst hji; simp
    · rw [if_neg hji]
      have : ¬ ((⟨j % 8, Nat.mod_lt _ (by decide)⟩ : Fin 8) = ⟨i % 8, Nat.mod_lt _ (by decide)⟩) := by
        intro e
        have := Fin.mk.inj_iff.mp e
        omega
      simp [this]
  · rw [if_neg hb]
    have : j ≠ i := fun e => hb (by rw [e])
    rw [if_neg this]

/-- The slot of the new inode holds type 1, links 1, size 0, unless the new
inode is inode 0 (which the root-inode update then overwrites). -/
theorem new_inode_block_fields (bm ib rd : Block) (i s : Nat) (name : List Byte) (t1 t2 t3 : Nat)
    (hi : i ≠ 0) :
    get16 (build_blocks bm ib rd i s name t1 t2 t3).new_inode_block.buf (128 * (i % 32)) = 1 ∧
    get16 (build_blocks bm ib rd i s name t1 t2 t3).new_inode_block.buf (128 * (i % 32) + 2) = 1 ∧
    get32 (build_blocks bm ib rd i s name t1 t2 t3).new_inode_block.buf (128 * (i % 32) + 4) = 0 := by
  have hslot : i % 32 < 32 := Nat.mod_lt _ (by decide)
  have hbase : i / 32 = 0 → 128 ≤ 128 * (i % 32) := by omega
  unfold build_blocks
  simp only
  by_cases h0 : i / 32 = 0
  · have hb := hbase h0
    rw [if_pos h0]
    refine ⟨?_, ?_, ?_⟩
    · unfold put32 memset0
      rw [get16_splice_disjoint _ _ _ _ _ _ (by omega) (by omega),
        get16_splice_disjoint _ _ _ _ _ _ (by omega) (by omega),
        get16_splice_disjoint _ _ _ _ _ _ (by omega) (by omega),
        get16_splice_disjoint _ _ _ _ _ _ (by omega) (by omega),
        get16_splice_disjoint _ _ _ _ _ _ (by omega) (by omega),
        get16_splice_disjoint _ _ _ _ _ _ (by omega) (by omega)]
      rw [put16, get16_splice_disjoint _ _ _ _ _ _ (by omega) (by omega),
        get16_put16 _ _ _ (by omega)]
      rfl
    · unfold put32 memset0
      rw [get16_splice_disjoint _ _ _ _ _ _ (by omega) (by omega),
        get16_splice_disjoint _ _ _ _ _ _ (by omega) (by omega),
        get16_splice_disjoint _ _ _ _ _ _ (by omega) (by omega),
        get16_splice_disjoint _ _ _ _ _ _ (by omega) (by omega),
        get16_splice_disjoint _ _ _ _ _ _ (by omega) (by omega),
        get16_splice_disjoint _ _ _ _ _ _ (by omega) (by omega)]
      rw [get16_put16 _ _ _ (by omega)]
      rfl
    · rw [put32, get32_splice_disjoint _ _ _ _ _ _ (by omega) (by omega),
        put32, get32_splice_disjoint _ _ _ _ _ _ (by omega) (by omega),
        put32, get32_splice_disjoint _ _ _ _ _ _ (by omega) (by omega),
        put32, get32_splice_disjoint _ _ _ _ _ _ (by omega) (by omega),
        memset0, get32_splice_disjoint _ _ _ _ _ _ (by omega) (by omega),
        get32_put32 _ _ _ (by omega)]
      rfl
  · rw [if_neg h0]
    refine ⟨?_, ?_, ?_⟩
    · unfold put32 memset0
      rw [get16_splice_disjoint _ _ _ _ _ _ (by omega) (by omega),
        get16_splice_disjoint _ _ _ _ _ _ (by omega) (by omega),
        get16_splice_disjoint _ _ _ _ _ _ (by omega) (by omega),
        get16_splice_disjoint _ _ _ _ _ _ (by omega) (by omega)]
      rw [put16, get16_splice_disjoint _ _ _ _ _ _ (by omega) (by omega),
        get16_put16 _ _ _ (by omega)]
      rfl
    · unfold put32 memset0
      rw [get16_splice_disjoint _ _ _ _ _ _ (by omega) (by omega),
        get16_splice_disjoint _ _ _ _ _ _ (by omega) (by omega),
        get16_splice_disjoint _ _ _ _ _ _ (by omega) (by omega),
        get16_splice_disjoint _ _ _ _ _ _ (by omega) (by omega)]
      rw [get16_put16 _ _ _ (by omega)]
      rfl
    · rw [put32, get32_splice_disjoint _ _ _ _ _ _ (by omega) (by omega),
        put32, get32_splice_disjoint _ _ _ _ _ _ (by omega) (by omega),
        memset0, get32_splice_disjoint _ _ _ _ _ _ (by omega) (by omega),
        get32_put32 _ _ _ (by omega)]
      rfl

/-- When the new inode lies in the first inode-table block and is not inode
0, the root inode's size grows by 32 (modulo 2^32). -/
theorem new_inode_block_root_size (bm ib rd : Block) (i s : Nat) (name : List Byte)
    (t1 t2 t3 : Nat) (hi : i ≠ 0) (h0 : i / 32 = 0) :
    get32 (build_blocks bm ib rd i s name t1 t2 t3).new_inode_block.buf 4 =
      (get32 ib.buf 4 + 32) % 2 ^ 32 := by
  have hslot : i % 32 < 32 := Nat.mod_lt _ (by decide)
  have hb : 128 ≤ 128 * (i % 32) := by omega
  unfold build_blocks
  simp only
  rw [if_pos h0]
  rw [put32, get32_splice_disjoint _ _ _ _ _ _ (by omega) (by omega),
    get32_put32 _ _ _ (by omega), Nat.mod_mod]
  congr 2
  rw [put32, get32_splice_disjoint _ _ _ _ _ _ (by omega) (by omega),
    put32, get32_splice_disjoint _ _ _ _ _ _ (by omega) (by omega),
    memset0, get32_splice_disjoint _ _ _ _ _ _ (by omega) (by omega),
    put32, get32_splice_disjoint _ _ _ _ _ _ (by omega) (by omega),
    put16, get32_splice_disjoint _ _ _ _ _ _ (by omega) (by omega),
    put16, get32_splice_disjoint _ _ _ _ _ _ (by omega) (by omega)]

/-- The new root directory block: slot `s` holds the inode number and the
name, cut to 27 bytes and padded with NUL; every other byte is as before. -/
theorem new_root_dir_entry (bm ib rd : Block) (i s : Nat) (name : List Byte) (t1 t2 t3 : Nat)
    (hs : s < 128) (hi : i < 2 ^ 32) :
    get32 (build_blocks bm ib rd i s name t1 t2 t3).new_root_dir.buf (32 * s) = i ∧
    (∀ k, k < 28 → (build_blocks bm ib rd i s name t1 t2 t3).new_root_dir.buf (32 * s + 4 + k) =
      if k < min (strlen name) 27 then name.getD k 0 else 0) ∧
    (∀ j : Fin 4096, (j.val < 32 * s ∨ 32 * s + 32 ≤ j.val) →
      (build_blocks bm ib rd i s name t1 t2 t3).new_root_dir j = rd j) := by
  unfold build_blocks
  simp only
  refine ⟨?_, ?_, ?_⟩
  · rw [get32_splice_disjoint _ _ _ _ _ _ (by omega) (by omega),
      get32_splice_disjoint _ _ _ _ _ _ (by omega) (by omega),
      get32_put32 _ _ _ (by omega), Nat.mod_eq_of_lt hi]
  · intro k hk
    rw [splice_buf _ _ _ _ _ _ (by omega)]
    by_cases h27 : k = 27
    · subst h27
      rw [if_pos (by omega), if_neg (by omega)]
    · rw [if_neg (by omega), splice_buf _ _ _ _ _ _ (by omega), if_pos (by omega)]
      unfold strncpy_bytes
      have e : 0 + (32 * s + 4 + k - (32 * s + 4)) = k := by omega
      rw [e]
      by_cases hl : k < strlen name
      · rw [if_pos hl, if_pos (by omega)]
      · rw [if_neg hl, if_neg (by omega)]
  · intro j hj
    have hjl := j.isLt
    unfold put32 splice
    simp only
    rw [if_neg (by omega), if_neg (by omega), if_neg (by omega)]

/-! ## The block store below block `2 ^ 19`

For a block number below `2 ^ 19` the `int` product `block_no * BLOCK_SIZE`
is the offset of that block, and the functions on the open file do what the
functions of direct addressing do on its image. -/

theorem seek_block_lt (pos block_no : Nat) (h : block_no < 524288) :
    seek_block pos block_no = block_no := by
  unfold seek_block
  have h1 : (block_no * 4096) % 2 ^ 32 = block_no * 4096 := Nat.mod_eq_of_lt (by omega)
  rw [h1, if_pos (by omega)]
  omega

theorem read_block_img (d : Disk) (block_no : Nat) : (read_block d block_no).2.img = d.img := rfl

theorem read_block_direct (d : Disk) (block_no : Nat) (h : block_no < 524288) :
    read_block d block_no = (Direct.read_block d.img block_no, ⟨d.img, block_no + 1⟩) := by
  unfold read_block Direct.read_block
  rw [seek_block_lt _ _ h]

theorem write_block_direct (d : Disk) (block_no : Nat) (buffer : Block) (h : block_no < 524288) :
    write_block d block_no buffer = ⟨Direct.write_block d.img block_no buffer, block_no + 1⟩ := by
  unfold write_block Direct.write_block
  rw [seek_block_lt _ _ h]

theorem read_journal_header_direct (d : Disk) :
    read_journal_header d = (Direct.read_journal_header d.img, ⟨d.img, 2⟩) := by
  unfold read_journal_header Direct.read_journal_header
  rw [read_block_direct d 1 (by decide)]

theorem write_journal_header_direct (d : Disk) (jh : journal_header) :
    write_journal_header d jh = ⟨Direct.write_journal_header d.img jh, 2⟩ := by
  unfold write_journal_header Direct.write_journal_header
  rw [read_block_direct d 1 (by decide)]
  simp only
  rw [write_block_direct _ 1 _ (by decide)]

theorem append_loop_direct (record : Buf) : ∀ (fuel : Nat) (d : Disk) (jb rem bw : Nat),
    jb + rem ≤ 2 ^ 31 - 4096 →
    ∃ pos, append_loop record fuel d jb rem bw =
      ⟨⟨(Direct.append_loop record fuel d.img jb rem bw).img, pos⟩,
       (Direct.append_loop record fuel d.img jb rem bw).journal_bytes,
       (Direct.append_loop record fuel d.img jb rem bw).bytes_remaining⟩ := by
  intro fuel
  induction fuel with
  | zero =>
    intro d jb rem bw _
    exact ⟨d.pos, rfl⟩
  | succ fuel ih =>
    intro d jb rem bw h
    by_cases hr : rem > 0
    · unfold append_loop Direct.append_loop
      simp only [hr, if_true]
      have hmod : jb % 4096 < 4096 := Nat.mod_lt _ (by decide)
      generalize hc : (if rem < 4096 - jb % 4096 then rem else 4096 - jb % 4096) = chunk
      have hc2 : chunk ≤ rem := by rw [← hc]; split_ifs <;> omega
      rw [read_block_direct d (1 + jb / 4096) (by omega)]
      simp only
      rw [write_block_direct _ (1 + jb / 4096) _ (by omega)]
      have hlt : jb + chunk < 2 ^ 32 := by omega
      rw [Nat.mod_eq_of_lt hlt]
      exact ih _ (jb + chunk) (rem - chunk) (bw + chunk) (by omega)
    · unfold append_loop Direct.append_loop
      simp only [hr, if_false]
      exact ⟨d.pos, rfl⟩

theorem append_record_to_journal_direct (d : Disk) (jh : journal_header) (record : Buf) (n : Nat)
    (h : jh.nbytes_used + n ≤ 2 ^ 31 - 4096) :
    ∃ pos, append_record_to_journal d jh record n =
      (⟨(Direct.append_record_to_journal d.img jh record n).1, pos⟩,
       (Direct.append_record_to_journal d.img jh record n).2) := by
  obtain ⟨pos, hp⟩ := append_loop_direct record n d jh.nbytes_used n 0 h
  refine ⟨pos, ?_⟩
  unfold append_record_to_journal Direct.append_record_to_journal
  simp only
  rw [hp]

/-- A read never changes the image. -/
theorem read_loop_img : ∀ (fuel : Nat) (d : Disk) (buffer : Buf) (jp rem br : Nat),
    (read_loop fuel d buffer jp rem br).disk.img = d.img := by
  intro fuel
  induction fuel with
  | zero => intro d buffer jp rem br; rfl
  | succ fuel ih =>
    intro d buffer jp rem br
    unfold read_loop
    by_cases hr : rem > 0
    · simp only [hr, if_true]
      rw [ih]
      rfl
    · simp only [hr, if_false]

theorem read_from_journal_img (d : Disk) (journal_pos : Nat) (buffer : Buf) (size : Nat) :
    (read_from_journal d journal_pos buffer size).2.img = d.img := by
  unfold read_from_journal
  exact read_loop_img _ _ _ _ _ _

theorem read_loop_direct : ∀ (fuel : Nat) (d : Disk) (buffer : Buf) (jp rem br : Nat),
    jp + rem ≤ 2 ^ 31 - 4096 →
    (read_loop fuel d buffer jp rem br).buffer =
      (Direct.read_loop d.img fuel buffer jp rem br).buffer ∧
    (read_loop fuel d buffer jp rem br).bytes_remaining =
      (Direct.read_loop d.img fuel buffer jp rem br).bytes_remaining := by
  intro fuel
  induction fuel with
  | zero => intro d buffer jp rem br _; exact ⟨rfl, rfl⟩
  | succ fuel ih =>
    intro d buffer jp rem br h
    by_cases hr : rem > 0
    · unfold read_loop Direct.read_loop
      simp only [hr, if_true]
      have hmod : jp % 4096 < 4096 := Nat.mod_lt _ (by decide)
      generalize hc : (if rem < 4096 - jp % 4096 then rem else 4096 - jp % 4096) = chunk
      have hc2 : chunk ≤ rem := by rw [← hc]; split_ifs <;> omega
      rw [read_block_direct d (1 + jp / 4096) (by omega)]
      simp only
      have hlt : jp + chunk < 2 ^ 32 := by omega
      rw [Nat.mod_eq_of_lt hlt]
      exact ih ⟨d.img, 1 + jp / 4096 + 1⟩ _ (jp + chunk) (rem - chunk) (br + chunk) (by omega)
    · unfold read_loop Direct.read_loop
      simp only [hr, if_false, and_self]

theorem read_from_journal_direct (d : Disk) (journal_pos : Nat) (buffer : Buf) (size : Nat)
    (h : journal_pos + size ≤ 2 ^ 31 - 4096) :
    (read_from_journal d journal_pos buffer size).1 =
      Direct.read_from_journal d.img journal_pos buffer size := by
  unfold read_from_journal Direct.read_from_journal
  exact (read_loop_direct size d buffer journal_pos size 0 h).1

theorem apply_pending_direct (ws : List (Nat × Block)) : ∀ (d : Disk),
    (∀ w ∈ ws, w.1 < 524288) →
    (apply_pending d ws).img = Direct.apply_pending d.img ws := by
  induction ws with
  | nil => intro d _; rfl
  | cons w ws ih =>
    intro d h
    show (apply_pending (write_block d w.1 w.2) ws).img =
      Direct.apply_pending (Direct.write_block d.img w.1 w.2) ws
    rw [ih _ (fun w' hw' => h w' (List.mem_cons_of_mem _ hw')),
      write_block_direct d w.1 w.2 (h w (List.mem_cons_self _ _))]

/-- The four appends of a transaction from a cursor `p ≤ 8`. -/
theorem append_transaction_direct (d : Disk) (m p : Nat) (r1 r2 r3 : data_record)
    (c : commit_record) (hp : p ≤ 8) :
    ∃ pos, append_transaction d ⟨m, p⟩ r1 r2 r3 c =
      (⟨(Direct.append_transaction d.img ⟨m, p⟩ r1 r2 r3 c).1, pos⟩,
       (Direct.append_transaction d.img ⟨m, p⟩ r1 r2 r3 c).2) := by
  unfold append_transaction Direct.append_transaction
  simp only [data_record_size, commit_record_size]
  obtain ⟨q1, h1⟩ := append_record_to_journal_direct d ⟨m, p⟩ r1.bytes 4104 (by simp only; omega)
  rw [h1]
  rw [append_cursor_eq _ _ p _ 4104 (by omega) (by omega)]
  generalize (Direct.append_record_to_journal d.img ⟨m, p⟩ r1.bytes 4104).1 = i1
  obtain ⟨q2, h2⟩ := append_record_to_journal_direct ⟨i1, q1⟩ ⟨m, p + 4104⟩ r2.bytes 4104
    (by simp only; omega)
  rw [h2]
  rw [append_cursor_eq _ _ (p + 4104) _ 4104 (by omega) (by omega)]
  generalize (Direct.append_record_to_journal i1 ⟨m, p + 4104⟩ r2.bytes 4104).1 = i2
  obtain ⟨q3, h3⟩ := append_record_to_journal_direct ⟨i2, q2⟩ ⟨m, p + 4104 + 4104⟩ r3.bytes 4104
    (by simp only; omega)
  rw [h3]
  rw [append_cursor_eq _ _ (p + 4104 + 4104) _ 4104 (by omega) (by omega)]
  generalize (Direct.append_record_to_journal i2 ⟨m, p + 4104 + 4104⟩ r3.bytes 4104).1 = i3
  exact append_record_to_journal_direct ⟨i3, q3⟩ ⟨m, p + 4104 + 4104 + 4104⟩ c.bytes 4
    (by simp only; omega)

/-! ## The replay loop -/

theorem install_loop_ne_empty (bu : Nat) : ∀ (fuel : Nat) (d : Disk) (pos : Nat)
    (pend : List (Nat × Block)) (n : Nat) (d' : Disk),
    install_loop bu fuel d pos pend n ≠ some (InstallOutcome.empty, d') := by
  intro fuel
  induction fuel with
  | zero =>
    intro d pos pend n d'
    unfold install_loop
    split_ifs <;> simp
  | succ fuel ih =>
    intro d pos pend n d'
    unfold install_loop
    simp only
    split_ifs
    · simp
    · exact ih _ _ _ _ _
    · exact ih _ _ _ _ _
    · simp
    · simp

theorem install_loop_ne_not_initialized (bu : Nat) : ∀ (fuel : Nat) (d : Disk) (pos : Nat)
    (pend : List (Nat × Block)) (n : Nat) (d' : Disk),
    install_loop bu fuel d pos pend n ≠ some (InstallOutcome.not_initialized, d') := by
  intro fuel
  induction fuel with
  | zero =>
    intro d pos pend n d'
    unfold install_loop
    split_ifs <;> simp
  | succ fuel ih =>
    intro d pos pend n d'
    unfold install_loop
    simp only
    split_ifs
    · simp
    · exact ih _ _ _ _ _
    · exact ih _ _ _ _ _
    · simp
    · simp

theorem install_loop_exit (bu fuel : Nat) (d : Disk) (pos : Nat) (pend : List (Nat × Block))
    (n : Nat) (h : ¬ pos < bu) :
    install_loop bu fuel d pos pend n = some (InstallOutcome.installed n pend.length, d) := by
  cases fuel <;> simp [install_loop, h]

theorem read_from_journal_eq (d : Disk) (journal_pos : Nat) (buffer : Buf) (size : Nat)
    (h : journal_pos + size ≤ 2 ^ 31 - 4096) :
    ∃ q, read_from_journal d journal_pos buffer size =
      (Direct.read_from_journal d.img journal_pos buffer size, ⟨d.img, q⟩) := by
  refine ⟨(read_from_journal d journal_pos buffer size).2.pos, ?_⟩
  have h1 := read_from_journal_direct d journal_pos buffer size h
  have h2 := read_from_journal_img d journal_pos buffer size
  refine Prod.ext h1 ?_
  cases hd : (read_from_journal d journal_pos buffer size).2 with
  | mk i p => rw [hd] at h2; simp only at h2; rw [h2]

theorem install_loop_step_data (bu fuel : Nat) (d : Disk) (pos : Nat)
    (pend : List (Nat × Block)) (n : Nat) (h : pos < bu) (hp : pos + 4104 ≤ 2 ^ 31 - 4096)
    (ht : get16 (journal_at d.img pos) 0 = 1) (hl : pend.length < 16) :
    ∃ q, install_loop bu (fuel + 1) d pos pend n =
      install_loop bu fuel ⟨d.img, q⟩ ((pos + get16 (journal_at d.img pos) 2) % 2 ^ 32)
        (pend ++ [(get32 (journal_at d.img pos) 4, (journal_at d.img pos).block 8)]) n := by
  obtain ⟨q1, e1⟩ := read_from_journal_eq d pos uninit 4 (by omega)
  obtain ⟨q2, e2⟩ := read_from_journal_eq ⟨d.img, q1⟩ pos uninit 4104 hp
  refine ⟨q2, ?_⟩
  rw [install_loop]
  simp only [e1, e2, rec_header.of_bytes, data_record.of_bytes, REC_DATA, REC_COMMIT,
    read4_get16_0 d.img pos (by omega), read4_get16_2 d.img pos (by omega),
    read4104_get32_4 d.img pos (by omega), read4104_block_8 d.img pos (by omega), ht]
  rw [if_pos h, if_pos trivial, if_neg (by omega)]

theorem install_loop_step_commit (bu fuel : Nat) (d : Disk) (pos : Nat)
    (pend : List (Nat × Block)) (n : Nat) (h : pos < bu) (hp : pos + 4 ≤ 2 ^ 31 - 4096)
    (ht : get16 (journal_at d.img pos) 0 = 2) :
    ∃ q, install_loop bu (fuel + 1) d pos pend n =
      install_loop bu fuel (apply_pending ⟨d.img, q⟩ pend)
        ((pos + get16 (journal_at d.img pos) 2) % 2 ^ 32) [] (n + 1) := by
  obtain ⟨q1, e1⟩ := read_from_journal_eq d pos uninit 4 hp
  refine ⟨q1, ?_⟩
  rw [install_loop]
  simp only [e1, rec_header.of_bytes, REC_DATA, REC_COMMIT,
    read4_get16_0 d.img pos (by omega), read4_get16_2 d.img pos (by omega), ht]
  rw [if_pos h]
  simp

/-- The replay loop against the static reading of the journal: when the
scanned range lies inside the journal region and every data record targets a
block below `2 ^ 19` that is not a journal block, the loop ends normally and
has performed exactly the writes of the committed transactions. -/
theorem install_loop_replay (img0 : Image) (bu : Nat) (hbu : bu ≤ 65536) :
    ∀ (f1 pos : Nat) (recs : List Rec), parse_from img0 bu f1 pos = some recs →
    ∀ (f2 : Nat) (d : Disk) (pend : List (Nat × Block)) (n : Nat),
      recs.length ≤ f2 → (∀ b, 1 ≤ b → b ≤ 16 → d.img b = img0 b) → pos % 4 = 0 →
      8 + 4104 * pend.length ≤ pos → (∀ r ∈ recs, r.outside_journal) →
      (∀ r ∈ recs, r.in_range) →
      (∀ w ∈ pend, w.1 = 0 ∨ 16 < w.1) → (∀ w ∈ pend, w.1 < 524288) →
      ∃ c d', install_loop bu f2 d pos pend n =
          some (InstallOutcome.installed (n + num_commits recs) c, d') ∧
        d'.img = Direct.apply_pending d.img (committed_writes pend recs) := by
  intro f1
  induction f1 with
  | zero =>
    intro pos recs hparse f2 d pend n _ _ _ _ _ _ _ _
    unfold parse_from at hparse
    by_cases hlt : pos < bu
    · rw [if_pos hlt] at hparse; simp at hparse
    · rw [if_neg hlt] at hparse
      simp only [Option.some.injEq] at hparse
      subst hparse
      exact ⟨pend.length, d, by rw [install_loop_exit _ _ _ _ _ _ hlt]; rfl, rfl⟩
  | succ f1 ih =>
    intro pos recs hparse f2 d pend n hf2 hreg hpos hpend hout hin hpout hpin
    unfold parse_from at hparse
    by_cases hlt : pos < bu
    · rw [if_pos hlt] at hparse
      simp only at hparse
      have hlen : pend.length < 16 := by omega
      by_cases hd : get16 (journal_at img0 pos) 0 = 1 ∧ get16 (journal_at img0 pos) 2 = 4104
      · rw [if_pos hd] at hparse
        obtain ⟨rest, hrest, hrecs⟩ := Option.map_eq_some'.mp hparse
        subst hrecs
        obtain ⟨f2, rfl⟩ : ∃ g, f2 = g + 1 := ⟨f2 - 1, by simp at hf2; omega⟩
        have ht : get16 (journal_at d.img pos) 0 = 1 := by
          rw [get16_journal_congr d.img img0 hreg pos 0 (by omega)]; exact hd.1
        have hs : get16 (journal_at d.img pos) 2 = 4104 := by
          rw [get16_journal_congr d.img img0 hreg pos 2 (by omega)]; exact hd.2
        obtain ⟨q, hstep⟩ := install_loop_step_data bu f2 d pos pend n hlt (by omega) ht hlen
        rw [hstep, hs, Nat.mod_eq_of_lt (by omega)]
        by_cases hnext : pos + 4104 < bu
        · rw [get32_journal_congr d.img img0 hreg pos 4 (by omega),
            block_journal_congr d.img img0 hreg pos (by omega)]
          have := ih (pos + 4104) rest hrest f2 ⟨d.img, q⟩
            (pend ++ [(get32 (journal_at img0 pos) 4, (journal_at img0 pos).block 8)]) n
            (by simp at hf2; omega) hreg (by omega)
            (by rw [List.length_append, List.length_singleton]; omega)
            (fun r hr => hout r (List.mem_cons_of_mem _ hr))
            (fun r hr => hin r (List.mem_cons_of_mem _ hr))
            (by
              intro w hw
              rcases List.mem_append.mp hw with hw | hw
              · exact hpout w hw
              · rw [List.mem_singleton] at hw
                subst hw
                exact hout _ (List.mem_cons_self _ _))
            (by
              intro w hw
              rcases List.mem_append.mp hw with hw | hw
              · exact hpin w hw
              · rw [List.mem_singleton] at hw
                subst hw
                exact hin _ (List.mem_cons_self _ _))
          exact this
        · rw [parse_from_done _ _ _ _ hnext] at hrest
          simp only [Option.some.injEq] at hrest
          subst hrest
          exact ⟨_, ⟨d.img, q⟩, by rw [install_loop_exit _ _ _ _ _ _ hnext]; rfl, rfl⟩
      · rw [if_neg hd] at hparse
        by_cases hc : get16 (journal_at img0 pos) 0 = 2 ∧ get16 (journal_at img0 pos) 2 = 4
        · rw [if_pos hc] at hparse
          obtain ⟨rest, hrest, hrecs⟩ := Option.map_eq_some'.mp hparse
          subst hrecs
          obtain ⟨f2, rfl⟩ : ∃ g, f2 = g + 1 := ⟨f2 - 1, by simp at hf2; omega⟩
          have ht : get16 (journal_at d.img pos) 0 = 2 := by
            rw [get16_journal_congr d.img img0 hreg pos 0 (by omega)]; exact hc.1
          have hs : get16 (journal_at d.img pos) 2 = 4 := by
            rw [get16_journal_congr d.img img0 hreg pos 2 (by omega)]; exact hc.2
          obtain ⟨q, hstep⟩ := install_loop_step_commit bu f2 d pos pend n hlt (by omega) ht
          rw [hstep, hs, Nat.mod_eq_of_lt (by omega)]
          have himg : (apply_pending ⟨d.img, q⟩ pend).img = Direct.apply_pending d.img pend :=
            apply_pending_direct pend ⟨d.img, q⟩ hpin
          have hreg' : ∀ b, 1 ≤ b → b ≤ 16 → (apply_pending ⟨d.img, q⟩ pend).img b = img0 b := by
            intro b h1 h16
            rw [himg, apply_pending_other pend d.img b, hreg b h1 h16]
            intro w hw
            have := hpout w hw
            omega
          obtain ⟨c, d', hc', hd'⟩ := ih (pos + 4) rest hrest f2 (apply_pending ⟨d.img, q⟩ pend)
            [] (n + 1)
            (by simp at hf2; omega) hreg' (by omega) (by simp; omega)
            (fun r hr => hout r (List.mem_cons_of_mem _ hr))
            (fun r hr => hin r (List.mem_cons_of_mem _ hr)) (by simp) (by simp)
          refine ⟨c, d', ?_, ?_⟩
          · rw [hc']
            simp only [num_commits]
            congr 3
            omega
          · rw [hd', himg]
            simp only [committed_writes, apply_pending_append]
        · rw [if_neg hc] at hparse; simp at hparse
    · rw [if_neg hlt] at hparse
      simp only [Option.some.injEq] at hparse
      subst hparse
      exact ⟨pend.length, d, by rw [install_loop_exit _ _ _ _ _ _ hlt]; rfl, rfl⟩

theorem install_loop_fuel_succ (bu : Nat) : ∀ (fuel : Nat) (d : Disk) (pos : Nat)
    (pend : List (Nat × Block)) (n : Nat) (r : InstallOutcome × Disk),
    install_loop bu fuel d pos pend n = some r →
    install_loop bu (fuel + 1) d pos pend n = some r := by
  intro fuel
  induction fuel with
  | zero =>
    intro d pos pend n r h
    unfold install_loop at h
    by_cases hlt : pos < bu
    · rw [if_pos hlt] at h; simp at h
    · rw [install_loop_exit _ _ _ _ _ _ hlt]
      rw [if_neg hlt] at h
      exact h
  | succ fuel ih =>
    intro d pos pend n r h
    rw [install_loop] at h
    rw [install_loop]
    simp only at h ⊢
    split_ifs at h ⊢
    · exact h
    · exact ih _ _ _ _ _ h
    · exact ih _ _ _ _ _ h
    · exact h
    · exact h

theorem install_loop_fuel_mono (bu : Nat) (fuel extra : Nat) (d : Disk) (pos : Nat)
    (pend : List (Nat × Block)) (n : Nat) (r : InstallOutcome × Disk)
    (h : install_loop bu fuel d pos pend n = some r) :
    install_loop bu (fuel + extra) d pos pend n = some r := by
  induction extra with
  | zero => exact h
  | succ k ih => exact install_loop_fuel_succ bu (fuel + k) d pos pend n r ih

/-! ## The exits of `journal_install` -/

theorem journal_install_of_not_magic (fuel : Nat) (img : Image)
    (hm : (Direct.read_journal_header img).magic ≠ JOURNAL_MAGIC) :
    journal_install fuel img = some (InstallOutcome.not_initialized, img) := by
  unfold journal_install
  simp only [read_journal_header_direct]
  rw [if_pos hm]

theorem journal_install_of_empty (fuel : Nat) (img : Image)
    (hm : (Direct.read_journal_header img).magic = JOURNAL_MAGIC)
    (h8 : (Direct.read_journal_header img).nbytes_used = 8) :
    journal_install fuel img = some (InstallOutcome.empty, img) := by
  unfold journal_install
  simp only [read_journal_header_direct, hm, ne_eq, not_true_eq_false, if_false, h8, if_true]

theorem journal_install_loop_none (fuel : Nat) (img : Image)
    (hm : (Direct.read_journal_header img).magic = JOURNAL_MAGIC)
    (h8 : (Direct.read_journal_header img).nbytes_used ≠ 8)
    (hl : install_loop (Direct.read_journal_header img).nbytes_used fuel ⟨img, 2⟩ 8 [] 0 = none) :
    journal_install fuel img = none := by
  unfold journal_install
  simp only [read_journal_header_direct, hm, ne_eq, not_true_eq_false, if_false, h8]
  rw [hl]

theorem journal_install_loop_installed (fuel : Nat) (img : Image)
    (hm : (Direct.read_journal_header img).magic = JOURNAL_MAGIC)
    (h8 : (Direct.read_journal_header img).nbytes_used ≠ 8) (n c : Nat) (d : Disk)
    (hl : install_loop (Direct.read_journal_header img).nbytes_used fuel ⟨img, 2⟩ 8 [] 0 =
      some (InstallOutcome.installed n c, d)) :
    journal_install fuel img =
      some (InstallOutcome.installed n c,
        Direct.write_journal_header d.img ⟨JOURNAL_MAGIC, 8⟩) := by
  unfold journal_install
  simp only [read_journal_header_direct, hm, ne_eq, not_true_eq_false, if_false, h8]
  rw [hl]
  simp only [write_journal_header_direct]

theorem journal_install_loop_failed (fuel : Nat) (img : Image)
    (hm : (Direct.read_journal_header img).magic = JOURNAL_MAGIC)
    (h8 : (Direct.read_journal_header img).nbytes_used ≠ 8) (o : InstallOutcome) (d : Disk)
    (hl : install_loop (Direct.read_journal_header img).nbytes_used fuel ⟨img, 2⟩ 8 [] 0 =
      some (o, d))
    (ho : o.ret ≠ 0) :
    journal_install fuel img = some (o, d.img) := by
  unfold journal_install
  simp only [read_journal_header_direct, hm, ne_eq, not_true_eq_false, if_false, h8]
  rw [hl]
  cases o <;> first | rfl | exact absurd rfl ho

/-- The ways in which `journal_install` returns. -/
theorem journal_install_cases (fuel : Nat) (img : Image) (o : InstallOutcome) (img' : Image)
    (h : journal_install fuel img = some (o, img')) :
    ((Direct.read_journal_header img).magic ≠ JOURNAL_MAGIC ∧
      o = InstallOutcome.not_initialized ∧ img' = img) ∨
    ((Direct.read_journal_header img).magic = JOURNAL_MAGIC ∧
      (Direct.read_journal_header img).nbytes_used = 8 ∧
      o = InstallOutcome.empty ∧ img' = img) ∨
    ((Direct.read_journal_header img).magic = JOURNAL_MAGIC ∧
      (Direct.read_journal_header img).nbytes_used ≠ 8 ∧
      ∃ n c d, install_loop (Direct.read_journal_header img).nbytes_used fuel ⟨img, 2⟩ 8 [] 0 =
          some (InstallOutcome.installed n c, d) ∧
        o = InstallOutcome.installed n c ∧
        img' = Direct.write_journal_header d.img ⟨JOURNAL_MAGIC, 8⟩) ∨
    ((Direct.read_journal_header img).magic = JOURNAL_MAGIC ∧
      (Direct.read_journal_header img).nbytes_used ≠ 8 ∧ o.ret ≠ 0 ∧
      ∃ d, install_loop (Direct.read_journal_header img).nbytes_used fuel ⟨img, 2⟩ 8 [] 0 =
          some (o, d) ∧ img' = d.img) := by
  by_cases hm : (Direct.read_journal_header img).magic = JOURNAL_MAGIC
  · right
    by_cases h8 : (Direct.read_journal_header img).nbytes_used = 8
    · left
      rw [journal_install_of_empty fuel img hm h8] at h
      simp only [Option.some.injEq, Prod.mk.injEq] at h
      exact ⟨hm, h8, h.1.symm, h.2.symm⟩
    · right
      cases hl : install_loop (Direct.read_journal_header img).nbytes_used fuel ⟨img, 2⟩ 8 [] 0 with
      | none => rw [journal_install_loop_none fuel img hm h8 hl] at h; simp at h
      | some r =>
        obtain ⟨o1, d⟩ := r
        by_cases ho1 : o1.ret = 0
        · cases o1 with
          | installed n c =>
            left
            rw [journal_install_loop_installed fuel img hm h8 n c d hl] at h
            simp only [Option.some.injEq, Prod.mk.injEq] at h
            exact ⟨hm, h8, n, c, d, rfl, h.1.symm, h.2.symm⟩
          | empty => exact absurd hl (install_loop_ne_empty _ _ _ _ _ _ _)
          | not_initialized => exact absurd ho1 (by simp [InstallOutcome.ret])
          | too_many_records => exact absurd ho1 (by simp [InstallOutcome.ret])
          | unknown_type t => exact absurd ho1 (by simp [InstallOutcome.ret])
        · right
          rw [journal_install_loop_failed fuel img hm h8 o1 d hl ho1] at h
          simp only [Option.some.injEq, Prod.mk.injEq] at h
          rw [← h.1]
          exact ⟨hm, h8, ho1, d, rfl, h.2.symm⟩
  · left
    rw [journal_install_of_not_magic fuel img hm] at h
    simp only [Option.some.injEq, Prod.mk.injEq] at h
    exact ⟨hm, h.1.symm, h.2.symm⟩

/-- More fuel does not change the result of `journal_install`. -/
theorem journal_install_fuel_mono (fuel extra : Nat) (img : Image) (r : InstallOutcome × Image)
    (h : journal_install fuel img = some r) : journal_install (fuel + extra) img = some r := by
  obtain ⟨o, img'⟩ := r
  rcases journal_install_cases fuel img o img' h with hc | hc | hc | hc
  · rw [journal_install_of_not_magic _ img hc.1, hc.2.1, hc.2.2]
  · rw [journal_install_of_empty _ img hc.1 hc.2.1, hc.2.2.1, hc.2.2.2]
  · obtain ⟨hm, h8, n, c, d, hl, ho, hi⟩ := hc
    rw [journal_install_loop_installed _ img hm h8 n c d
      (install_loop_fuel_mono _ fuel extra _ _ _ _ _ hl), ho, hi]
  · obtain ⟨hm, h8, ho, d, hl, hi⟩ := hc
    rw [journal_install_loop_failed _ img hm h8 o d
      (install_loop_fuel_mono _ fuel extra _ _ _ _ _ hl) ho, hi]

/-- Two runs of `journal_install` that both finish give the same result. -/
theorem journal_install_deterministic (f1 f2 : Nat) (img : Image) (r1 r2 : InstallOutcome × Image)
    (h1 : journal_install f1 img = some r1) (h2 : journal_install f2 img = some r2) : r1 = r2 := by
  have e1 := journal_install_fuel_mono f1 f2 img r1 h1
  have e2 := journal_install_fuel_mono f2 f1 img r2 h2
  rw [Nat.add_comm] at e2
  rw [e1] at e2
  exact Option.some.inj e2

/-- A successful `journal_install` leaves the header `{JOURNAL_MAGIC, 8}`. -/
theorem journal_install_ok_header (fuel : Nat) (img : Image) (o : InstallOutcome) (img' : Image)
    (h : journal_install fuel img = some (o, img')) (ho : o.ret = 0) :
    Direct.read_journal_header img' = ⟨JOURNAL_MAGIC, 8⟩ := by
  rcases journal_install_cases fuel img o img' h with hc | hc | hc | hc
  · rw [hc.2.1] at ho; exact absurd ho (by decide)
  · rw [hc.2.2.2]
    have hm := hc.1
    have h8 := hc.2.1
    cases hh : Direct.read_journal_header img with
    | mk a b => rw [hh] at hm h8; simp only at hm h8; rw [hm, h8]
  · obtain ⟨_, _, n, c, d, _, _, hi⟩ := hc
    rw [hi]
    exact read_write_journal_header d.img ⟨JOURNAL_MAGIC, 8⟩ (by decide) (by decide)
  · exact absurd ho hc.2.2.1

/-- Install on a well-formed journal that fits the journal region: the call
succeeds and the image it leaves is the old one with the committed writes
performed in order and the header reset. -/
theorem journal_install_replay (img : Image) (recs : List Rec)
    (hm : (Direct.read_journal_header img).magic = JOURNAL_MAGIC)
    (h8 : 8 < (Direct.read_journal_header img).nbytes_used)
    (hcap : (Direct.read_journal_header img).nbytes_used ≤ 16 * 4096)
    (hparse : parse_journal img (Direct.read_journal_header img).nbytes_used = some recs)
    (hout : ∀ r ∈ recs, r.outside_journal) (hin : ∀ r ∈ recs, r.in_range)
    (fuel : Nat) (hfuel : recs.length ≤ fuel) :
    ∃ c, journal_install fuel img =
      some (InstallOutcome.installed (num_commits recs) c,
        Direct.write_journal_header (Direct.apply_pending img (committed_writes [] recs))
          ⟨JOURNAL_MAGIC, 8⟩) := by
  obtain ⟨c, d', hc, hd'⟩ := install_loop_replay img (Direct.read_journal_header img).nbytes_used
    hcap (Direct.read_journal_header img).nbytes_used 8 recs hparse fuel ⟨img, 2⟩ [] 0 hfuel
    (fun _ _ _ => rfl) (by decide) (by simp) hout hin (by simp) (by simp)
  refine ⟨c, ?_⟩
  rw [Nat.zero_add] at hc
  rw [journal_install_loop_installed fuel img hm (by omega) _ c d' hc, hd']

/-! ## The trace of the replay loop -/

/-- A block that the `for` loop at a commit record has not overwritten keeps
its content. -/
theorem apply_pending_frame (ws : List (Nat × Block)) : ∀ (d : Disk) (b : Nat),
    ScanEvent.write b ∉ apply_trace d ws → (apply_pending d ws).img b = d.img b := by
  induction ws with
  | nil => intro d b _; rfl
  | cons w ws ih =>
    intro d b h
    unfold apply_trace at h
    have h1 : b ≠ seek_block d.pos w.1 := by
      intro e
      apply h
      rw [e]
      exact List.mem_cons_self _ _
    have h2 : ScanEvent.write b ∉ apply_trace (write_block d w.1 w.2) ws :=
      fun hm => h (List.mem_cons_of_mem _ hm)
    show (apply_pending (write_block d w.1 w.2) ws).img b = d.img b
    rw [ih _ b h2]
    unfold write_block
    simp only
    rw [if_neg h1]

theorem apply_trace_no_record (ws : List (Nat × Block)) : ∀ (d : Disk) (p t s : Nat),
    ScanEvent.record p t s ∉ apply_trace d ws := by
  induction ws with
  | nil => intro d p t s h; unfold apply_trace at h; exact absurd h (List.not_mem_nil _)
  | cons w ws ih =>
    intro d p t s h
    unfold apply_trace at h
    rcases List.mem_cons.mp h with h | h
    · exact ScanEvent.noConfusion h
    · exact ih _ _ _ _ h

theorem apply_trace_size_ok (ws : List (Nat × Block)) : ∀ (d : Disk),
    (apply_trace d ws).all ScanEvent.size_ok = true := by
  induction ws with
  | nil => intro d; rfl
  | cons w ws ih =>
    intro d
    unfold apply_trace
    simp only [List.all_cons, ScanEvent.size_ok, Bool.true_and]
    exact ih _

/-- A block that the replay loop has not overwritten keeps its content. -/
theorem install_loop_trace_frame (bu : Nat) : ∀ (fuel : Nat) (d : Disk) (pos : Nat)
    (pend : List (Nat × Block)) (n : Nat) (o : InstallOutcome) (d' : Disk),
    install_loop bu fuel d pos pend n = some (o, d') →
    ∀ b, ScanEvent.write b ∉ install_trace bu fuel d pos pend → d'.img b = d.img b := by
  intro fuel
  induction fuel with
  | zero =>
    intro d pos pend n o d' h b _
    unfold install_loop at h
    split_ifs at h
    simp only [Option.some.injEq, Prod.mk.injEq] at h
    rw [← h.2]
  | succ f ih =>
    intro d pos pend n o d' h b hb
    unfold install_loop at h
    unfold install_trace at hb
    by_cases hlt : pos < bu
    · simp only [if_pos hlt] at h hb
      by_cases hd : (rec_header.of_bytes (read_from_journal d pos uninit 4).1).type = REC_DATA
      · simp only [if_pos hd] at h hb
        by_cases hl : pend.length ≥ 16
        · simp only [if_pos hl, Option.some.injEq, Prod.mk.injEq] at h
          rw [← h.2, read_from_journal_img, read_from_journal_img]
        · simp only [if_neg hl] at h hb
          rw [ih _ _ _ _ _ _ h b (fun hm => hb (List.mem_cons_of_mem _ hm)),
            read_from_journal_img, read_from_journal_img]
      · simp only [if_neg hd] at h hb
        by_cases hc : (rec_header.of_bytes (read_from_journal d pos uninit 4).1).type = REC_COMMIT
        · simp only [if_pos hc] at h hb
          have h1 : ScanEvent.write b ∉ install_trace bu f
              (apply_pending (read_from_journal d pos uninit 4).2 pend)
              ((pos + (rec_header.of_bytes (read_from_journal d pos uninit 4).1).size) % 2 ^ 32)
              [] :=
            fun hm => hb (List.mem_cons_of_mem _ (List.mem_append_right _ hm))
          have h2 : ScanEvent.write b ∉ apply_trace (read_from_journal d pos uninit 4).2 pend :=
            fun hm => hb (List.mem_cons_of_mem _ (List.mem_append_left _ hm))
          rw [ih _ _ _ _ _ _ h b h1, apply_pending_frame pend _ b h2, read_from_journal_img]
        · simp only [if_neg hc, Option.some.injEq, Prod.mk.injEq] at h
          rw [← h.2, read_from_journal_img]
    · simp only [if_neg hlt, Option.some.injEq, Prod.mk.injEq] at h
      rw [← h.2]

/-- When the trace holds a record whose type is neither `REC_DATA` nor
`REC_COMMIT`, the loop has returned through the unknown-type exit. -/
theorem install_trace_unknown (bu : Nat) : ∀ (fuel : Nat) (d : Disk) (pos : Nat)
    (pend : List (Nat × Block)) (n p t s : Nat),
    ScanEvent.record p t s ∈ install_trace bu fuel d pos pend →
    t ≠ REC_DATA → t ≠ REC_COMMIT →
    p < bu ∧
    ∃ d', install_loop bu fuel d pos pend n = some (InstallOutcome.unknown_type t, d') := by
  intro fuel
  induction fuel with
  | zero =>
    intro d pos pend n p t s h
    unfold install_trace at h
    exact absurd h (List.not_mem_nil _)
  | succ f ih =>
    intro d pos pend n p t s h h1 h2
    unfold install_trace at h
    unfold install_loop
    by_cases hlt : pos < bu
    · simp only [if_pos hlt] at h ⊢
      by_cases hd : (rec_header.of_bytes (read_from_journal d pos uninit 4).1).type = REC_DATA
      · simp only [if_pos hd] at h ⊢
        by_cases hl : pend.length ≥ 16
        · simp only [if_pos hl, List.mem_cons, List.not_mem_nil, or_false,
            ScanEvent.record.injEq] at h
          exact absurd (h.2.1.trans hd) h1
        · simp only [if_neg hl, List.mem_cons, ScanEvent.record.injEq] at h ⊢
          rcases h with h | h
          · exact absurd (h.2.1.trans hd) h1
          · exact ih _ _ _ _ _ _ _ h h1 h2
      · simp only [if_neg hd] at h ⊢
        by_cases hc : (rec_header.of_bytes (read_from_journal d pos uninit 4).1).type = REC_COMMIT
        · simp only [if_pos hc, List.mem_cons, ScanEvent.record.injEq, List.mem_append] at h ⊢
          rcases h with h | h | h
          · exact absurd (h.2.1.trans hc) h2
          · exact absurd h (apply_trace_no_record _ _ _ _ _)
          · exact ih _ _ _ _ _ _ _ h h1 h2
        · simp only [if_neg hc, List.mem_cons, List.not_mem_nil, or_false,
            ScanEvent.record.injEq] at h ⊢
          rw [h.2.1, h.1]
          exact ⟨hlt, _, rfl⟩
    · simp only [if_neg hlt] at h
      exact absurd h (List.not_mem_nil _)

/-- The trace is empty unless the scan starts below `bytes_used`. -/
theorem install_trace_nonempty (bu fuel : Nat) (d : Disk) (pos : Nat)
    (pend : List (Nat × Block)) (e : ScanEvent) (h : e ∈ install_trace bu fuel d pos pend) :
    pos < bu := by
  cases fuel with
  | zero => unfold install_trace at h; exact absurd h (List.not_mem_nil _)
  | succ f =>
    unfold install_trace at h
    by_contra hlt
    simp only [if_neg hlt] at h
    exact absurd h (List.not_mem_nil _)

/-- The replay loop finishes within `bytes_used - current_pos` rounds when
every record header it reads declares a size of at least one byte. -/
theorem install_loop_terminates (bu : Nat) (hbu : bu ≤ 2 ^ 32 - 2 ^ 16) : ∀ (fuel : Nat)
    (d : Disk) (pos : Nat) (pend : List (Nat × Block)) (n : Nat),
    bu - pos ≤ fuel →
    (install_trace bu fuel d pos pend).all ScanEvent.size_ok = true →
    ∃ r, install_loop bu fuel d pos pend n = some r := by
  intro fuel
  induction fuel with
  | zero =>
    intro d pos pend n hf _
    exact ⟨_, install_loop_exit bu 0 d pos pend n (by omega)⟩
  | succ f ih =>
    intro d pos pend n hf hall
    by_cases hlt : pos < bu
    · unfold install_trace at hall
      unfold install_loop
      simp only [if_pos hlt, List.all_cons, Bool.and_eq_true, ScanEvent.size_ok,
        decide_eq_true_eq] at hall ⊢
      obtain ⟨hsz, hall⟩ := hall
      have hs16 : (rec_header.of_bytes (read_from_journal d pos uninit 4).1).size < 2 ^ 16 := by
        unfold rec_header.of_bytes
        exact get16_lt _ _
      have hpos : (pos + (rec_header.of_bytes (read_from_journal d pos uninit 4).1).size)
          % 2 ^ 32 = pos + (rec_header.of_bytes (read_from_journal d pos uninit 4).1).size := by
        apply Nat.mod_eq_of_lt
        omega
      by_cases hd : (rec_header.of_bytes (read_from_journal d pos uninit 4).1).type = REC_DATA
      · simp only [if_pos hd] at hall ⊢
        by_cases hl : pend.length ≥ 16
        · simp only [if_pos hl]
          exact ⟨_, rfl⟩
        · simp only [if_neg hl] at hall ⊢
          rw [hpos] at hall ⊢
          exact ih _ _ _ _ (by omega) hall
      · simp only [if_neg hd] at hall ⊢
        by_cases hc : (rec_header.of_bytes (read_from_journal d pos uninit 4).1).type = REC_COMMIT
        · simp only [if_pos hc, List.all_append, Bool.and_eq_true] at hall ⊢
          rw [hpos] at hall ⊢
          exact ih _ _ _ _ (by omega) hall.2
        · simp only [if_neg hc]
          exact ⟨_, rfl⟩
    · exact ⟨_, install_loop_exit bu (f + 1) d pos pend n hlt⟩

/-! ## The cases of `journal_create` -/

theorem read_block_zero (img : Image) : read_block ⟨img, 0⟩ 0 = (img 0, ⟨img, 1⟩) := by
  rw [read_block_direct _ 0 (by decide)]
  rfl

theorem read_journal_header_one (img : Image) :
    read_journal_header ⟨img, 1⟩ = (Direct.read_journal_header img, ⟨img, 2⟩) :=
  read_journal_header_direct _

theorem write_journal_header_two (img : Image) (jh : journal_header) :
    write_journal_header ⟨img, 2⟩ jh = ⟨Direct.write_journal_header img jh, 2⟩ :=
  write_journal_header_direct _ _

theorem init_pair_disk (img : Image) :
    (if (Direct.read_journal_header img).magic ≠ JOURNAL_MAGIC then
      (write_journal_header ⟨img, 2⟩ ⟨JOURNAL_MAGIC, 8⟩, (⟨JOURNAL_MAGIC, 8⟩ : journal_header))
      else (⟨img, 2⟩, Direct.read_journal_header img)) =
      ((⟨init_image img, 2⟩ : Disk), init_header img) := by
  unfold init_image init_header
  split_ifs
  · rw [write_journal_header_two]
  · rfl

theorem bitmap_read_img (img : Image) : (bitmap_read img).2.img = init_image img := rfl

theorem root_dir_read_img (img : Image) : (root_dir_read img).2.img = init_image img := rfl

/-- Every run of `journal_create`, up to its last statement, ends in one of
six ways; "journal full" is not among them, because the cursor is at most 8
when the capacity is checked. -/
theorem stage_cases (img : Image) (name : List Byte) (t1 t2 t3 : Nat) :
    ((sb_of img).magic ≠ FS_MAGIC ∧
      journal_create_stage img name t1 t2 t3 =
        ⟨CreateOutcome.invalid_fs_magic, ⟨img, 1⟩, ⟨0, 0⟩⟩) ∨
    ((sb_of img).magic = FS_MAGIC ∧ 8 < (init_header img).nbytes_used ∧
      journal_create_stage img name t1 t2 t3 =
        ⟨CreateOutcome.journal_busy, ⟨init_image img, 2⟩, init_header img⟩) ∨
    ((sb_of img).magic = FS_MAGIC ∧ (init_header img).nbytes_used ≤ 8 ∧
      find_free_inode (bitmap_read img).1 (sb_of img).inode_count = none ∧
      journal_create_stage img name t1 t2 t3 =
        ⟨CreateOutcome.undefined, (bitmap_read img).2, init_header img⟩) ∨
    ((sb_of img).magic = FS_MAGIC ∧ (init_header img).nbytes_used ≤ 8 ∧
      find_free_inode (bitmap_read img).1 (sb_of img).inode_count = some (-1) ∧
      journal_create_stage img name t1 t2 t3 =
        ⟨CreateOutcome.no_free_inodes, (bitmap_read img).2, init_header img⟩) ∨
    ((sb_of img).magic = FS_MAGIC ∧ (init_header img).nbytes_used ≤ 8 ∧
      (∃ r, r ≠ -1 ∧ find_free_inode (bitmap_read img).1 (sb_of img).inode_count = some r) ∧
      find_free_dirent_slot (root_dir_read img).1 = -1 ∧
      journal_create_stage img name t1 t2 t3 =
        ⟨CreateOutcome.no_free_slots, (root_dir_read img).2, init_header img⟩) ∨
    ((sb_of img).magic = FS_MAGIC ∧ (init_header img).nbytes_used ≤ 8 ∧
      (∃ r, r ≠ -1 ∧ find_free_inode (bitmap_read img).1 (sb_of img).inode_count = some r) ∧
      find_free_dirent_slot (root_dir_read img).1 ≠ -1 ∧
      ∃ (d : Disk) (r1 r2 r3 : data_record) (c : commit_record),
        d.img = init_image img ∧
        journal_create_stage img name t1 t2 t3 =
          ⟨CreateOutcome.created,
           (append_transaction d (init_header img) r1 r2 r3 c).1,
           (append_transaction d (init_header img) r1 r2 r3 c).2⟩) := by
  have h0 := read_block_zero img
  have hj := read_journal_header_one img
  have hinit := init_pair_disk img
  have hsb : superblock.of_bytes (img 0).buf = sb_of img := rfl
  have hbr : read_block ⟨init_image img, 2⟩ (sb_of img).inode_bitmap = bitmap_read img := rfl
  have hrr : read_block (bitmap_read img).2 (sb_of img).data_start = root_dir_read img := rfl
  by_cases hfs : (sb_of img).magic = FS_MAGIC
  · right
    by_cases hbusy : 8 < (init_header img).nbytes_used
    · left
      refine ⟨hfs, hbusy, ?_⟩
      unfold journal_create_stage
      simp only [h0, hj, hinit, hsb, hfs, ne_eq, not_true_eq_false, if_false, gt_iff_lt, hbusy,
        if_true]
    · right
      have hle : (init_header img).nbytes_used ≤ 8 := by omega
      have hcap : ¬ ((init_header img).nbytes_used +
          (3 * data_record_size + commit_record_size)) % 2 ^ 32 > 16 * 4096 := by
        simp only [data_record_size, commit_record_size]
        omega
      cases hffi : find_free_inode (bitmap_read img).1 (sb_of img).inode_count with
      | none =>
        left
        refine ⟨hfs, hle, rfl, ?_⟩
        unfold journal_create_stage
        simp only [h0, hj, hinit, hsb, hfs, ne_eq, not_true_eq_false, if_false, gt_iff_lt,
          hbusy, hbr, hffi]
      | some r =>
        right
        by_cases hr : r = -1
        · left
          subst hr
          refine ⟨hfs, hle, rfl, ?_⟩
          unfold journal_create_stage
          simp only [h0, hj, hinit, hsb, hfs, ne_eq, not_true_eq_false, if_false, gt_iff_lt,
            hbusy, hbr, hffi, if_true]
        · right
          by_cases hs : find_free_dirent_slot (root_dir_read img).1 = -1
          · left
            refine ⟨hfs, hle, ⟨r, hr, rfl⟩, hs, ?_⟩
            unfold journal_create_stage
            simp only [h0, hj, hinit, hsb, hfs, ne_eq, not_true_eq_false, if_false, gt_iff_lt,
              hbusy, hbr, hffi, hr, hrr, hs, if_true]
          · right
            refine ⟨hfs, hle, ⟨r, hr, rfl⟩, hs, ?_⟩
            unfold journal_create_stage
            simp only [h0, hj, hinit, hsb, hfs, ne_eq, not_true_eq_false, if_false, gt_iff_lt,
              hbusy, hbr, hffi, hr, hrr, hs, hcap]
            exact ⟨_, _, _, _, _, rfl, rfl⟩
  · left
    refine ⟨hfs, ?_⟩
    unfold journal_create_stage
    simp only [h0, hsb, hfs, ne_eq, not_false_eq_true, if_true]

theorem journal_create_of_created (img : Image) (name : List Byte) (t1 t2 t3 : Nat)
    (d : Disk) (jh : journal_header)
    (h : journal_create_stage img name t1 t2 t3 = ⟨CreateOutcome.created, d, jh⟩) :
    journal_create img name t1 t2 t3 =
      (CreateOutcome.created, Direct.write_journal_header d.img jh) := by
  unfold journal_create
  rw [h]
  simp only [write_journal_header_direct]

theorem journal_create_of_failed (img : Image) (name : List Byte) (t1 t2 t3 : Nat)
    (o : CreateOutcome) (d : Disk) (jh : journal_header)
    (h : journal_create_stage img name t1 t2 t3 = ⟨o, d, jh⟩) (ho : o ≠ CreateOutcome.created) :
    journal_create img name t1 t2 t3 = (o, d.img) := by
  unfold journal_create
  rw [h]
  cases o <;> first | rfl | exact absurd rfl ho

/-- The result of `journal_create`, case by case: the outcome, and the image
as a function of the image after the header check. -/
theorem journal_create_cases (img : Image) (name : List Byte) (t1 t2 t3 : Nat) :
    ((sb_of img).magic ≠ FS_MAGIC ∧
      journal_create img name t1 t2 t3 = (CreateOutcome.invalid_fs_magic, img)) ∨
    ((sb_of img).magic = FS_MAGIC ∧ 8 < (init_header img).nbytes_used ∧
      journal_create img name t1 t2 t3 = (CreateOutcome.journal_busy, init_image img)) ∨
    ((sb_of img).magic = FS_MAGIC ∧ (init_header img).nbytes_used ≤ 8 ∧
      find_free_inode (bitmap_read img).1 (sb_of img).inode_count = none ∧
      journal_create img name t1 t2 t3 = (CreateOutcome.undefined, init_image img)) ∨
    ((sb_of img).magic = FS_MAGIC ∧ (init_header img).nbytes_used ≤ 8 ∧
      find_free_inode (bitmap_read img).1 (sb_of img).inode_count = some (-1) ∧
      journal_create img name t1 t2 t3 = (CreateOutcome.no_free_inodes, init_image img)) ∨
    ((sb_of img).magic = FS_MAGIC ∧ (init_header img).nbytes_used ≤ 8 ∧
      (∃ r, r ≠ -1 ∧ find_free_inode (bitmap_read img).1 (sb_of img).inode_count = some r) ∧
      find_free_dirent_slot (root_dir_read img).1 = -1 ∧
      journal_create img name t1 t2 t3 = (CreateOutcome.no_free_slots, init_image img)) ∨
    ((sb_of img).magic = FS_MAGIC ∧ (init_header img).nbytes_used ≤ 8 ∧
      (∃ r, r ≠ -1 ∧ find_free_inode (bitmap_read img).1 (sb_of img).inode_count = some r) ∧
      find_free_dirent_slot (root_dir_read img).1 ≠ -1 ∧
      ∃ im : Image, (∀ b, (b = 0 ∨ 4 < b) → im b = init_image img b) ∧
        (∃ (r1 r2 r3 : data_record) (c : commit_record),
          im = (Direct.append_transaction (init_image img) (init_header img) r1 r2 r3 c).1) ∧
        journal_create img name t1 t2 t3 =
          (CreateOutcome.created,
           Direct.write_journal_header im
             ⟨JOURNAL_MAGIC, (init_header img).nbytes_used + 12316⟩)) := by
  rcases stage_cases img name t1 t2 t3 with hc | hc | hc | hc | hc | hc
  · exact Or.inl ⟨hc.1, journal_create_of_failed _ _ _ _ _ _ _ _ hc.2 (by decide)⟩
  · exact Or.inr (Or.inl ⟨hc.1, hc.2.1, journal_create_of_failed _ _ _ _ _ _ _ _ hc.2.2 (by decide)⟩)
  · exact Or.inr (Or.inr (Or.inl ⟨hc.1, hc.2.1, hc.2.2.1,
      journal_create_of_failed _ _ _ _ _ _ _ _ hc.2.2.2 (by decide)⟩))
  · exact Or.inr (Or.inr (Or.inr (Or.inl ⟨hc.1, hc.2.1, hc.2.2.1,
      journal_create_of_failed _ _ _ _ _ _ _ _ hc.2.2.2 (by decide)⟩)))
  · exact Or.inr (Or.inr (Or.inr (Or.inr (Or.inl ⟨hc.1, hc.2.1, hc.2.2.1, hc.2.2.2.1,
      journal_create_of_failed _ _ _ _ _ _ _ _ hc.2.2.2.2 (by decide)⟩))))
  · obtain ⟨hfs, hle, hr, hs, d, r1, r2, r3, c, hd, hst⟩ := hc
    have hmk := init_header_eq_mk img
    obtain ⟨q, hq⟩ := append_transaction_direct d JOURNAL_MAGIC (init_header img).nbytes_used
      r1 r2 r3 c hle
    rw [← hmk, hd] at hq
    have hf := append_transaction_frame (init_image img) JOURNAL_MAGIC
      (init_header img).nbytes_used r1 r2 r3 c hle
    rw [← hmk] at hf
    have hcr := journal_create_of_created _ _ _ _ _ _ _ hst
    rw [hq] at hcr
    simp only at hcr
    rw [hf.1] at hcr
    exact Or.inr (Or.inr (Or.inr (Or.inr (Or.inr
      ⟨hfs, hle, hr, hs, _, hf.2, ⟨r1, r2, r3, c, rfl⟩, hcr⟩))))

/-! ## `journal_create` under its preconditions -/

/-- What `journal_create` has done when it reaches its final header write,
under its preconditions. -/
theorem stage_of_pre (img : Image) (name : List Byte) (now_ctime now_mtime now_root i s : Nat)
    (h : create_pre img i s) (hr : blocks_in_range img i) :
    ∃ q, journal_create_stage img name now_ctime now_mtime now_root =
      ⟨CreateOutcome.created,
       ⟨staged_image (init_image img)
         (mk_data_record (sb_of img).inode_bitmap
           (new_blocks img i s name now_ctime now_mtime now_root).new_inode_bitmap)
         (mk_data_record (inode_table_block img i)
           (new_blocks img i s name now_ctime now_mtime now_root).new_inode_block)
         (mk_data_record (sb_of img).data_start
           (new_blocks img i s name now_ctime now_mtime now_root).new_root_dir)
         mk_commit_record, q⟩,
       ⟨JOURNAL_MAGIC, 12324⟩⟩ := by
  have hB1 : (sb_of img).inode_bitmap ≠ 1 := by have := h.bitmap_outside; omega
  have hB2 : inode_table_block img i ≠ 1 := by have := h.table_outside; omega
  have hB3 : (sb_of img).data_start ≠ 1 := by have := h.dir_outside; omega
  have hfi := find_free_inode_found (img (sb_of img).inode_bitmap) (sb_of img).inode_count i
    h.inode_lt (by have := h.inode_lt; have := h.inode_count_le; omega) h.inode_clear h.inode_first
  have hfs := find_free_dirent_slot_found (img (sb_of img).data_start) s h.slot_lt
    h.slot_is_free h.slot_first
  have hfsm := h.fs_magic
  have h0 := read_block_zero img
  have hj := read_journal_header_one img
  have hsb : superblock.of_bytes (img 0).buf = sb_of img := rfl
  have hinit : (if (Direct.read_journal_header img).magic ≠ JOURNAL_MAGIC then
      (write_journal_header ⟨img, 2⟩ ⟨JOURNAL_MAGIC, 8⟩, (⟨JOURNAL_MAGIC, 8⟩ : journal_header))
      else (⟨img, 2⟩, Direct.read_journal_header img)) =
      ((⟨init_image img, 2⟩ : Disk), ⟨JOURNAL_MAGIC, 8⟩) := by
    rw [init_pair_disk]
    congr 1
    unfold init_header
    by_cases hm : (Direct.read_journal_header img).magic = JOURNAL_MAGIC
    · have h8 : (Direct.read_journal_header img).nbytes_used = 8 := by
        rcases h.journal_free with h' | h'
        · exact absurd hm h'
        · exact h'
      rw [if_neg (not_not.mpr hm)]
      cases hh : Direct.read_journal_header img with
      | mk a b => rw [hh] at hm h8; simp only at hm h8; rw [hm, h8]
    · rw [if_pos hm]
  have hrb : read_block ⟨init_image img, 2⟩ (sb_of img).inode_bitmap =
      (img (sb_of img).inode_bitmap, ⟨init_image img, (sb_of img).inode_bitmap + 1⟩) := by
    rw [read_block_direct _ _ hr.bitmap_in_range]
    unfold Direct.read_block
    simp only
    rw [init_image_block img _ hB1]
  have hrd : read_block ⟨init_image img, (sb_of img).inode_bitmap + 1⟩ (sb_of img).data_start =
      (img (sb_of img).data_start, ⟨init_image img, (sb_of img).data_start + 1⟩) := by
    rw [read_block_direct _ _ hr.dir_in_range]
    unfold Direct.read_block
    simp only
    rw [init_image_block img _ hB3]
  have hri : read_block ⟨init_image img, (sb_of img).data_start + 1⟩
      (((sb_of img).inode_start + i / 32) % 2 ^ 32) =
      (img (inode_table_block img i), ⟨init_image img, inode_table_block img i + 1⟩) := by
    have hr := hr.table_in_range
    unfold inode_table_block at hr hB2 ⊢
    rw [read_block_direct _ _ hr]
    unfold Direct.read_block
    simp only
    rw [init_image_block img _ hB2]
  have hi1 : ¬ ((i : Int) = -1) := by omega
  have hs1 : ¬ ((s : Int) = -1) := by omega
  obtain ⟨q, hq⟩ := append_transaction_direct ⟨init_image img, inode_table_block img i + 1⟩
    JOURNAL_MAGIC 8
    (mk_data_record (sb_of img).inode_bitmap
      (new_blocks img i s name now_ctime now_mtime now_root).new_inode_bitmap)
    (mk_data_record (inode_table_block img i)
      (new_blocks img i s name now_ctime now_mtime now_root).new_inode_block)
    (mk_data_record (sb_of img).data_start
      (new_blocks img i s name now_ctime now_mtime now_root).new_root_dir)
    mk_commit_record (le_refl _)
  rw [append_transaction_eq] at hq
  refine ⟨q, ?_⟩
  unfold journal_create_stage
  simp only [h0, hj, hsb, hfsm, hinit, ne_eq, not_true_eq_false, if_false, hrb, hfi,
    hi1, hrd, hfs, hs1, Int.toNat_ofNat, Nat.lt_irrefl, gt_iff_lt, hri]
  rw [if_neg (by decide)]
  have e : ∀ (a : Disk × journal_header) (im : Image) (jh : journal_header),
      a = (⟨im, q⟩, jh) →
      (⟨CreateOutcome.created, a.1, a.2⟩ : Staged) = ⟨CreateOutcome.created, ⟨im, q⟩, jh⟩ := by
    intro a im jh ha
    rw [ha]
  exact e _ _ _ hq

/-- Under its preconditions `journal_create` succeeds and leaves the staged
transaction behind the header `{JOURNAL_MAGIC, 12324}`. -/
theorem journal_create_of_pre (img : Image) (name : List Byte)
    (now_ctime now_mtime now_root i s : Nat) (h : create_pre img i s) (hr : blocks_in_range img i) :
    journal_create img name now_ctime now_mtime now_root =
      (CreateOutcome.created,
       Direct.write_journal_header
         (staged_image (init_image img)
           (mk_data_record (sb_of img).inode_bitmap
             (new_blocks img i s name now_ctime now_mtime now_root).new_inode_bitmap)
           (mk_data_record (inode_table_block img i)
             (new_blocks img i s name now_ctime now_mtime now_root).new_inode_block)
           (mk_data_record (sb_of img).data_start
             (new_blocks img i s name now_ctime now_mtime now_root).new_root_dir)
           mk_commit_record)
         ⟨JOURNAL_MAGIC, 12324⟩) := by
  obtain ⟨q, hq⟩ := stage_of_pre img name now_ctime now_mtime now_root i s h hr
  exact journal_create_of_created _ _ _ _ _ _ _ hq

/-! ## `journal_create` followed by `journal_install` -/

/-- Under its preconditions `journal_create` succeeds, and a following
`journal_install` applies the one staged transaction: the three target blocks
then hold the three block images that `journal_create` computed. -/
theorem create_then_install (img : Image) (name : List Byte)
    (now_ctime now_mtime now_root i s : Nat) (h : create_pre img i s)
    (hr : blocks_in_range img i) (fuel : Nat) (hf : 4 ≤ fuel) :
    ∃ img1 c img2,
      journal_create img name now_ctime now_mtime now_root = (CreateOutcome.created, img1) ∧
      journal_install fuel img1 = some (InstallOutcome.installed 1 c, img2) ∧
      img2 (sb_of img).inode_bitmap =
        (new_blocks img i s name now_ctime now_mtime now_root).new_inode_bitmap ∧
      img2 (inode_table_block img i) =
        (new_blocks img i s name now_ctime now_mtime now_root).new_inode_block ∧
      img2 (sb_of img).data_start =
        (new_blocks img i s name now_ctime now_mtime now_root).new_root_dir := by
  have hB1 : (sb_of img).inode_bitmap ≠ 1 := by have := h.bitmap_outside; omega
  have hB2 : inode_table_block img i ≠ 1 := by have := h.table_outside; omega
  have hB3 : (sb_of img).data_start ≠ 1 := by have := h.dir_outside; omega
  have hl1 : (sb_of img).inode_bitmap < 2 ^ 32 := get32_lt _ _
  have hl2 : inode_table_block img i < 2 ^ 32 := Nat.mod_lt _ (by decide)
  have hl3 : (sb_of img).data_start < 2 ^ 32 := get32_lt _ _
  generalize hnb : new_blocks img i s name now_ctime now_mtime now_root = nb
  have hcreate := journal_create_of_pre img name now_ctime now_mtime now_root i s h hr
  rw [hnb] at hcreate
  generalize hst : staged_image (init_image img)
    (mk_data_record (sb_of img).inode_bitmap nb.new_inode_bitmap)
    (mk_data_record (inode_table_block img i) nb.new_inode_block)
    (mk_data_record (sb_of img).data_start nb.new_root_dir) mk_commit_record = st at hcreate
  have hhdr : Direct.read_journal_header (Direct.write_journal_header st ⟨JOURNAL_MAGIC, 12324⟩) =
      ⟨JOURNAL_MAGIC, 12324⟩ := read_write_journal_header _ _ (by decide) (by decide)
  have hj : ∀ q, 8 ≤ q →
      jbyte (Direct.write_journal_header st ⟨JOURNAL_MAGIC, 12324⟩) q =
        jbyte (staged_image (init_image img)
          (mk_data_record (sb_of img).inode_bitmap nb.new_inode_bitmap)
          (mk_data_record (inode_table_block img i) nb.new_inode_block)
          (mk_data_record (sb_of img).data_start nb.new_root_dir) mk_commit_record) q := by
    intro q hq
    rw [write_journal_header_jbyte, if_neg (by omega), hst]
  have hparse := parse_journal_txn (Direct.write_journal_header st ⟨JOURNAL_MAGIC, 12324⟩)
    (sb_of img).inode_bitmap (inode_table_block img i) (sb_of img).data_start
    nb.new_inode_bitmap nb.new_inode_block nb.new_root_dir hl1 hl2 hl3
    (by
      intro k hk
      rw [hj _ (by omega), staged_image_jbyte, if_pos (by omega), Nat.add_sub_cancel_left])
    (by
      intro k hk
      rw [hj _ (by omega), staged_image_jbyte, if_neg (by omega), if_pos (by omega),
        Nat.add_sub_cancel_left])
    (by
      intro k hk
      rw [hj _ (by omega), staged_image_jbyte, if_neg (by omega), if_neg (by omega),
        if_pos (by omega), Nat.add_sub_cancel_left])
    (by
      intro k hk
      rw [hj _ (by omega), staged_image_jbyte, if_neg (by omega), if_neg (by omega),
        if_neg (by omega), if_pos (by omega), Nat.add_sub_cancel_left])
  obtain ⟨c, hc⟩ := journal_install_replay (Direct.write_journal_header st ⟨JOURNAL_MAGIC, 12324⟩) _
    (by rw [hhdr]) (by rw [hhdr]; decide) (by rw [hhdr]; decide) (by rw [hhdr]; exact hparse)
    (by
      intro r hr
      simp only [List.mem_cons, List.mem_singleton, List.not_mem_nil, or_false] at hr
      rcases hr with hr | hr | hr | hr <;> subst hr
      · exact h.bitmap_outside
      · exact h.table_outside
      · exact h.dir_outside
      · trivial)
    (by
      intro r hr
      simp only [List.mem_cons, List.mem_singleton, List.not_mem_nil, or_false] at hr
      rcases hr with hr | hr | hr | hr <;> subst hr
      · exact hr.bitmap_in_range
      · exact hr.table_in_range
      · exact hr.dir_in_range
      · trivial)
    fuel (by simpa using hf)
  have happly : ∀ J : Image, Direct.apply_pending J (committed_writes []
      [Rec.data (sb_of img).inode_bitmap nb.new_inode_bitmap,
       Rec.data (inode_table_block img i) nb.new_inode_block,
       Rec.data (sb_of img).data_start nb.new_root_dir, Rec.commit]) =
      Direct.write_block (Direct.write_block (Direct.write_block J (sb_of img).inode_bitmap nb.new_inode_bitmap)
        (inode_table_block img i) nb.new_inode_block) (sb_of img).data_start nb.new_root_dir :=
    fun _ => rfl
  rw [happly] at hc
  refine ⟨_, c, _, hcreate, hc, ?_, ?_, ?_⟩
  · rw [write_journal_header_block _ _ _ hB1]
    unfold Direct.write_block
    rw [if_neg h.bitmap_ne_dir, if_neg h.bitmap_ne_table, if_pos rfl]
  · rw [write_journal_header_block _ _ _ hB2]
    unfold Direct.write_block
    rw [if_neg h.table_ne_dir, if_pos rfl]
  · rw [write_journal_header_block _ _ _ hB3]
    unfold Direct.write_block
    rw [if_pos rfl]

/-- `journal_create` writes only to journal blocks 1..4. -/
theorem journal_create_outside (img : Image) (name : List Byte) (t1 t2 t3 : Nat)
    (o : CreateOutcome) (img' : Image) (h : journal_create img name t1 t2 t3 = (o, img'))
    (b : Nat) (hb : b = 0 ∨ 4 < b) : img' b = img b := by
  have hb1 : b ≠ 1 := by omega
  rcases journal_create_cases img name t1 t2 t3 with hc | hc | hc | hc | hc | hc
  · rw [hc.2] at h
    rw [← (Prod.mk.inj h).2]
  · rw [hc.2.2] at h
    rw [← (Prod.mk.inj h).2, init_image_block img b hb1]
  · rw [hc.2.2.2] at h
    rw [← (Prod.mk.inj h).2, init_image_block img b hb1]
  · rw [hc.2.2.2] at h
    rw [← (Prod.mk.inj h).2, init_image_block img b hb1]
  · rw [hc.2.2.2.2] at h
    rw [← (Prod.mk.inj h).2, init_image_block img b hb1]
  · obtain ⟨_, _, _, _, im, him, _, hcr⟩ := hc
    rw [hcr] at h
    rw [← (Prod.mk.inj h).2, write_journal_header_block _ _ _ hb1, him b hb,
      init_image_block img b hb1]

/-- No run of `journal_create` ends with the "journal full" outcome. -/
theorem journal_create_never_full (img : Image) (name : List Byte) (t1 t2 t3 : Nat) :
    (journal_create img name t1 t2 t3).1 ≠ CreateOutcome.journal_full := by
  rcases journal_create_cases img name t1 t2 t3 with hc | hc | hc | hc | hc | hc
  · rw [hc.2]; exact fun e => CreateOutcome.noConfusion e
  · rw [hc.2.2]; exact fun e => CreateOutcome.noConfusion e
  · rw [hc.2.2.2]; exact fun e => CreateOutcome.noConfusion e
  · rw [hc.2.2.2]; exact fun e => CreateOutcome.noConfusion e
  · rw [hc.2.2.2.2]; exact fun e => CreateOutcome.noConfusion e
  · obtain ⟨_, _, _, _, im, _, _, hcr⟩ := hc
    rw [hcr]; exact fun e => CreateOutcome.noConfusion e

/-- The image after a `journal_create` that did not end with "created". -/
theorem journal_create_failed_image (img : Image) (name : List Byte) (t1 t2 t3 : Nat)
    (ho : (journal_create img name t1 t2 t3).1 ≠ CreateOutcome.created) :
    (sb_of img).magic ≠ FS_MAGIC ∧ (journal_create img name t1 t2 t3).2 = img ∨
    (sb_of img).magic = FS_MAGIC ∧ (journal_create img name t1 t2 t3).2 = init_image img := by
  rcases journal_create_cases img name t1 t2 t3 with hc | hc | hc | hc | hc | hc
  · left; rw [hc.2]; exact ⟨hc.1, rfl⟩
  · right; rw [hc.2.2]; exact ⟨hc.1, rfl⟩
  · right; rw [hc.2.2.2]; exact ⟨hc.1, rfl⟩
  · right; rw [hc.2.2.2]; exact ⟨hc.1, rfl⟩
  · right; rw [hc.2.2.2.2]; exact ⟨hc.1, rfl⟩
  · obtain ⟨_, _, _, _, im, _, _, hcr⟩ := hc
    rw [hcr] at ho
    exact absurd rfl ho

/-- The header after a `journal_create` that ended with "created". -/
theorem journal_create_created_header (img : Image) (name : List Byte) (t1 t2 t3 : Nat)
    (ho : (journal_create img name t1 t2 t3).1 = CreateOutcome.created) :
    (init_header img).nbytes_used ≤ 8 ∧
    Direct.read_journal_header (journal_create img name t1 t2 t3).2 =
      ⟨JOURNAL_MAGIC, (init_header img).nbytes_used + 12316⟩ := by
  rcases journal_create_cases img name t1 t2 t3 with hc | hc | hc | hc | hc | hc
  · rw [hc.2] at ho; exact CreateOutcome.noConfusion ho
  · rw [hc.2.2] at ho; exact CreateOutcome.noConfusion ho
  · rw [hc.2.2.2] at ho; exact CreateOutcome.noConfusion ho
  · rw [hc.2.2.2] at ho; exact CreateOutcome.noConfusion ho
  · rw [hc.2.2.2.2] at ho; exact CreateOutcome.noConfusion ho
  · obtain ⟨_, hle, _, _, im, _, _, hcr⟩ := hc
    refine ⟨hle, ?_⟩
    rw [hcr]
    exact read_write_journal_header im _ (by show JOURNAL_MAGIC < 2 ^ 32; decide)
      (by simp only; omega)

/-- When `journal_create` has performed its four appends on an initialized
empty journal, the image is the old one with one transaction staged. -/
theorem stage_created_shape (img : Image) (name : List Byte) (t1 t2 t3 : Nat)
    (hm : (Direct.read_journal_header img).magic = JOURNAL_MAGIC)
    (h8 : (Direct.read_journal_header img).nbytes_used = 8)
    (h : (journal_create_stage img name t1 t2 t3).outcome = CreateOutcome.created) :
    ∃ (r1 r2 r3 : data_record) (c : commit_record),
      (journal_create_stage img name t1 t2 t3).disk.img = staged_image img r1 r2 r3 c := by
  have hjh : init_header img = ⟨JOURNAL_MAGIC, 8⟩ := by
    rw [init_header_of_magic img hm]
    cases hh : Direct.read_journal_header img with
    | mk a b => rw [hh] at hm h8; simp only at hm h8; rw [hm, h8]
  have hii := init_image_of_magic img hm
  rcases stage_cases img name t1 t2 t3 with hc | hc | hc | hc | hc | hc
  · rw [hc.2] at h; exact CreateOutcome.noConfusion h
  · rw [hc.2.2] at h; exact CreateOutcome.noConfusion h
  · rw [hc.2.2.2] at h; exact CreateOutcome.noConfusion h
  · rw [hc.2.2.2] at h; exact CreateOutcome.noConfusion h
  · rw [hc.2.2.2.2] at h; exact CreateOutcome.noConfusion h
  · obtain ⟨_, _, _, _, d, r1, r2, r3, c, hd, hst⟩ := hc
    obtain ⟨q, hq⟩ := append_transaction_direct d JOURNAL_MAGIC 8 r1 r2 r3 c (le_refl _)
    rw [append_transaction_eq, hd, hii] at hq
    rw [hjh] at hst
    refine ⟨r1, r2, r3, c, ?_⟩
    rw [hst, hq]

/-! ## Lemmas on appended records, trailing data records and the new blocks -/

/-- Reading back what was appended, direct addressing. -/
theorem append_read_roundtrip_direct (img : Image) (jh : journal_header) (record buffer : Buf) (n : Nat)
    (hn1 : 1 ≤ n) (hn2 : n ≤ 4104) (hcap : jh.nbytes_used + n ≤ 16 * 4096) :
    (Direct.append_loop record n img jh.nbytes_used n 0).bytes_remaining = 0 ∧
    (Direct.read_loop (Direct.append_record_to_journal img jh record n).1 n buffer
      jh.nbytes_used n 0).bytes_remaining = 0 ∧
    ∀ k, k < n →
      Direct.read_from_journal (Direct.append_record_to_journal img jh record n).1 jh.nbytes_used buffer n k
        = record k := by
  have hp : jh.nbytes_used < 2 ^ 32 := by omega
  have hq : jh.nbytes_used + n ≤ 2 ^ 32 := by omega
  refine ⟨(append_loop_spec record n img jh.nbytes_used n 0 (le_refl _) hp hq).1,
    read_from_journal_done _ _ _ _ hq, fun k hk => ?_⟩
  rw [read_from_journal_spec _ _ _ _ hq, if_pos hk, append_jbyte img jh record n hp hq,
    if_pos (by omega)]
  congr 1
  omega

/-- The frame of an append, direct addressing. -/
theorem append_record_frame_direct (img : Image) (jh : journal_header) (record : Buf) (n : Nat)
    (hn : n < 2 ^ 16) (hcap : jh.nbytes_used + n ≤ 16 * 4096) :
    (Direct.append_loop record n img jh.nbytes_used n 0).bytes_remaining = 0 ∧
    (Direct.append_record_to_journal img jh record n).2 = ⟨jh.magic, jh.nbytes_used + n⟩ ∧
    (∀ q, jh.nbytes_used ≤ q → q < jh.nbytes_used + n →
      jbyte (Direct.append_record_to_journal img jh record n).1 q = record (q - jh.nbytes_used)) ∧
    (∀ (b : Nat) (i : Fin 4096),
      ¬ (1 ≤ b ∧ jh.nbytes_used ≤ 4096 * (b - 1) + i.val ∧
          4096 * (b - 1) + i.val < jh.nbytes_used + n) →
      (Direct.append_record_to_journal img jh record n).1 b i = img b i) ∧
    (8 ≤ jh.nbytes_used →
      Direct.read_journal_header (Direct.append_record_to_journal img jh record n).1 =
        Direct.read_journal_header img) := by
  have hp : jh.nbytes_used < 2 ^ 32 := by omega
  have hq : jh.nbytes_used + n ≤ 2 ^ 32 := by omega
  have hspec := append_loop_spec record n img jh.nbytes_used n 0 (le_refl _) hp hq
  refine ⟨hspec.1, ?_, ?_, ?_, ?_⟩
  · rw [append_cursor img jh record n hp hq, Nat.mod_eq_of_lt (by omega)]
  · intro q h1 h2
    rw [append_jbyte img jh record n hp hq, if_pos ⟨h1, h2⟩]
  · intro b i hb
    have h := hspec.2.2 b i
    rw [if_neg hb] at h
    exact h
  · intro h8
    apply read_journal_header_congr
    intro q hq8
    rw [append_jbyte img jh record n hp hq, if_neg (by omega)]

/-! ## Uncommitted records -/

theorem install_loop_data_only (img : Image) (bu : Nat) :
    ∀ (f1 pos : Nat) (recs : List Rec), parse_from img bu f1 pos = some recs →
    (∀ r ∈ recs, r.is_data) →
    ∀ (f2 cur : Nat) (pend : List (Nat × Block)) (n : Nat),
      recs.length ≤ f2 → pos + 4104 * recs.length ≤ 2 ^ 31 - 4096 →
      pend.length + recs.length ≤ 16 →
      ∃ q, install_loop bu f2 ⟨img, cur⟩ pos pend n =
        some (InstallOutcome.installed n (pend.length + recs.length), ⟨img, q⟩) := by
  intro f1
  induction f1 with
  | zero =>
    intro pos recs hparse _ f2 cur pend n _ _ _
    unfold parse_from at hparse
    by_cases hlt : pos < bu
    · rw [if_pos hlt] at hparse; simp at hparse
    · rw [if_neg hlt] at hparse
      simp only [Option.some.injEq] at hparse
      subst hparse
      exact ⟨cur, by rw [install_loop_exit _ _ _ _ _ _ hlt]; rfl⟩
  | succ f1 ih =>
    intro pos recs hparse hdata f2 cur pend n hf2 hpos hlen
    unfold parse_from at hparse
    by_cases hlt : pos < bu
    · rw [if_pos hlt] at hparse
      simp only at hparse
      by_cases hd : get16 (journal_at img pos) 0 = 1 ∧ get16 (journal_at img pos) 2 = 4104
      · rw [if_pos hd] at hparse
        obtain ⟨rest, hrest, hrecs⟩ := Option.map_eq_some'.mp hparse
        subst hrecs
        simp only [List.length_cons] at hf2 hpos hlen
        obtain ⟨f2, rfl⟩ : ∃ g, f2 = g + 1 := ⟨f2 - 1, by omega⟩
        obtain ⟨q, hstep⟩ := install_loop_step_data bu f2 ⟨img, cur⟩ pos pend n hlt (by omega)
          hd.1 (by omega)
        rw [hstep]
        simp only
        rw [hd.2, Nat.mod_eq_of_lt (by omega)]
        obtain ⟨q2, h2⟩ := ih (pos + 4104) rest hrest
          (fun r hr => hdata r (List.mem_cons_of_mem _ hr)) f2 q
          (pend ++ [(get32 (journal_at img pos) 4, (journal_at img pos).block 8)]) n
          (by omega) (by omega)
          (by rw [List.length_append, List.length_singleton]; omega)
        refine ⟨q2, ?_⟩
        rw [h2, List.length_append, List.length_singleton, List.length_cons]
        congr 3
        omega
      · rw [if_neg hd] at hparse
        by_cases hc : get16 (journal_at img pos) 0 = 2 ∧ get16 (journal_at img pos) 2 = 4
        · rw [if_pos hc] at hparse
          obtain ⟨rest, _, hrecs⟩ := Option.map_eq_some'.mp hparse
          subst hrecs
          exact absurd (hdata Rec.commit (List.mem_cons_self _ _)) (fun h => h)
        · rw [if_neg hc] at hparse; simp at hparse
    · rw [if_neg hlt] at hparse
      simp only [Option.some.injEq] at hparse
      subst hparse
      exact ⟨cur, by rw [install_loop_exit _ _ _ _ _ _ hlt]; rfl⟩

/-- Data records at the end of the journal add no committed write. -/
theorem committed_writes_tail (tail : List Rec) (htail : ∀ r ∈ tail, r.is_data) :
    ∀ (pre : List Rec) (pend : List (Nat × Block)),
      committed_writes pend (pre ++ tail) = committed_writes pend pre := by
  have hbase : ∀ (tl : List Rec), (∀ r ∈ tl, r.is_data) → ∀ pend : List (Nat × Block),
      committed_writes pend tl = [] := by
    intro tl
    induction tl with
    | nil => intro _ pend; rfl
    | cons r rs ih =>
      intro h pend
      cases r with
      | data b p =>
        show committed_writes (pend ++ [(b, p)]) rs = []
        exact ih (fun r hr => h r (List.mem_cons_of_mem _ hr)) _
      | commit => exact absurd (h Rec.commit (List.mem_cons_self _ _)) (fun h => h)
  intro pre
  induction pre with
  | nil =>
    intro pend
    rw [List.nil_append, hbase tail htail pend]
    rfl
  | cons r rs ih =>
    intro pend
    cases r with
    | data b p =>
      show committed_writes (pend ++ [(b, p)]) (rs ++ tail) =
        committed_writes (pend ++ [(b, p)]) rs
      exact ih _
    | commit =>
      show pend ++ committed_writes [] (rs ++ tail) = pend ++ committed_writes [] rs
      rw [ih]

theorem num_commits_tail (tail : List Rec) (htail : ∀ r ∈ tail, r.is_data) :
    ∀ (pre : List Rec), num_commits (pre ++ tail) = num_commits pre := by
  have hbase : ∀ (tl : List Rec), (∀ r ∈ tl, r.is_data) → num_commits tl = 0 := by
    intro tl
    induction tl with
    | nil => intro _; rfl
    | cons r rs ih =>
      intro h
      cases r with
      | data b p =>
        show num_commits rs = 0
        exact ih (fun r hr => h r (List.mem_cons_of_mem _ hr))
      | commit => exact absurd (h Rec.commit (List.mem_cons_self _ _)) (fun h => h)
  intro pre
  induction pre with
  | nil => rw [List.nil_append, hbase tail htail]; rfl
  | cons r rs ih =>
    cases r with
    | data b p =>
      show num_commits (rs ++ tail) = num_commits rs
      exact ih
    | commit =>
      show num_commits (rs ++ tail) + 1 = num_commits rs + 1
      rw [ih]

/-! ## Fields of the new inode and of the new directory entry -/

/-- The slot of the new inode holds type 1 and links 1, for every inode
number. -/
theorem new_inode_block_type_links (bm ib rd : Block) (i s : Nat) (name : List Byte)
    (t1 t2 t3 : Nat) :
    get16 (build_blocks bm ib rd i s name t1 t2 t3).new_inode_block.buf (128 * (i % 32)) = 1 ∧
    get16 (build_blocks bm ib rd i s name t1 t2 t3).new_inode_block.buf (128 * (i % 32) + 2) = 1 := by
  have hslot : i % 32 < 32 := Nat.mod_lt _ (by decide)
  unfold build_blocks
  simp only
  by_cases h0 : i / 32 = 0
  · rw [if_pos h0]
    refine ⟨?_, ?_⟩
    · unfold put32 memset0
      rw [get16_splice_disjoint _ _ _ _ _ _ (by omega) (by omega),
        get16_splice_disjoint _ _ _ _ _ _ (by omega) (by omega),
        get16_splice_disjoint _ _ _ _ _ _ (by omega) (by omega),
        get16_splice_disjoint _ _ _ _ _ _ (by omega) (by omega),
        get16_splice_disjoint _ _ _ _ _ _ (by omega) (by omega),
        get16_splice_disjoint _ _ _ _ _ _ (by omega) (by omega)]
      rw [put16, get16_splice_disjoint _ _ _ _ _ _ (by omega) (by omega),
        get16_put16 _ _ _ (by omega)]
      rfl
    · unfold put32 memset0
      rw [get16_splice_disjoint _ _ _ _ _ _ (by omega) (by omega),
        get16_splice_disjoint _ _ _ _ _ _ (by omega) (by omega),
        get16_splice_disjoint _ _ _ _ _ _ (by omega) (by omega),
        get16_splice_disjoint _ _ _ _ _ _ (by omega) (by omega),
        get16_splice_disjoint _ _ _ _ _ _ (by omega) (by omega),
        get16_splice_disjoint _ _ _ _ _ _ (by omega) (by omega)]
      rw [get16_put16 _ _ _ (by omega)]
      rfl
  · rw [if_neg h0]
    refine ⟨?_, ?_⟩
    · unfold put32 memset0
      rw [get16_splice_disjoint _ _ _ _ _ _ (by omega) (by omega),
        get16_splice_disjoint _ _ _ _ _ _ (by omega) (by omega),
        get16_splice_disjoint _ _ _ _ _ _ (by omega) (by omega),
        get16_splice_disjoint _ _ _ _ _ _ (by omega) (by omega)]
      rw [put16, get16_splice_disjoint _ _ _ _ _ _ (by omega) (by omega),
        get16_put16 _ _ _ (by omega)]
      rfl
    · unfold put32 memset0
      rw [get16_splice_disjoint _ _ _ _ _ _ (by omega) (by omega),
        get16_splice_disjoint _ _ _ _ _ _ (by omega) (by omega),
        get16_splice_disjoint _ _ _ _ _ _ (by omega) (by omega),
        get16_splice_disjoint _ _ _ _ _ _ (by omega) (by omega)]
      rw [get16_put16 _ _ _ (by omega)]
      rfl

/-- When the new inode is inode 0 its size field ends as 32: the root-inode
update adds 32 to the 0 just stored. -/
theorem new_inode_block_size_zero (bm ib rd : Block) (s : Nat) (name : List Byte)
    (t1 t2 t3 : Nat) :
    get32 (build_blocks bm ib rd 0 s name t1 t2 t3).new_inode_block.buf (128 * (0 % 32) + 4)
      = 32 := by
  unfold build_blocks
  simp only
  rw [if_pos (by decide)]
  rw [put32, get32_splice_disjoint _ _ _ _ _ _ (by omega) (by omega),
    get32_put32 _ _ _ (by omega)]
  rw [put32, get32_splice_disjoint _ _ _ _ _ _ (by omega) (by omega),
    put32, get32_splice_disjoint _ _ _ _ _ _ (by omega) (by omega),
    memset0, get32_splice_disjoint _ _ _ _ _ _ (by omega) (by omega),
    get32_put32 _ _ _ (by omega)]
  decide

/-- `strlen` counts the bytes before the first NUL. -/
theorem strlen_lt_iff : ∀ (name : List Byte) (k : Nat),
    k < strlen name ↔ ∀ j, j ≤ k → name.getD j 0 ≠ 0 := by
  intro name
  induction name with
  | nil =>
    intro k
    constructor
    · intro h
      exact absurd h (by simp [strlen])
    · intro h
      exact absurd rfl (h 0 (Nat.zero_le _))
  | cons c cs ih =>
    intro k
    have hs : strlen (c :: cs) = if c ≠ 0 then strlen cs + 1 else 0 := by
      unfold strlen
      by_cases hc : c = 0
      · simp [hc]
      · simp [hc, List.takeWhile_cons]
    rw [hs]
    by_cases hc : c = 0
    · rw [if_neg (by simp [hc])]
      constructor
      · intro h
        exact absurd h (Nat.not_lt_zero _)
      · intro h
        exact absurd (by simp [hc]) (h 0 (Nat.zero_le _))
    · rw [if_pos hc]
      cases k with
      | zero =>
        constructor
        · intro _ j hj
          have : j = 0 := by omega
          subst this
          simpa using hc
        · intro _
          omega
      | succ k =>
        constructor
        · intro h j hj
          cases j with
          | zero => simpa using hc
          | succ j =>
            have := (ih k).mp (by omega) j (by omega)
            simpa using this
        · intro h
          have : k < strlen cs := (ih k).mpr (fun j hj => by
            have := h (j + 1) (by omega)
            simpa using this)
          omega

theorem strlen_of_no_nul (name : List Byte) (h : ∀ c ∈ name, c ≠ 0) :
    strlen name = name.length := by
  unfold strlen
  rw [List.takeWhile_eq_self_iff.mpr]
  intro c hc
  simpa using h c hc

/-! ## The start of the replay scan -/

/-- The replay scan starts on the image the program was given, the file
position being just after the header block. -/
theorem scan_start_eq (img : Image) : scan_start img = ⟨img, 2⟩ := by
  unfold scan_start
  rw [read_journal_header_direct]

/-- The header that `read_journal_header` returns does not depend on the file
position. -/
theorem read_journal_header_fst (d : Disk) :
    (read_journal_header d).1 = Direct.read_journal_header d.img := by
  rw [read_journal_header_direct]

/-- The outcomes of `journal_create` that are precondition failures. -/
theorem create_failure_ne_created (o : CreateOutcome)
    (h : o ∈ [CreateOutcome.invalid_fs_magic, CreateOutcome.journal_busy,
      CreateOutcome.no_free_inodes, CreateOutcome.no_free_slots, CreateOutcome.journal_full]) :
    o ≠ CreateOutcome.created := by
  intro e
  subst e
  revert h
  decide

/-! ## C1: replay of committed transactions -/

/-- C1 (amended): for an image whose journal header has magic `JOURNAL_MAGIC`
and `8 < bytes_used ≤ 16 * 4096`, whose scanned range consists of well-formed
records and whose data records all target blocks outside the journal region
(blocks 1..16) with a block number below `2 ^ 19`, `journal_install` succeeds,
reports one applied transaction per commit record, and leaves in every block
outside the journal region the payload of the last committed data record that
targets it, or the old content when no committed record targets it. -/
theorem journal_install_applies_committed (img : Image) (recs : List Rec)
    (hm : (Direct.read_journal_header img).magic = JOURNAL_MAGIC)
    (h8 : 8 < (Direct.read_journal_header img).nbytes_used)
    (hcap : (Direct.read_journal_header img).nbytes_used ≤ 16 * 4096)
    (hparse : parse_journal img (Direct.read_journal_header img).nbytes_used = some recs)
    (hout : ∀ r ∈ recs, r.outside_journal) (hin : ∀ r ∈ recs, r.in_range)
    (fuel : Nat) (hfuel : recs.length ≤ fuel) :
    ∃ o img', journal_install fuel img = some (o, img') ∧ o.ret = 0 ∧
      o.applied = num_commits recs ∧
      ∀ b, (b = 0 ∨ 16 < b) → img' b = block_after img (committed_writes [] recs) b := by
  obtain ⟨c, hc⟩ := journal_install_replay img recs hm h8 hcap hparse hout hin fuel hfuel
  refine ⟨_, _, hc, rfl, rfl, fun b hb => ?_⟩
  rw [write_journal_header_block _ _ _ (by omega), apply_pending_eq_block_after]

/-- C1 (amended) at the image `img_one_txn`: one data record for block 20 and
its commit. -/
theorem journal_install_applies_committed_witness :
    ((Direct.read_journal_header img_one_txn).magic = JOURNAL_MAGIC ∧
     8 < (Direct.read_journal_header img_one_txn).nbytes_used ∧
     (Direct.read_journal_header img_one_txn).nbytes_used ≤ 16 * 4096 ∧
     parse_journal img_one_txn (Direct.read_journal_header img_one_txn).nbytes_used =
       some [Rec.data 20 ((journal_at img_one_txn 8).block 8), Rec.commit] ∧
     (∀ r ∈ [Rec.data 20 ((journal_at img_one_txn 8).block 8), Rec.commit],
       r.outside_journal ∧ r.in_range)) ∧
    ∃ o img', journal_install 2 img_one_txn = some (o, img') ∧ o.ret = 0 ∧
      o.applied = num_commits [Rec.data 20 ((journal_at img_one_txn 8).block 8), Rec.commit] ∧
      ∀ b, (b = 0 ∨ 16 < b) → img' b = block_after img_one_txn
        (committed_writes [] [Rec.data 20 ((journal_at img_one_txn 8).block 8), Rec.commit]) b :=
  ⟨⟨by decide, by decide, by decide, rfl, by decide⟩,
   journal_install_applies_committed img_one_txn
     [Rec.data 20 ((journal_at img_one_txn 8).block 8), Rec.commit]
     (by decide) (by decide) (by decide) rfl (by decide) (by decide) 2 (by decide)⟩

/-- C1 as stated fails when `bytes_used` exceeds the journal region: in
`img_long` (`bytes_used = 65680`) every scanned record is well formed, no
commit is preceded by more than 16 data records and every data record targets
block 17 or block 20, yet after the first transaction has overwritten block 17
the scan reads the record at position 65676 from the new content of that
block, takes it for a data record instead of the commit record the journal
held, and never applies the data record for block 20 at position 61572: block
20 begins with 0, not with the byte 9 of that record. -/
theorem journal_install_long_journal_counterexample :
    (Direct.read_journal_header img_long).magic = JOURNAL_MAGIC ∧
    8 < (Direct.read_journal_header img_long).nbytes_used ∧
    parse_journal img_long (Direct.read_journal_header img_long).nbytes_used =
      some img_long_recs ∧
    runs_ok 0 img_long_recs = true ∧
    (∀ r ∈ img_long_recs, r.outside_journal) ∧
    ¬ ∃ fuel o img', journal_install fuel img_long = some (o, img') ∧ o.ret = 0 ∧
        ∀ b, (b = 0 ∨ 16 < b) →
          img' b = block_after img_long (committed_writes [] img_long_recs) b := by
  refine ⟨by decide, by decide, rfl, by decide, by decide, ?_⟩
  rintro ⟨fuel, o, img', h, _, hb⟩
  have h20 := congrFun (hb 20 (Or.inr (by decide))) 0
  have e : (journal_install 20 img_long).map (fun r => r.2 20 0) = some 0 := by decide!
  have e9 : block_after img_long (committed_writes [] img_long_recs) 20 0 = 9 := by decide
  cases hj : journal_install 20 img_long with
  | none => rw [hj] at e; simp at e
  | some r0 =>
    have := journal_install_deterministic 20 fuel img_long r0 (o, img') hj h
    subst this
    rw [hj] at e
    simp only [Option.map_some', Option.some.injEq] at e
    rw [e, e9] at h20
    exact absurd h20 (by decide)

/-! ## C2: crash before the header write -/

/-- C2: on an image with an initialized empty journal (magic `JOURNAL_MAGIC`,
`bytes_used = 8`) on which `journal_create` passes its checks and performs its
four `append_record_to_journal` calls, if the final `write_journal_header` is
not executed then the on-disk header still reads `bytes_used = 8`, a following
`journal_install` leaves through the "journal is empty" exit with zero
transactions applied and the image untouched, and every block outside journal
blocks 1..4 has its content from before the create. -/
theorem crash_before_header_write (img : Image) (name : List Byte)
    (now_ctime now_mtime now_root : Nat) (d1 : Disk) (jh1 : journal_header)
    (hm : (Direct.read_journal_header img).magic = JOURNAL_MAGIC)
    (h8 : (Direct.read_journal_header img).nbytes_used = 8)
    (h : journal_create_stage img name now_ctime now_mtime now_root =
      ⟨CreateOutcome.created, d1, jh1⟩) (fuel : Nat) :
    (read_journal_header d1).1 = ⟨JOURNAL_MAGIC, 8⟩ ∧
    (∃ o, journal_install fuel d1.img = some (o, d1.img) ∧ o.ret = 0 ∧ o.applied = 0) ∧
    ∀ b, (b = 0 ∨ 4 < b) → d1.img b = img b := by
  have hout : (journal_create_stage img name now_ctime now_mtime now_root).outcome =
      CreateOutcome.created := by rw [h]
  obtain ⟨r1, r2, r3, c, hshape⟩ :=
    stage_created_shape img name now_ctime now_mtime now_root hm h8 hout
  rw [h] at hshape
  simp only at hshape
  have hhdr : Direct.read_journal_header d1.img = ⟨JOURNAL_MAGIC, 8⟩ := by
    rw [hshape, read_journal_header_congr img (staged_image img r1 r2 r3 c)]
    · cases hh : Direct.read_journal_header img with
      | mk a b => rw [hh] at hm h8; simp only at hm h8; rw [hm, h8]
    · intro q hq
      rw [staged_image_jbyte, if_neg (by omega), if_neg (by omega), if_neg (by omega),
        if_neg (by omega)]
  refine ⟨?_, ⟨InstallOutcome.empty, ?_, rfl, rfl⟩, fun b hb => ?_⟩
  · rw [read_journal_header_direct, hhdr]
  · refine journal_install_of_empty fuel d1.img ?_ ?_
    · rw [hhdr]
    · rw [hhdr]
  · rw [hshape]
    exact staged_image_block img r1 r2 r3 c b hb

/-- C2 at `img_ready` and the name "foo.txt". -/
theorem crash_before_header_write_witness :
    ((Direct.read_journal_header img_ready).magic = JOURNAL_MAGIC ∧
     (Direct.read_journal_header img_ready).nbytes_used = 8 ∧
     (journal_create_stage img_ready foo_txt 7 7 7).outcome = CreateOutcome.created) ∧
    (read_journal_header (journal_create_stage img_ready foo_txt 7 7 7).disk).1 =
      ⟨JOURNAL_MAGIC, 8⟩ ∧
    (∃ o, journal_install 0 (journal_create_stage img_ready foo_txt 7 7 7).disk.img =
        some (o, (journal_create_stage img_ready foo_txt 7 7 7).disk.img) ∧ o.ret = 0 ∧
      o.applied = 0) ∧
    ∀ b, (b = 0 ∨ 4 < b) →
      (journal_create_stage img_ready foo_txt 7 7 7).disk.img b = img_ready b := by
  obtain ⟨q, hq⟩ := stage_of_pre img_ready foo_txt 7 7 7 1 1 (by decide) (by decide)
  have ho : (journal_create_stage img_ready foo_txt 7 7 7).outcome = CreateOutcome.created := by
    rw [hq]
  have hst : journal_create_stage img_ready foo_txt 7 7 7 =
      ⟨CreateOutcome.created, (journal_create_stage img_ready foo_txt 7 7 7).disk,
        (journal_create_stage img_ready foo_txt 7 7 7).jh⟩ := by
    rw [hq]
  exact ⟨⟨by decide, by decide, ho⟩,
    crash_before_header_write img_ready foo_txt 7 7 7 _ _ (by decide) (by decide) hst 0⟩

/-! ## C3: uncommitted records -/

/-- C3 (amended): for an image whose header has magic `JOURNAL_MAGIC` and
`8 < bytes_used ≤ 16 * 4096`, whose scanned range consists of well-formed
records `pre ++ tail`, the records of `tail` being data records (no commit
record follows them), and whose data records all target blocks outside the
journal region with a number below `2 ^ 19`, `journal_install` succeeds and
writes the committed records of `pre` only: it reports the commits of `pre`,
every block outside the journal region holds what the committed writes of
`pre` leave there, and the header is reset to `{JOURNAL_MAGIC, 8}`.  When the
range `[8, bytes_used)` of an image `jmg` with an initialized header holds
data records only (at least one, at most 16, each of declared size 4104),
`journal_install` returns success with zero transactions applied, and the
image differs from the old one only in bytes 4..7 of block 1 (the header
field `bytes_used`), which now hold 8. -/
theorem journal_install_discards_uncommitted (img : Image) (pre tail : List Rec)
    (hm : (Direct.read_journal_header img).magic = JOURNAL_MAGIC)
    (h8 : 8 < (Direct.read_journal_header img).nbytes_used)
    (hcap : (Direct.read_journal_header img).nbytes_used ≤ 16 * 4096)
    (hparse : parse_journal img (Direct.read_journal_header img).nbytes_used =
      some (pre ++ tail))
    (htail : ∀ r ∈ tail, r.is_data)
    (hout : ∀ r ∈ pre ++ tail, r.outside_journal)
    (hin : ∀ r ∈ pre ++ tail, r.in_range)
    (fuel : Nat) (hfuel : (pre ++ tail).length ≤ fuel)
    (jmg : Image) (drecs : List Rec)
    (hm2 : (Direct.read_journal_header jmg).magic = JOURNAL_MAGIC)
    (h82 : 8 < (Direct.read_journal_header jmg).nbytes_used)
    (hparse2 : parse_journal jmg (Direct.read_journal_header jmg).nbytes_used = some drecs)
    (hdata : ∀ r ∈ drecs, r.is_data) (hlen : drecs.length ≤ 16)
    (fuel2 : Nat) (hfuel2 : drecs.length ≤ fuel2) :
    (∃ o img', journal_install fuel img = some (o, img') ∧ o.ret = 0 ∧
      o.applied = num_commits pre ∧
      (∀ b, (b = 0 ∨ 16 < b) → img' b = block_after img (committed_writes [] pre) b) ∧
      Direct.read_journal_header img' = ⟨JOURNAL_MAGIC, 8⟩) ∧
    (∃ o img', journal_install fuel2 jmg = some (o, img') ∧ o.ret = 0 ∧ o.applied = 0 ∧
      (∀ (b : Nat) (i : Fin 4096), ¬ (b = 1 ∧ 4 ≤ i.val ∧ i.val < 8) → img' b i = jmg b i) ∧
      Direct.read_journal_header img' = ⟨JOURNAL_MAGIC, 8⟩) := by
  constructor
  · obtain ⟨c, hc⟩ := journal_install_replay img (pre ++ tail) hm h8 hcap hparse hout hin
      fuel hfuel
    rw [committed_writes_tail tail htail, num_commits_tail tail htail] at hc
    refine ⟨_, _, hc, rfl, rfl, fun b hb => ?_, ?_⟩
    · rw [write_journal_header_block _ _ _ (by omega), apply_pending_eq_block_after]
    · exact read_write_journal_header _ ⟨JOURNAL_MAGIC, 8⟩ (by decide) (by decide)
  · obtain ⟨q, hloop⟩ := install_loop_data_only jmg (Direct.read_journal_header jmg).nbytes_used
      (Direct.read_journal_header jmg).nbytes_used 8 drecs hparse2 hdata fuel2 2 [] 0 hfuel2
      (by omega) (by simpa using hlen)
    have hstep := journal_install_loop_installed fuel2 jmg hm2 (by omega) _ _ _ hloop
    simp only at hstep
    refine ⟨_, _, hstep, rfl, rfl, ?_, ?_⟩
    · intro b i h
      have e := write_journal_header_same_magic jmg 8 b i h
      rw [hm2] at e
      exact e
    · exact read_write_journal_header jmg ⟨JOURNAL_MAGIC, 8⟩ (by decide) (by decide)

/-- C3 (amended) at `img_txn_tail` (a committed record for block 20, then an
uncommitted one for block 21) and at `img_uncommitted` (two data records, no
commit). -/
theorem journal_install_discards_uncommitted_witness :
    ((Direct.read_journal_header img_txn_tail).magic = JOURNAL_MAGIC ∧
     8 < (Direct.read_journal_header img_txn_tail).nbytes_used ∧
     (Direct.read_journal_header img_txn_tail).nbytes_used ≤ 16 * 4096 ∧
     parse_journal img_txn_tail (Direct.read_journal_header img_txn_tail).nbytes_used =
       some ([Rec.data 20 ((journal_at img_txn_tail 8).block 8), Rec.commit] ++
             [Rec.data 21 ((journal_at img_txn_tail 4116).block 8)]) ∧
     (Direct.read_journal_header img_uncommitted).magic = JOURNAL_MAGIC ∧
     8 < (Direct.read_journal_header img_uncommitted).nbytes_used ∧
     parse_journal img_uncommitted (Direct.read_journal_header img_uncommitted).nbytes_used =
       some [Rec.data 20 ((journal_at img_uncommitted 8).block 8),
             Rec.data 21 ((journal_at img_uncommitted 4112).block 8)]) ∧
    (∃ o img', journal_install 3 img_txn_tail = some (o, img') ∧ o.ret = 0 ∧
      o.applied = 1 ∧
      (∀ b, (b = 0 ∨ 16 < b) → img' b = block_after img_txn_tail
        (committed_writes [] [Rec.data 20 ((journal_at img_txn_tail 8).block 8), Rec.commit])
        b) ∧
      Direct.read_journal_header img' = ⟨JOURNAL_MAGIC, 8⟩) ∧
    (∃ o img', journal_install 2 img_uncommitted = some (o, img') ∧ o.ret = 0 ∧
      o.applied = 0 ∧
      (∀ (b : Nat) (i : Fin 4096), ¬ (b = 1 ∧ 4 ≤ i.val ∧ i.val < 8) →
        img' b i = img_uncommitted b i) ∧
      Direct.read_journal_header img' = ⟨JOURNAL_MAGIC, 8⟩) :=
  ⟨⟨by decide, by decide, by decide, rfl, by decide, by decide, rfl⟩,
   journal_install_discards_uncommitted img_txn_tail
     [Rec.data 20 ((journal_at img_txn_tail 8).block 8), Rec.commit]
     [Rec.data 21 ((journal_at img_txn_tail 4116).block 8)]
     (by decide) (by decide) (by decide) rfl (by decide) (by decide) (by decide) 3 (by decide)
     img_uncommitted
     [Rec.data 20 ((journal_at img_uncommitted 8).block 8),
      Rec.data 21 ((journal_at img_uncommitted 4112).block 8)]
     (by decide) (by decide) rfl (by decide) (by decide) 2 (by decide)⟩

/-- C3 as stated fails when a committed data record targets a journal block:
the journal of `img_tail_written` holds a data record for block 2, a commit
record, and a data record for block 20 that no commit record follows.  The
first transaction overwrites block 2, where the header of the last record
lies; the scan then reads there a data record of declared size 8 and, 8 bytes
on, inside the payload, a commit record, and writes to block 20 the payload of
the record that was not committed: block 20, which began with 0, begins with
the payload's first byte, 2. -/
theorem journal_install_discards_uncommitted_counterexample :
    (Direct.read_journal_header img_tail_written).magic = JOURNAL_MAGIC ∧
    parse_journal img_tail_written (Direct.read_journal_header img_tail_written).nbytes_used =
      some ([Rec.data 2 ((journal_at img_tail_written 8).block 8), Rec.commit] ++
            [Rec.data 20 ((journal_at img_tail_written 4116).block 8)]) ∧
    (journal_at img_tail_written 4116).block 8 0 = 2 ∧
    img_tail_written 20 0 = 0 ∧
    (∃ r, journal_install 5 img_tail_written = some r) ∧
    ∀ fuel o img', journal_install fuel img_tail_written = some (o, img') →
      o.ret = 0 ∧ img' 20 0 = 2 := by
  have e : (journal_install 5 img_tail_written).map (fun r => (r.1.ret, r.2 20 0)) =
      some (0, 2) := by decide!
  refine ⟨by decide, rfl, by decide, by decide, ?_, ?_⟩
  · cases hj : journal_install 5 img_tail_written with
    | none => rw [hj] at e; simp at e
    | some r0 => exact ⟨r0, rfl⟩
  · intro fuel o img' h
    cases hj : journal_install 5 img_tail_written with
    | none => rw [hj] at e; simp at e
    | some r0 =>
      have := journal_install_deterministic 5 fuel img_tail_written r0 (o, img') hj h
      subst this
      rw [hj] at e
      simp only [Option.map_some', Option.some.injEq, Prod.mk.injEq] at e
      exact e

/-! ## C4: idempotent install -/

/-- C4: when `journal_install` returns success, a second `journal_install`
right after it (with any fuel) returns through the "journal is empty" exit,
which applies no transaction, and leaves the image exactly as it was. -/
theorem journal_install_twice (fuel : Nat) (img img1 : Image) (o : InstallOutcome)
    (h : journal_install fuel img = some (o, img1)) (hret : o.ret = 0) (fuel2 : Nat) :
    journal_install fuel2 img1 = some (InstallOutcome.empty, img1) ∧
    InstallOutcome.empty.ret = 0 ∧ InstallOutcome.empty.applied = 0 := by
  have hh := journal_install_ok_header fuel img o img1 h hret
  refine ⟨journal_install_of_empty fuel2 img1 ?_ ?_, rfl, rfl⟩
  · rw [hh]
  · rw [hh]

/-- C4 at an image with one committed transaction: the first install applies
it, the second finds the journal empty. -/
theorem journal_install_twice_witness :
    (journal_install 5 img_one_txn = some (InstallOutcome.installed 1 0, img_one_txn_installed) ∧
     (InstallOutcome.installed 1 0).ret = 0) ∧
    journal_install 0 img_one_txn_installed = some (InstallOutcome.empty, img_one_txn_installed) :=
  ⟨⟨rfl, rfl⟩,
   (journal_install_twice 5 img_one_txn img_one_txn_installed (InstallOutcome.installed 1 0)
      rfl rfl 0).1⟩

/-! ## C5: straddling round trip -/

/-- C5: for every state of the open file, every cursor position `p` and every
record of `n` bytes with `1 ≤ n ≤ 4104` and `p + n ≤ 16 * 4096`,
`read_from_journal(p, buf, n)` on the file that `append_record_to_journal`
with cursor `p` leaves returns the record byte for byte; both copy loops leave
with `bytes_remaining = 0`. -/
theorem append_read_roundtrip (d : Disk) (jh : journal_header) (record buffer : Buf) (n : Nat)
    (hn1 : 1 ≤ n) (hn2 : n ≤ 4104) (hcap : jh.nbytes_used + n ≤ 16 * 4096) :
    (append_loop record n d jh.nbytes_used n 0).bytes_remaining = 0 ∧
    (read_loop n (append_record_to_journal d jh record n).1 buffer
      jh.nbytes_used n 0).bytes_remaining = 0 ∧
    ∀ k, k < n →
      (read_from_journal (append_record_to_journal d jh record n).1 jh.nbytes_used
        buffer n).1 k = record k := by
  have hdir := append_read_roundtrip_direct d.img jh record buffer n hn1 hn2 hcap
  obtain ⟨q, hq⟩ := append_loop_direct record n d jh.nbytes_used n 0 (by omega)
  obtain ⟨q2, hq2⟩ := append_record_to_journal_direct d jh record n (by omega)
  refine ⟨?_, ?_, ?_⟩
  · rw [hq]
    exact hdir.1
  · rw [hq2, (read_loop_direct n _ buffer jh.nbytes_used n 0 (by omega)).2]
    exact hdir.2.1
  · intro k hk
    rw [hq2, read_from_journal_direct _ _ _ _ (by omega)]
    exact hdir.2.2 k hk

/-- C5 at a 4104-byte record appended at offset 4000 of the first journal
block, so that it runs over two block boundaries. -/
theorem append_read_roundtrip_witness :
    (1 ≤ 4104 ∧ 4104 ≤ 4104 ∧
      (⟨JOURNAL_MAGIC, 4000⟩ : journal_header).nbytes_used + 4104 ≤ 16 * 4096) ∧
    ∀ k, k < 4104 →
      (read_from_journal
        (append_record_to_journal ⟨img_one_txn, 0⟩ ⟨JOURNAL_MAGIC, 4000⟩
          (fun k => byte_of k) 4104).1
        4000 uninit 4104).1 k = byte_of k :=
  ⟨by decide,
   (append_read_roundtrip ⟨img_one_txn, 0⟩ ⟨JOURNAL_MAGIC, 4000⟩ (fun k => byte_of k) uninit 4104
      (by decide) (by decide) (by decide)).2.2⟩

/-! ## C6: fields of the new inode -/

/-- C6 (amended): under the preconditions of `journal_create`, the three
block numbers it uses being below `2 ^ 19`, `journal_create` followed by
`journal_install` leaves the inode-table slot of the allocated inode `i` (the
first clear bit of the inode bitmap) with type 1 (file) and links 1; its size
is 0 when `i` is not inode 0, and 32 when `i` is inode 0. -/
theorem create_install_inode_fields (img : Image) (name : List Byte)
    (now_ctime now_mtime now_root i s : Nat) (h : create_pre img i s)
    (hr : blocks_in_range img i) (fuel : Nat) (hf : 4 ≤ fuel) :
    ∃ img1 o img2,
      journal_create img name now_ctime now_mtime now_root = (CreateOutcome.created, img1) ∧
      journal_install fuel img1 = some (o, img2) ∧ o.ret = 0 ∧
      get16 (img2 (inode_table_block img i)).buf (128 * (i % 32)) = 1 ∧
      get16 (img2 (inode_table_block img i)).buf (128 * (i % 32) + 2) = 1 ∧
      (i ≠ 0 → get32 (img2 (inode_table_block img i)).buf (128 * (i % 32) + 4) = 0) ∧
      (i = 0 → get32 (img2 (inode_table_block img i)).buf (128 * (i % 32) + 4) = 32) := by
  obtain ⟨img1, c, img2, hc, hin, _, h2, _⟩ :=
    create_then_install img name now_ctime now_mtime now_root i s h hr fuel hf
  refine ⟨img1, _, img2, hc, hin, rfl, ?_⟩
  rw [h2]
  refine ⟨(new_inode_block_type_links _ _ _ i s name now_ctime now_mtime now_root).1,
    (new_inode_block_type_links _ _ _ i s name now_ctime now_mtime now_root).2, ?_, ?_⟩
  · intro hi
    exact (new_inode_block_fields _ _ _ i s name now_ctime now_mtime now_root hi).2.2
  · intro hi
    subst hi
    exact new_inode_block_size_zero _ _ _ s name now_ctime now_mtime now_root

/-- C6 (amended) at `img_fs`, where inode 1 is allocated. -/
theorem create_install_inode_fields_witness :
    (create_pre img_fs 1 1 ∧ blocks_in_range img_fs 1 ∧ 4 ≤ 4) ∧
    ∃ img1 o img2,
      journal_create img_fs foo_txt 7 7 7 = (CreateOutcome.created, img1) ∧
      journal_install 4 img1 = some (o, img2) ∧ o.ret = 0 ∧
      get16 (img2 (inode_table_block img_fs 1)).buf (128 * (1 % 32)) = 1 ∧
      get16 (img2 (inode_table_block img_fs 1)).buf (128 * (1 % 32) + 2) = 1 ∧
      (1 ≠ 0 → get32 (img2 (inode_table_block img_fs 1)).buf (128 * (1 % 32) + 4) = 0) ∧
      (1 = 0 → get32 (img2 (inode_table_block img_fs 1)).buf (128 * (1 % 32) + 4) = 32) :=
  ⟨⟨by decide, by decide, by decide⟩,
   create_install_inode_fields img_fs foo_txt 7 7 7 1 1 (by decide) (by decide) 4 (by decide)⟩

/-- C6 as stated fails when the first clear bit is bit 0: in `img_root_free`
all preconditions hold and inode 0 is allocated, and since the new inode is
then also the root inode, whose size `journal_create` increments after it has
filled in the new inode, the slot ends with size 32, not 0. -/
theorem create_install_inode_fields_counterexample :
    create_pre img_root_free 0 0 ∧
    ¬ ∃ fuel img1 o img2,
      journal_create img_root_free foo_txt 7 7 7 = (CreateOutcome.created, img1) ∧
      journal_install fuel img1 = some (o, img2) ∧ o.ret = 0 ∧
      get16 (img2 (inode_table_block img_root_free 0)).buf (128 * (0 % 32)) = 1 ∧
      get16 (img2 (inode_table_block img_root_free 0)).buf (128 * (0 % 32) + 2) = 1 ∧
      get32 (img2 (inode_table_block img_root_free 0)).buf (128 * (0 % 32) + 4) = 0 := by
  have hpre : create_pre img_root_free 0 0 := by decide
  refine ⟨hpre, ?_⟩
  rintro ⟨fuel, img1', o, img2', hc', hin', _, _, _, hsize⟩
  obtain ⟨img1, c, img2, hc, hin, _, h2, _⟩ :=
    create_then_install img_root_free foo_txt 7 7 7 0 0 hpre (by decide) 4 (le_refl _)
  rw [hc] at hc'
  have e1 : img1 = img1' := (Prod.mk.inj hc').2
  subst e1
  have e2 := journal_install_deterministic 4 fuel img1 _ _ hin hin'
  have e3 : img2 = img2' := (Prod.mk.inj e2).2
  subst e3
  rw [h2] at hsize
  have : get32 (new_blocks img_root_free 0 0 foo_txt 7 7 7).new_inode_block.buf (128 * (0 % 32) + 4)
      = 32 := by decide
  rw [this] at hsize
  exact absurd hsize (by decide)

/-! ## C7: the new directory entry -/

/-- C7 (amended): under the preconditions of `journal_create`, the three
block numbers it uses being below `2 ^ 19`, `journal_create` followed by
`journal_install` leaves a root directory block that differs from the old one
only in slot `s`, the first free slot.  The slot's inode field holds the
allocated inode number.  Byte `k` of its 28-byte name field is byte `k` of the
name when `k < 27` and no byte of the name up to and including byte `k` is
NUL, and it is NUL otherwise; for a name without NUL bytes the field therefore
is the first `min (length name) 27` bytes of the name followed by NUL bytes. -/
theorem create_install_dirent (img : Image) (name : List Byte)
    (now_ctime now_mtime now_root i s : Nat) (h : create_pre img i s)
    (hr : blocks_in_range img i) (fuel : Nat) (hf : 4 ≤ fuel) :
    ∃ img1 o img2,
      journal_create img name now_ctime now_mtime now_root = (CreateOutcome.created, img1) ∧
      journal_install fuel img1 = some (o, img2) ∧ o.ret = 0 ∧
      get32 (img2 (sb_of img).data_start).buf (32 * s) = i ∧
      (∀ k, k < 27 → (∀ j, j ≤ k → name.getD j 0 ≠ 0) →
        (img2 (sb_of img).data_start).buf (32 * s + 4 + k) = name.getD k 0) ∧
      (∀ k, k < 28 → (k = 27 ∨ ∃ j, j ≤ k ∧ name.getD j 0 = 0) →
        (img2 (sb_of img).data_start).buf (32 * s + 4 + k) = 0) ∧
      ((∀ c ∈ name, c ≠ 0) → ∀ k, k < 28 →
        (img2 (sb_of img).data_start).buf (32 * s + 4 + k) =
          if k < min name.length 27 then name.getD k 0 else 0) ∧
      (∀ j : Fin 4096, (j.val < 32 * s ∨ 32 * s + 32 ≤ j.val) →
        img2 (sb_of img).data_start j = img (sb_of img).data_start j) := by
  obtain ⟨img1, c, img2, hc, hin, _, _, h3⟩ :=
    create_then_install img name now_ctime now_mtime now_root i s h hr fuel hf
  refine ⟨img1, _, img2, hc, hin, rfl, ?_⟩
  rw [h3]
  have hi : i < 2 ^ 32 := by
    have := h.inode_lt
    have := h.inode_count_le
    omega
  obtain ⟨e1, e2, e3⟩ :=
    new_root_dir_entry (img (sb_of img).inode_bitmap) (img (inode_table_block img i))
      (img (sb_of img).data_start) i s name now_ctime now_mtime now_root h.slot_lt hi
  refine ⟨e1, ?_, ?_, ?_, e3⟩
  · intro k hk hnz
    have hlt := (strlen_lt_iff name k).mpr hnz
    unfold new_blocks
    rw [e2 k (by omega), if_pos (by omega)]
  · intro k hk hz
    unfold new_blocks
    rw [e2 k hk, if_neg]
    intro hlt
    rcases hz with hz | ⟨j, hj, hz⟩
    · omega
    · exact (strlen_lt_iff name k).mp (by omega) j hj hz
  · intro hno k hk
    unfold new_blocks
    rw [e2 k hk, strlen_of_no_nul name hno]

/-- C7 (amended) at `img_fs` and the name "foo.txt": slot 1 of the root
directory receives inode number 1 and the name bytes `f o o . t x t` followed
by 21 NUL bytes. -/
theorem create_install_dirent_witness :
    (create_pre img_fs 1 1 ∧ blocks_in_range img_fs 1 ∧ 4 ≤ 4 ∧
      ∀ c ∈ ([102, 111, 111, 46, 116, 120, 116] : List Byte), c ≠ 0) ∧
    ∃ img1 o img2,
      journal_create img_fs [102, 111, 111, 46, 116, 120, 116] 7 7 7 =
        (CreateOutcome.created, img1) ∧
      journal_install 4 img1 = some (o, img2) ∧ o.ret = 0 ∧
      get32 (img2 19).buf 32 = 1 ∧
      (∀ k, k < 28 → (img2 19).buf (36 + k) =
        ([102, 111, 111, 46, 116, 120, 116] : List Byte).getD k 0) := by
  obtain ⟨img1, o, img2, h1, h2, h3, h4, _, _, h5, _⟩ :=
    create_install_dirent img_fs [102, 111, 111, 46, 116, 120, 116] 7 7 7 1 1
      (by decide) (by decide) 4 (by decide)
  have hds : (sb_of img_fs).data_start = 19 := by decide
  rw [hds] at h4 h5
  have hno : ∀ c ∈ ([102, 111, 111, 46, 116, 120, 116] : List Byte), c ≠ 0 := by
    intro c hc
    simp only [List.mem_cons, List.mem_singleton, List.not_mem_nil, or_false] at hc
    rcases hc with e | e | e | e | e | e | e <;> subst e <;> decide
  refine ⟨⟨by decide, by decide, by decide, hno⟩, img1, o, img2, h1, h2, h3, h4, ?_⟩
  intro k hk
  rw [h5 hno k hk]
  have : ∀ k : Fin 28, (if k.val < min ([102, 111, 111, 46, 116, 120, 116] : List Byte).length 27
      then ([102, 111, 111, 46, 116, 120, 116] : List Byte).getD k.val 0 else 0) =
      ([102, 111, 111, 46, 116, 120, 116] : List Byte).getD k.val 0 := by decide
  exact this ⟨k, hk⟩

/-- C7 as stated fails when the superblock names a far block: `img_far_dir`
meets the stated preconditions with `data_start = 2 ^ 20 + 17`, inode 1 free
and slot 0 of that block free.  The offset `data_start * 4096` does not fit an
`int`; its low 32 bits are the offset of block 17, which is what
`journal_create` reads and what `journal_install` overwrites.  Block
`data_start` is not written: the inode field of its slot 0 is 0 after the two
calls, not 1. -/
theorem create_install_dirent_counterexample :
    create_pre img_far_dir 1 0 ∧
    ¬ ∃ fuel img1 o img2,
      journal_create img_far_dir foo_txt 7 7 7 = (CreateOutcome.created, img1) ∧
      journal_install fuel img1 = some (o, img2) ∧ o.ret = 0 ∧
      get32 (img2 (sb_of img_far_dir).data_start).buf (32 * 0) = 1 := by
  refine ⟨by decide, ?_⟩
  rintro ⟨fuel, img1, o, img2, hc, hin, _, hf⟩
  have e : (journal_install 4 (journal_create img_far_dir foo_txt 7 7 7).2).map
      (fun r => get32 (r.2 (sb_of img_far_dir).data_start).buf (32 * 0)) = some 0 := by decide!
  rw [hc] at e
  cases hj : journal_install 4 img1 with
  | none => rw [hj] at e; simp at e
  | some r0 =>
    have := journal_install_deterministic 4 fuel img1 r0 (o, img2) hj hin
    subst this
    rw [hj] at e
    simp only [Option.map_some', Option.some.injEq] at e
    rw [e] at hf
    exact absurd hf (by decide)

/-! ## C8: the inode bitmap -/

/-- C8 (amended): under the preconditions of `journal_create`, the three
block numbers it uses being below `2 ^ 19`, `journal_create` followed by
`journal_install` leaves an inode bitmap block in which the bit of the
allocated inode `i` (the smallest index below `inode_count` whose bit was
clear) is set and each of the other 32767 bits is as before. -/
theorem create_install_bitmap (img : Image) (name : List Byte)
    (now_ctime now_mtime now_root i s : Nat) (h : create_pre img i s)
    (hr : blocks_in_range img i) (fuel : Nat) (hf : 4 ≤ fuel) :
    ∃ img1 o img2,
      journal_create img name now_ctime now_mtime now_root = (CreateOutcome.created, img1) ∧
      journal_install fuel img1 = some (o, img2) ∧ o.ret = 0 ∧
      inode_bit (img2 (sb_of img).inode_bitmap) i = true ∧
      ∀ j, j < 32768 → j ≠ i →
        inode_bit (img2 (sb_of img).inode_bitmap) j = inode_bit (img (sb_of img).inode_bitmap) j := by
  obtain ⟨img1, c, img2, hc, hin, h1, _, _⟩ :=
    create_then_install img name now_ctime now_mtime now_root i s h hr fuel hf
  refine ⟨img1, _, img2, hc, hin, rfl, ?_, ?_⟩
  · rw [h1]
    have hi : i < 32768 := by
      have := h.inode_lt
      have := h.inode_count_le
      omega
    unfold new_blocks
    rw [new_inode_bitmap_bit _ _ _ _ _ _ _ _ _ i hi, if_pos rfl]
  · intro j hj hne
    rw [h1]
    unfold new_blocks
    rw [new_inode_bitmap_bit _ _ _ _ _ _ _ _ _ j hj, if_neg hne]

/-- C8 (amended) at `img_fs`: bit 1 of the bitmap gets set. -/
theorem create_install_bitmap_witness :
    (create_pre img_fs 1 1 ∧ blocks_in_range img_fs 1 ∧ 4 ≤ 4) ∧
    ∃ img1 o img2,
      journal_create img_fs foo_txt 7 7 7 = (CreateOutcome.created, img1) ∧
      journal_install 4 img1 = some (o, img2) ∧ o.ret = 0 ∧
      inode_bit (img2 (sb_of img_fs).inode_bitmap) 1 = true ∧
      ∀ j, j < 32768 → j ≠ 1 →
        inode_bit (img2 (sb_of img_fs).inode_bitmap) j =
          inode_bit (img_fs (sb_of img_fs).inode_bitmap) j :=
  ⟨⟨by decide, by decide, by decide⟩,
   create_install_bitmap img_fs foo_txt 7 7 7 1 1 (by decide) (by decide) 4 (by decide)⟩

/-- C8 as stated fails when the superblock names a far block: `img_far_dir`
meets the stated preconditions with the inode bitmap in block 17 and
`data_start = 2 ^ 20 + 17`, whose offset has the low 32 bits of the offset of
block 17.  `journal_install` writes the new bitmap to block 17 and then the
new directory block to block 17 as well; the directory image was made from
the old content of block 17, so bit 1, the bit of the allocated inode, is
clear after the two calls. -/
theorem create_install_bitmap_counterexample :
    create_pre img_far_dir 1 0 ∧
    ¬ ∃ fuel img1 o img2,
      journal_create img_far_dir foo_txt 7 7 7 = (CreateOutcome.created, img1) ∧
      journal_install fuel img1 = some (o, img2) ∧ o.ret = 0 ∧
      inode_bit (img2 (sb_of img_far_dir).inode_bitmap) 1 = true := by
  refine ⟨by decide, ?_⟩
  rintro ⟨fuel, img1, o, img2, hc, hin, _, hf⟩
  have e : (journal_install 4 (journal_create img_far_dir foo_txt 7 7 7).2).map
      (fun r => inode_bit (r.2 (sb_of img_far_dir).inode_bitmap) 1) = some false := by decide!
  rw [hc] at e
  cases hj : journal_install 4 img1 with
  | none => rw [hj] at e; simp at e
  | some r0 =>
    have := journal_install_deterministic 4 fuel img1 r0 (o, img2) hj hin
    subst this
    rw [hj] at e
    simp only [Option.map_some', Option.some.injEq] at e
    rw [e] at hf
    exact absurd hf (by decide)

/-! ## C9: the root inode's size -/

/-- C9 (amended): under the preconditions of `journal_create`, the three
block numbers it uses being below `2 ^ 19`, when the allocated inode lies in
the first inode-table block and is not inode 0 itself, `journal_create`
followed by `journal_install` leaves the root inode (inode 0) with a size
field equal to its old size plus 32, modulo 2^32. -/
theorem create_install_root_size (img : Image) (name : List Byte)
    (now_ctime now_mtime now_root i s : Nat) (h : create_pre img i s)
    (hr : blocks_in_range img i)
    (hfirst : i / 32 = 0) (hi : i ≠ 0) (fuel : Nat) (hf : 4 ≤ fuel) :
    ∃ img1 o img2,
      journal_create img name now_ctime now_mtime now_root = (CreateOutcome.created, img1) ∧
      journal_install fuel img1 = some (o, img2) ∧ o.ret = 0 ∧
      get32 (img2 (inode_table_block img i)).buf 4 =
        (get32 (img (inode_table_block img i)).buf 4 + 32) % 2 ^ 32 := by
  obtain ⟨img1, c, img2, hc, hin, _, h2, _⟩ :=
    create_then_install img name now_ctime now_mtime now_root i s h hr fuel hf
  refine ⟨img1, _, img2, hc, hin, rfl, ?_⟩
  rw [h2]
  exact new_inode_block_root_size _ _ _ i s name now_ctime now_mtime now_root hi hfirst

/-- C9 (amended) at `img_fs`: the root inode's size goes from 64 to 96. -/
theorem create_install_root_size_witness :
    (create_pre img_fs 1 1 ∧ blocks_in_range img_fs 1 ∧ 1 / 32 = 0 ∧ 1 ≠ 0 ∧ 4 ≤ 4) ∧
    ∃ img1 o img2,
      journal_create img_fs foo_txt 7 7 7 = (CreateOutcome.created, img1) ∧
      journal_install 4 img1 = some (o, img2) ∧ o.ret = 0 ∧
      get32 (img2 (inode_table_block img_fs 1)).buf 4 =
        (get32 (img_fs (inode_table_block img_fs 1)).buf 4 + 32) % 2 ^ 32 :=
  ⟨⟨by decide, by decide, by decide, by decide, by decide⟩,
   create_install_root_size img_fs foo_txt 7 7 7 1 1 (by decide) (by decide)
     (by decide) (by decide) 4 (by decide)⟩

/-- C9 as stated fails when the allocated inode is inode 0: in
`img_root_free` the root inode's size field is 5 and inode 0 is the first free
inode; `journal_create` first sets the size of the new inode (inode 0) to 0 and
then adds 32, so the size ends as 32, not as 5 + 32. -/
theorem create_install_root_size_counterexample :
    create_pre img_root_free 0 0 ∧ 0 / 32 = 0 ∧
    get32 (img_root_free (inode_table_block img_root_free 0)).buf 4 = 5 ∧
    ¬ ∃ fuel img1 o img2,
      journal_create img_root_free foo_txt 7 7 7 = (CreateOutcome.created, img1) ∧
      journal_install fuel img1 = some (o, img2) ∧ o.ret = 0 ∧
      get32 (img2 (inode_table_block img_root_free 0)).buf 4 =
        (get32 (img_root_free (inode_table_block img_root_free 0)).buf 4 + 32) % 2 ^ 32 := by
  have hpre : create_pre img_root_free 0 0 := by decide
  refine ⟨hpre, by decide, by decide, ?_⟩
  rintro ⟨fuel, img1', o, img2', hc', hin', _, hsize⟩
  obtain ⟨img1, c, img2, hc, hin, _, h2, _⟩ :=
    create_then_install img_root_free foo_txt 7 7 7 0 0 hpre (by decide) 4 (le_refl _)
  rw [hc] at hc'
  have e1 : img1 = img1' := (Prod.mk.inj hc').2
  subst e1
  have e2 := journal_install_deterministic 4 fuel img1 _ _ hin hin'
  have e3 : img2 = img2' := (Prod.mk.inj e2).2
  subst e3
  rw [h2] at hsize
  have e5 : get32 (new_blocks img_root_free 0 0 foo_txt 7 7 7).new_inode_block.buf 4 = 32 := by
    decide
  have e6 : (get32 (img_root_free (inode_table_block img_root_free 0)).buf 4 + 32) % 2 ^ 32 = 37 := by
    decide
  rw [e5, e6] at hsize
  exact absurd hsize (by decide)

/-! ## C10: busy refusal -/

/-- C10: with filesystem magic `FS_MAGIC`, journal magic `JOURNAL_MAGIC` and
`bytes_used > 8`, `journal_create` ends with the "journal busy" outcome for
every name and leaves the whole image as it was. -/
theorem journal_create_busy (img : Image) (name : List Byte) (now_ctime now_mtime now_root : Nat)
    (hfs : (sb_of img).magic = FS_MAGIC)
    (hm : (Direct.read_journal_header img).magic = JOURNAL_MAGIC)
    (hb : 8 < (Direct.read_journal_header img).nbytes_used) :
    journal_create img name now_ctime now_mtime now_root = (CreateOutcome.journal_busy, img) := by
  have hih := init_header_of_magic img hm
  have hii := init_image_of_magic img hm
  rcases journal_create_cases img name now_ctime now_mtime now_root with
    hc | hc | hc | hc | hc | hc
  · exact absurd hfs hc.1
  · rw [hc.2.2, hii]
  · have := hc.2.1; rw [hih] at this; omega
  · have := hc.2.1; rw [hih] at this; omega
  · have := hc.2.1; rw [hih] at this; omega
  · have := hc.2.1; rw [hih] at this; omega

/-- C10 at the image `img_busy`. -/
theorem journal_create_busy_witness :
    ((sb_of img_busy).magic = FS_MAGIC ∧
     (Direct.read_journal_header img_busy).magic = JOURNAL_MAGIC ∧
     8 < (Direct.read_journal_header img_busy).nbytes_used) ∧
    journal_create img_busy [102, 111, 111] 0 0 0 = (CreateOutcome.journal_busy, img_busy) :=
  ⟨by decide, journal_create_busy img_busy [102, 111, 111] 0 0 0 (by decide) (by decide) (by decide)⟩

/-! ## C11: low journal capacity -/

/-- C11 (amended): with filesystem magic `FS_MAGIC`, journal magic
`JOURNAL_MAGIC` and a remaining journal capacity `16 * 4096 - bytes_used`
smaller than the 12316 bytes of one transaction, `journal_create` ends with
the "journal busy" outcome and leaves the whole image as it was; and on no
image at all does `journal_create` end with the "journal full" outcome. -/
theorem journal_create_low_capacity (img : Image) (name : List Byte)
    (now_ctime now_mtime now_root : Nat)
    (hfs : (sb_of img).magic = FS_MAGIC)
    (hm : (Direct.read_journal_header img).magic = JOURNAL_MAGIC)
    (hcap : 16 * 4096 - (Direct.read_journal_header img).nbytes_used < 3 * 4104 + 4) :
    journal_create img name now_ctime now_mtime now_root = (CreateOutcome.journal_busy, img) ∧
    ∀ (img2 : Image) (name2 : List Byte) (t1 t2 t3 : Nat),
      (journal_create img2 name2 t1 t2 t3).1 ≠ CreateOutcome.journal_full := by
  refine ⟨?_, journal_create_never_full⟩
  have hih := init_header_of_magic img hm
  have hii := init_image_of_magic img hm
  rcases journal_create_cases img name now_ctime now_mtime now_root with
    hc | hc | hc | hc | hc | hc
  · exact absurd hfs hc.1
  · rw [hc.2.2, hii]
  · have := hc.2.1; rw [hih] at this; omega
  · have := hc.2.1; rw [hih] at this; omega
  · have := hc.2.1; rw [hih] at this; omega
  · have := hc.2.1; rw [hih] at this; omega

/-- C11 (amended) at the image `img_nearly_full`. -/
theorem journal_create_low_capacity_witness :
    ((sb_of img_nearly_full).magic = FS_MAGIC ∧
     (Direct.read_journal_header img_nearly_full).magic = JOURNAL_MAGIC ∧
     16 * 4096 - (Direct.read_journal_header img_nearly_full).nbytes_used < 3 * 4104 + 4) ∧
    journal_create img_nearly_full foo_txt 7 7 7 =
      (CreateOutcome.journal_busy, img_nearly_full) :=
  ⟨by decide,
   (journal_create_low_capacity img_nearly_full foo_txt 7 7 7
      (by decide) (by decide) (by decide)).1⟩

/-- C11 as stated fails: `img_nearly_full` has filesystem magic `FS_MAGIC` and
only 5536 bytes of journal capacity left, fewer than the 12316 of one
transaction, yet `journal_create` does not end with the "journal full"
outcome: the busy check comes first and it ends with "journal busy". -/
theorem journal_create_low_capacity_counterexample :
    (sb_of img_nearly_full).magic = FS_MAGIC ∧
    16 * 4096 - (Direct.read_journal_header img_nearly_full).nbytes_used < 3 * 4104 + 4 ∧
    (journal_create img_nearly_full foo_txt 7 7 7).1 = CreateOutcome.journal_busy ∧
    (journal_create img_nearly_full foo_txt 7 7 7).1 ≠ CreateOutcome.journal_full := by
  have e : (journal_create img_nearly_full foo_txt 7 7 7).1 = CreateOutcome.journal_busy := by
    decide
  refine ⟨by decide, by decide, e, ?_⟩
  rw [e]
  decide

/-! ## C12: unknown record types -/

/-- C12 (amended): when the header is initialized and the replay scan reads,
at a position `p`, a record header whose type tag `t` is neither 1 (data) nor
2 (commit), `journal_install` returns -1 through its unknown-type exit, and
`p` is below `bytes_used`.  The on-disk journal header after the call equals
the header before the call provided that no transaction committed before
that record has overwritten block 1, the block that holds the header; the
block a write overwrites is the one at the `int` offset `block_no * 4096`,
or the one at the file position when that offset is negative. -/
theorem journal_install_unknown_type (img : Image) (fuel p t s : Nat)
    (hm : (Direct.read_journal_header img).magic = JOURNAL_MAGIC)
    (hrec : ScanEvent.record p t s ∈
      install_trace (Direct.read_journal_header img).nbytes_used fuel (scan_start img) 8 [])
    (ht1 : t ≠ 1) (ht2 : t ≠ 2) :
    p < (Direct.read_journal_header img).nbytes_used ∧
    ∃ img', journal_install fuel img = some (InstallOutcome.unknown_type t, img') ∧
      (InstallOutcome.unknown_type t).ret = -1 ∧
      (ScanEvent.write 1 ∉
          install_trace (Direct.read_journal_header img).nbytes_used fuel (scan_start img) 8 [] →
        Direct.read_journal_header img' = Direct.read_journal_header img) := by
  have h8 := install_trace_nonempty _ _ _ _ _ _ hrec
  obtain ⟨hp, d', hl⟩ := install_trace_unknown _ _ _ _ _ 0 p t s hrec ht1 ht2
  rw [scan_start_eq] at hl
  refine ⟨hp, d'.img, ?_, rfl, ?_⟩
  · exact journal_install_loop_failed fuel img hm (by omega) _ _ hl (by simp [InstallOutcome.ret])
  · intro hw
    rw [scan_start_eq] at hw
    exact read_journal_header_block img d'.img
      (install_loop_trace_frame _ _ _ _ _ _ _ _ hl 1 hw)

/-- C12 (amended) at `img_unknown_rec`, whose only record has type 7. -/
theorem journal_install_unknown_type_witness :
    ((Direct.read_journal_header img_unknown_rec).magic = JOURNAL_MAGIC ∧
     ScanEvent.record 8 7 4 ∈
       install_trace (Direct.read_journal_header img_unknown_rec).nbytes_used 1
         (scan_start img_unknown_rec) 8 [] ∧
     (7 : Nat) ≠ 1 ∧ (7 : Nat) ≠ 2) ∧
    8 < (Direct.read_journal_header img_unknown_rec).nbytes_used ∧
    ∃ img', journal_install 1 img_unknown_rec = some (InstallOutcome.unknown_type 7, img') ∧
      (InstallOutcome.unknown_type 7).ret = -1 ∧
      (ScanEvent.write 1 ∉
          install_trace (Direct.read_journal_header img_unknown_rec).nbytes_used 1
            (scan_start img_unknown_rec) 8 [] →
        Direct.read_journal_header img' = Direct.read_journal_header img_unknown_rec) :=
  ⟨by decide,
   journal_install_unknown_type img_unknown_rec 1 8 7 4 (by decide) (by decide)
      (by decide) (by decide)⟩

/-- C12 as stated fails: the header of `img_hdr_clobber` is initialized and
the scan reads at position 4116, below `bytes_used = 4120`, a record of type
0; `journal_install` fails, but the transaction committed before that record
has overwritten block 1, and the on-disk header, which had magic
`JOURNAL_MAGIC`, now has magic 0: whatever the fuel, the header after the
call differs from the header before it. -/
theorem journal_install_unknown_type_counterexample :
    (Direct.read_journal_header img_hdr_clobber).magic = JOURNAL_MAGIC ∧
    ScanEvent.record 4116 0 0 ∈
      install_trace (Direct.read_journal_header img_hdr_clobber).nbytes_used 3
        (scan_start img_hdr_clobber) 8 [] ∧
    4116 < (Direct.read_journal_header img_hdr_clobber).nbytes_used ∧
    (journal_install 3 img_hdr_clobber).map (fun r => r.1) =
      some (InstallOutcome.unknown_type 0) ∧
    ∀ fuel o img', journal_install fuel img_hdr_clobber = some (o, img') →
      Direct.read_journal_header img' ≠ Direct.read_journal_header img_hdr_clobber := by
  have e : (journal_install 3 img_hdr_clobber).map
      (fun r => (Direct.read_journal_header r.2).magic) = some 0 := by decide!
  refine ⟨by decide, by decide!, by decide, by decide!, ?_⟩
  intro fuel o img' h hh
  cases hj : journal_install 3 img_hdr_clobber with
  | none => rw [hj] at e; simp at e
  | some r0 =>
    have := journal_install_deterministic 3 fuel img_hdr_clobber r0 (o, img') hj h
    subst this
    rw [hj] at e
    simp only [Option.map_some', Option.some.injEq] at e
    rw [hh] at e
    exact absurd e (by decide)

/-! ## C13: failing calls -/

/-- C13 (amended): a failing call does not always leave the image untouched.
When `journal_create` ends with one of its five error messages, the image it
leaves is the one it was given if the filesystem magic is invalid or the
journal header was already initialized; otherwise it is that image with the
fresh header `{JOURNAL_MAGIC, 8}` written, so only the first 8 bytes of block
1 can differ.  When `journal_install` returns -1, the image it leaves is the
one it was given if the outcome is "journal not initialized", and in every
case each block that no `write_block` call of the replay loop has overwritten
before the loop stopped has its old content. -/
theorem failure_image (img : Image) (name : List Byte) (now_ctime now_mtime now_root : Nat)
    (ho : (journal_create img name now_ctime now_mtime now_root).1 ∈
      [CreateOutcome.invalid_fs_magic, CreateOutcome.journal_busy,
       CreateOutcome.no_free_inodes, CreateOutcome.no_free_slots, CreateOutcome.journal_full])
    (jmg : Image) (fuel : Nat) (o2 : InstallOutcome) (img2 : Image)
    (hi : journal_install fuel jmg = some (o2, img2)) (ho2 : o2.ret ≠ 0) :
    (((sb_of img).magic ≠ FS_MAGIC ∨ (Direct.read_journal_header img).magic = JOURNAL_MAGIC) →
      (journal_create img name now_ctime now_mtime now_root).2 = img) ∧
    ((sb_of img).magic = FS_MAGIC → (Direct.read_journal_header img).magic ≠ JOURNAL_MAGIC →
      (journal_create img name now_ctime now_mtime now_root).2 =
        Direct.write_journal_header img ⟨JOURNAL_MAGIC, 8⟩) ∧
    (∀ (b : Nat) (i : Fin 4096), ¬ (b = 1 ∧ i.val < 8) →
      (journal_create img name now_ctime now_mtime now_root).2 b i = img b i) ∧
    (o2 = InstallOutcome.not_initialized → img2 = jmg) ∧
    (∀ b, ScanEvent.write b ∉
        install_trace (Direct.read_journal_header jmg).nbytes_used fuel (scan_start jmg) 8 [] →
      img2 b = jmg b) := by
  have hne := create_failure_ne_created _ ho
  refine ⟨?_, ?_, ?_, ?_, ?_⟩
  · intro h
    rcases journal_create_failed_image img name now_ctime now_mtime now_root hne with hc | hc
    · exact hc.2
    · rcases h with h | h
      · exact absurd hc.1 h
      · rw [hc.2, init_image_of_magic img h]
  · intro hfs hm
    rcases journal_create_failed_image img name now_ctime now_mtime now_root hne with hc | hc
    · exact absurd hfs hc.1
    · rw [hc.2, init_image_of_not_magic img hm]
  · intro b i hb
    rcases journal_create_failed_image img name now_ctime now_mtime now_root hne with hc | hc
    · rw [hc.2]
    · rw [hc.2, init_image_bytes img b i hb]
  · intro hni
    rcases journal_install_cases fuel jmg o2 img2 hi with hc | hc | hc | hc
    · exact hc.2.2
    · exact hc.2.2.2
    · obtain ⟨_, _, n, c, d, _, e, _⟩ := hc
      rw [hni] at e
      exact InstallOutcome.noConfusion e
    · obtain ⟨_, _, _, d, hl, _⟩ := hc
      rw [hni] at hl
      exact absurd hl (install_loop_ne_not_initialized _ _ _ _ _ _ _)
  · intro b hb
    rw [scan_start_eq] at hb
    rcases journal_install_cases fuel jmg o2 img2 hi with hc | hc | hc | hc
    · rw [hc.2.2]
    · rw [hc.2.2.2]
    · obtain ⟨_, _, n, c, d, _, e, _⟩ := hc
      rw [e] at ho2
      exact absurd rfl ho2
    · obtain ⟨_, _, _, d, hl, e⟩ := hc
      rw [e]
      exact install_loop_trace_frame _ _ _ _ _ _ _ _ hl b hb

/-- C13 (amended) at `img_unknown_rec`: `journal_create` finds the journal
busy, `journal_install` stops at the record of type 7 without any write. -/
theorem failure_image_witness :
    ((journal_create img_unknown_rec foo_txt 7 7 7).1 ∈
       [CreateOutcome.invalid_fs_magic, CreateOutcome.journal_busy,
        CreateOutcome.no_free_inodes, CreateOutcome.no_free_slots, CreateOutcome.journal_full] ∧
     journal_install 1 img_unknown_rec =
       some (InstallOutcome.unknown_type 7, img_unknown_rec) ∧
     (InstallOutcome.unknown_type 7).ret ≠ 0) ∧
    (journal_create img_unknown_rec foo_txt 7 7 7).2 = img_unknown_rec :=
  ⟨⟨by decide, rfl, by decide⟩,
   (failure_image img_unknown_rec foo_txt 7 7 7 (by decide) img_unknown_rec 1
      (InstallOutcome.unknown_type 7) img_unknown_rec rfl (by decide)).1
      (Or.inr (by decide))⟩

/-- C13 as stated fails: on `img_no_inodes` (valid filesystem magic, journal
header never written, `inode_count = 0`) `journal_create` ends with the "no
free inodes" outcome, yet the image it leaves differs from the one it was
given: the header check has written the fresh header, and the header magic,
which read 0, now reads `JOURNAL_MAGIC`. -/
theorem failure_image_counterexample :
    (journal_create img_no_inodes foo_txt 7 7 7).1 = CreateOutcome.no_free_inodes ∧
    (journal_create img_no_inodes foo_txt 7 7 7).2 ≠ img_no_inodes := by
  have e1 : (journal_create img_no_inodes foo_txt 7 7 7).1 = CreateOutcome.no_free_inodes := by
    decide
  have e2 : (Direct.read_journal_header (journal_create img_no_inodes foo_txt 7 7 7).2).magic =
      JOURNAL_MAGIC := by decide
  refine ⟨e1, fun h => ?_⟩
  rw [h] at e2
  exact absurd e2 (by decide)

/-! ## C14, C15: frame of the journal writer and of the header write -/

/-- C14: for an in-memory header with cursor `p` and a record of `n` bytes
(`n < 2^16`, `p + n ≤ 16 * 4096`), `append_record_to_journal` leaves its loop
with `bytes_remaining = 0`, sets the in-memory cursor to exactly `p + n` (the
magic is untouched), puts the record into journal bytes `[p, p + n)` and
changes no other byte of any block; for `p ≥ 8` the on-disk header is
therefore the same after the append. -/
theorem append_record_frame (d : Disk) (jh : journal_header) (record : Buf) (n : Nat)
    (hn : n < 2 ^ 16) (hcap : jh.nbytes_used + n ≤ 16 * 4096) :
    (append_loop record n d jh.nbytes_used n 0).bytes_remaining = 0 ∧
    (append_record_to_journal d jh record n).2 = ⟨jh.magic, jh.nbytes_used + n⟩ ∧
    (∀ q, jh.nbytes_used ≤ q → q < jh.nbytes_used + n →
      jbyte (append_record_to_journal d jh record n).1.img q = record (q - jh.nbytes_used)) ∧
    (∀ (b : Nat) (i : Fin 4096),
      ¬ (1 ≤ b ∧ jh.nbytes_used ≤ 4096 * (b - 1) + i.val ∧
          4096 * (b - 1) + i.val < jh.nbytes_used + n) →
      (append_record_to_journal d jh record n).1.img b i = d.img b i) ∧
    (8 ≤ jh.nbytes_used →
      (read_journal_header (append_record_to_journal d jh record n).1).1 =
        (read_journal_header d).1) := by
  obtain ⟨q1, h1⟩ := append_loop_direct record n d jh.nbytes_used n 0 (by omega)
  obtain ⟨q2, h2⟩ := append_record_to_journal_direct d jh record n (by omega)
  obtain ⟨e1, e2, e3, e4, e5⟩ := append_record_frame_direct d.img jh record n hn hcap
  rw [h1, h2]
  refine ⟨e1, e2, e3, e4, ?_⟩
  intro h8
  rw [read_journal_header_fst, read_journal_header_fst]
  exact e5 h8

/-- C14 at a 4104-byte record appended at cursor 8 of the image `img_busy`. -/
theorem append_record_frame_witness :
    (4104 < 2 ^ 16 ∧ (⟨JOURNAL_MAGIC, 8⟩ : journal_header).nbytes_used + 4104 ≤ 16 * 4096) ∧
    (append_record_to_journal ⟨img_busy, 0⟩ ⟨JOURNAL_MAGIC, 8⟩ (fun k => byte_of k) 4104).2 =
      ⟨JOURNAL_MAGIC, 8 + 4104⟩ :=
  ⟨by decide,
   (append_record_frame ⟨img_busy, 0⟩ ⟨JOURNAL_MAGIC, 8⟩ (fun k => byte_of k) 4104
      (by decide) (by decide)).2.1⟩

/-- C15: `write_journal_header(h)` changes only the first 8 bytes of block 1
(bytes 8..4095 of that block and all other blocks are unchanged), and a
following `read_journal_header` returns exactly `h` (whose two fields are
`uint32_t` values). -/
theorem write_journal_header_frame (d : Disk) (h : journal_header)
    (h1 : h.magic < 2 ^ 32) (h2 : h.nbytes_used < 2 ^ 32) :
    (∀ (b : Nat) (i : Fin 4096), ¬ (b = 1 ∧ i.val < 8) →
      (write_journal_header d h).img b i = d.img b i) ∧
    (read_journal_header (write_journal_header d h)).1 = h := by
  rw [write_journal_header_direct, read_journal_header_fst]
  exact ⟨fun b i hb => write_journal_header_bytes d.img h b i hb,
    read_write_journal_header d.img h h1 h2⟩

/-- C15 at the image `img_busy` and the header `{JOURNAL_MAGIC, 8}`. -/
theorem write_journal_header_frame_witness :
    ((⟨JOURNAL_MAGIC, 8⟩ : journal_header).magic < 2 ^ 32 ∧
     (⟨JOURNAL_MAGIC, 8⟩ : journal_header).nbytes_used < 2 ^ 32) ∧
    (∀ (b : Nat) (i : Fin 4096), ¬ (b = 1 ∧ i.val < 8) →
      (write_journal_header ⟨img_busy, 0⟩ ⟨JOURNAL_MAGIC, 8⟩).img b i = img_busy b i) ∧
    (read_journal_header (write_journal_header ⟨img_busy, 0⟩ ⟨JOURNAL_MAGIC, 8⟩)).1 =
      ⟨JOURNAL_MAGIC, 8⟩ :=
  ⟨by decide,
   write_journal_header_frame ⟨img_busy, 0⟩ ⟨JOURNAL_MAGIC, 8⟩ (by decide) (by decide)⟩

/-! ## C16: frame of `journal_create` -/

/-- C16: whatever its outcome, `journal_create` writes only to journal blocks
1..4: block 0 and every block after block 4 (the inode bitmap, inode table and
root directory blocks among them when they lie there) has the same content
after the call as before. -/
theorem journal_create_frame (img : Image) (name : List Byte)
    (now_ctime now_mtime now_root : Nat) (b : Nat) (hb : b = 0 ∨ 4 < b) :
    (journal_create img name now_ctime now_mtime now_root).2 b = img b :=
  journal_create_outside img name now_ctime now_mtime now_root _ _ rfl b hb

/-- C16 at the image `img_fs`, the name "foo.txt" and block 17, the inode
bitmap. -/
theorem journal_create_frame_witness :
    ((17 : Nat) = 0 ∨ 4 < 17) ∧ (journal_create img_fs foo_txt 7 7 7).2 17 = img_fs 17 :=
  ⟨by decide, journal_create_frame img_fs foo_txt 7 7 7 17 (by decide)⟩

/-! ## C17: the header after a successful call -/

/-- C17 (amended): after a successful `journal_install` the on-disk journal
header is exactly `{JOURNAL_MAGIC, 8}`.  A `journal_create` that succeeds on
an image whose header has magic `JOURNAL_MAGIC` started from `bytes_used ≤ 8`
and leaves the header `{JOURNAL_MAGIC, bytes_used + 12316}`: `bytes_used` has
grown by the 12316 bytes of one transaction, which gives 12324 when it was 8
before the call and less when it was below 8. -/
theorem header_after_success (img : Image) (fuel : Nat) (o : InstallOutcome) (img1 : Image)
    (hi : journal_install fuel img = some (o, img1)) (ho : o.ret = 0)
    (jmg : Image) (name : List Byte) (now_ctime now_mtime now_root : Nat)
    (hc : (journal_create jmg name now_ctime now_mtime now_root).1 = CreateOutcome.created)
    (hm : (Direct.read_journal_header jmg).magic = JOURNAL_MAGIC) :
    Direct.read_journal_header img1 = ⟨JOURNAL_MAGIC, 8⟩ ∧
    (Direct.read_journal_header jmg).nbytes_used ≤ 8 ∧
    Direct.read_journal_header (journal_create jmg name now_ctime now_mtime now_root).2 =
      ⟨JOURNAL_MAGIC, (Direct.read_journal_header jmg).nbytes_used + (3 * 4104 + 4)⟩ ∧
    ((Direct.read_journal_header jmg).nbytes_used = 8 →
      Direct.read_journal_header (journal_create jmg name now_ctime now_mtime now_root).2 =
        ⟨JOURNAL_MAGIC, 12324⟩) := by
  have h := journal_create_created_header jmg name now_ctime now_mtime now_root hc
  rw [init_header_of_magic jmg hm] at h
  refine ⟨journal_install_ok_header fuel img o img1 hi ho, h.1, h.2, ?_⟩
  intro h8
  rw [h.2, h8]

/-- C17 (amended) at the install of `img_one_txn` and at the create of
"foo.txt" on `img_ready`. -/
theorem header_after_success_witness :
    (journal_install 5 img_one_txn = some (InstallOutcome.installed 1 0, img_one_txn_installed) ∧
     (InstallOutcome.installed 1 0).ret = 0 ∧
     (journal_create img_ready foo_txt 7 7 7).1 = CreateOutcome.created ∧
     (Direct.read_journal_header img_ready).magic = JOURNAL_MAGIC) ∧
    Direct.read_journal_header img_one_txn_installed = ⟨JOURNAL_MAGIC, 8⟩ ∧
    Direct.read_journal_header (journal_create img_ready foo_txt 7 7 7).2 =
      ⟨JOURNAL_MAGIC, (Direct.read_journal_header img_ready).nbytes_used + (3 * 4104 + 4)⟩ :=
  ⟨⟨rfl, rfl, by decide, by decide⟩,
   (header_after_success img_one_txn 5 (InstallOutcome.installed 1 0) img_one_txn_installed
      rfl rfl img_ready foo_txt 7 7 7 (by decide) (by decide)).1,
   (header_after_success img_one_txn 5 (InstallOutcome.installed 1 0) img_one_txn_installed
      rfl rfl img_ready foo_txt 7 7 7 (by decide) (by decide)).2.2.1⟩

/-- C17 as stated fails: the header of `img_short_header` has magic
`JOURNAL_MAGIC` and `bytes_used = 0`; `journal_create` succeeds on it and
leaves `bytes_used = 12316`, not 12324. -/
theorem header_after_success_counterexample :
    (Direct.read_journal_header img_short_header).magic = JOURNAL_MAGIC ∧
    (journal_create img_short_header foo_txt 7 7 7).1 = CreateOutcome.created ∧
    (Direct.read_journal_header (journal_create img_short_header foo_txt 7 7 7).2).nbytes_used
      = 12316 ∧
    (Direct.read_journal_header (journal_create img_short_header foo_txt 7 7 7).2).nbytes_used
      ≠ 8 + 3 * 4104 + 4 := by
  have hc : (journal_create img_short_header foo_txt 7 7 7).1 = CreateOutcome.created := by
    decide
  have h := (journal_create_created_header img_short_header foo_txt 7 7 7 hc).2
  have e : (init_header img_short_header).nbytes_used = 0 := by decide
  rw [e] at h
  refine ⟨by decide, hc, ?_, ?_⟩
  · rw [h]
  · rw [h]; decide

/-! ## C18: install on an uninitialized journal -/

/-- C18: when the journal header's magic differs from `JOURNAL_MAGIC`,
`journal_install` ends with the "journal not initialized" outcome (return
value -1) whatever the fuel, and the image it leaves is the image it was
given: nothing is written, the header is not initialized. -/
theorem journal_install_uninitialized (img : Image) (fuel : Nat)
    (hm : (Direct.read_journal_header img).magic ≠ JOURNAL_MAGIC) :
    journal_install fuel img = some (InstallOutcome.not_initialized, img) ∧
    InstallOutcome.not_initialized.ret = -1 :=
  ⟨journal_install_of_not_magic fuel img hm, rfl⟩

/-- C18 at the image `img_fs`, whose journal was never used. -/
theorem journal_install_uninitialized_witness :
    (Direct.read_journal_header img_fs).magic ≠ JOURNAL_MAGIC ∧
    journal_install 0 img_fs = some (InstallOutcome.not_initialized, img_fs) :=
  ⟨by decide, (journal_install_uninitialized img_fs 0 (by decide)).1⟩

/-! ## C19: first-fit inode allocation -/

/-- C19: for a bitmap block and `n ≤ 32768`, `find_free_inode` returns the
least `i < n` whose bit (byte `i / 8`, bit `i % 8`) is clear, such an `i`
being returned whenever some bit below `n` is clear, and it returns -1 if and
only if the first `n` bits are all set.  With a valid filesystem magic, a
journal that is not busy and `inode_count ≤ 32768`, `journal_create` ends
with the "no free inodes" outcome if and only if the first `inode_count` bits
of the bitmap block that its `read_block(sb.inode_bitmap, ..)` call has
returned are all set; that block is block `sb.inode_bitmap` of the image it
was given when that number is below `2 ^ 19` and is not 1. -/
theorem find_free_inode_first_fit (bm : Block) (n : Nat) (hn : n ≤ 32768)
    (img : Image) (name : List Byte) (now_ctime now_mtime now_root : Nat)
    (hfs : (sb_of img).magic = FS_MAGIC)
    (hfree : (Direct.read_journal_header img).magic ≠ JOURNAL_MAGIC ∨
      (Direct.read_journal_header img).nbytes_used ≤ 8)
    (hcount : (sb_of img).inode_count ≤ 32768) :
    (∀ i, i < n → inode_bit bm i = false → (∀ j, j < i → inode_bit bm j = true) →
      find_free_inode bm n = some (i : Int)) ∧
    ((∃ i, i < n ∧ inode_bit bm i = false) →
      ∃ i, i < n ∧ inode_bit bm i = false ∧ (∀ j, j < i → inode_bit bm j = true) ∧
        find_free_inode bm n = some (i : Int)) ∧
    (find_free_inode bm n = some (-1) ↔ ∀ i, i < n → inode_bit bm i = true) ∧
    ((journal_create img name now_ctime now_mtime now_root).1 = CreateOutcome.no_free_inodes ↔
      ∀ i, i < (sb_of img).inode_count → inode_bit (bitmap_read img).1 i = true) ∧
    ((sb_of img).inode_bitmap < 2 ^ 19 → (sb_of img).inode_bitmap ≠ 1 →
      ((journal_create img name now_ctime now_mtime now_root).1 = CreateOutcome.no_free_inodes ↔
        ∀ i, i < (sb_of img).inode_count →
          inode_bit (img (sb_of img).inode_bitmap) i = true)) := by
  have hle : (init_header img).nbytes_used ≤ 8 := by
    unfold init_header
    split_ifs with h
    · exact le_refl _
    · rcases hfree with h1 | h1
      · exact absurd h1 h
      · exact h1
  have hiff := find_free_inode_full_iff (bitmap_read img).1 (sb_of img).inode_count hcount
  have key : (journal_create img name now_ctime now_mtime now_root).1 =
      CreateOutcome.no_free_inodes ↔
      ∀ i, i < (sb_of img).inode_count → inode_bit (bitmap_read img).1 i = true := by
    rw [← hiff]
    rcases journal_create_cases img name now_ctime now_mtime now_root with
      hc | hc | hc | hc | hc | hc
    · exact absurd hfs hc.1
    · have := hc.2.1; omega
    · exact absurd hc.2.2.1 (find_free_inode_ne_none _ _ hcount)
    · rw [hc.2.2.2, hc.2.2.1]
      exact ⟨fun _ => rfl, fun _ => rfl⟩
    · obtain ⟨_, _, ⟨r, hr, hf⟩, _, hcr⟩ := hc
      rw [hcr, hf]
      constructor
      · intro e; exact CreateOutcome.noConfusion e
      · intro e; exact absurd (Option.some.inj e) hr
    · obtain ⟨_, _, ⟨r, hr, hf⟩, _, im, _, _, hcr⟩ := hc
      rw [hcr, hf]
      constructor
      · intro e; exact CreateOutcome.noConfusion e
      · intro e; exact absurd (Option.some.inj e) hr
  refine ⟨fun i hi hclear hfirst =>
      find_free_inode_found bm n i hi (by omega) hclear hfirst,
    find_free_inode_least bm n hn, find_free_inode_full_iff bm n hn, key, ?_⟩
  intro hlt hb1
  have e : (bitmap_read img).1 = img (sb_of img).inode_bitmap := by
    unfold bitmap_read
    rw [read_block_direct _ _ hlt]
    exact init_image_block img _ hb1
  rw [key, e]

/-- C19 at the bitmap block of `img_fs` (inode 0 allocated, the other 63
free) and at `journal_create` on `img_fs`. -/
theorem find_free_inode_first_fit_witness :
    ((64 : Nat) ≤ 32768 ∧ (sb_of img_fs).magic = FS_MAGIC ∧
     ((Direct.read_journal_header img_fs).magic ≠ JOURNAL_MAGIC ∨
       (Direct.read_journal_header img_fs).nbytes_used ≤ 8) ∧
     (sb_of img_fs).inode_count ≤ 32768) ∧
    (find_free_inode (img_fs 17) 64 = some (-1) ↔
      ∀ i, i < 64 → inode_bit (img_fs 17) i = true) ∧
    ((journal_create img_fs foo_txt 7 7 7).1 = CreateOutcome.no_free_inodes ↔
      ∀ i, i < (sb_of img_fs).inode_count → inode_bit (bitmap_read img_fs).1 i = true) :=
  ⟨by decide,
   (find_free_inode_first_fit (img_fs 17) 64 (by decide) img_fs foo_txt 7 7 7
      (by decide) (by decide) (by decide)).2.2.1,
   (find_free_inode_first_fit (img_fs 17) 64 (by decide) img_fs foo_txt 7 7 7
      (by decide) (by decide) (by decide)).2.2.2.1⟩

/-! ## C20: termination of the replay scan -/

/-- C20 (amended): when `bytes_used ≤ 2^32 - 2^16` and every record header
that the scan reads in its first `bytes_used - 8` rounds declares a size of at
least one byte, the replay scan of `journal_install` terminates: the call
returns, and it returns the same result for every fuel from `bytes_used - 8`
on. -/
theorem journal_install_terminates (img : Image)
    (hbu : (Direct.read_journal_header img).nbytes_used ≤ 2 ^ 32 - 2 ^ 16)
    (hsz : (install_trace (Direct.read_journal_header img).nbytes_used
      ((Direct.read_journal_header img).nbytes_used - 8) (scan_start img) 8 []).all
        ScanEvent.size_ok = true) :
    ∃ r, ∀ fuel, (Direct.read_journal_header img).nbytes_used - 8 ≤ fuel →
      journal_install fuel img = some r := by
  rw [scan_start_eq] at hsz
  have hex : ∃ r, journal_install ((Direct.read_journal_header img).nbytes_used - 8) img
      = some r := by
    by_cases hm : (Direct.read_journal_header img).magic = JOURNAL_MAGIC
    · by_cases h8 : (Direct.read_journal_header img).nbytes_used = 8
      · exact ⟨_, journal_install_of_empty _ img hm h8⟩
      · obtain ⟨⟨o, d⟩, hl⟩ := install_loop_terminates _ hbu _ ⟨img, 2⟩ 8 [] 0 (le_refl _) hsz
        by_cases ho : o.ret = 0
        · cases o with
          | installed n c => exact ⟨_, journal_install_loop_installed _ img hm h8 n c d hl⟩
          | empty => exact absurd hl (install_loop_ne_empty _ _ _ _ _ _ _)
          | not_initialized => exact absurd ho (by simp [InstallOutcome.ret])
          | too_many_records => exact absurd ho (by simp [InstallOutcome.ret])
          | unknown_type t => exact absurd ho (by simp [InstallOutcome.ret])
        · exact ⟨_, journal_install_loop_failed _ img hm h8 o d hl ho⟩
    · exact ⟨_, journal_install_of_not_magic _ img hm⟩
  obtain ⟨r, hr⟩ := hex
  refine ⟨r, fun fuel hf => ?_⟩
  have := journal_install_fuel_mono _
    (fuel - ((Direct.read_journal_header img).nbytes_used - 8)) img r hr
  rw [Nat.add_sub_cancel' hf] at this
  exact this

/-- C20 (amended) at `img_one_txn`: a data record of 4104 bytes and a commit
record of 4 bytes. -/
theorem journal_install_terminates_witness :
    ((Direct.read_journal_header img_one_txn).nbytes_used ≤ 2 ^ 32 - 2 ^ 16 ∧
     (install_trace (Direct.read_journal_header img_one_txn).nbytes_used
       ((Direct.read_journal_header img_one_txn).nbytes_used - 8) (scan_start img_one_txn) 8 []).all
         ScanEvent.size_ok = true) ∧
    ∃ r, ∀ fuel, (Direct.read_journal_header img_one_txn).nbytes_used - 8 ≤ fuel →
      journal_install fuel img_one_txn = some r :=
  ⟨by decide, journal_install_terminates img_one_txn (by decide) (by decide)⟩

/-- C20 as stated fails: the header of `img_zero_commit` has magic
`JOURNAL_MAGIC` and `bytes_used = 12`, and the record at offset 8 is a commit
record that declares size 0.  The scan position never leaves 8, so the loop of
`journal_install` does not end: no amount of fuel gives a result. -/
theorem journal_install_terminates_counterexample :
    (Direct.read_journal_header img_zero_commit).magic = JOURNAL_MAGIC ∧
    ∀ fuel, journal_install fuel img_zero_commit = none := by
  have key : ∀ (fuel n q : Nat),
      install_loop 12 fuel ⟨img_zero_commit, q⟩ 8 [] n = none := by
    intro fuel
    induction fuel with
    | zero => intro n q; rfl
    | succ f ih =>
      intro n q
      have ht : get16 (journal_at img_zero_commit 8) 0 = 2 := by decide
      obtain ⟨q', hq⟩ := install_loop_step_commit 12 f ⟨img_zero_commit, q⟩ 8 [] n
        (by decide) (by decide) ht
      rw [hq]
      have e : (8 + get16 (journal_at img_zero_commit 8) 2) % 2 ^ 32 = 8 := by decide
      have e2 : apply_pending ⟨img_zero_commit, q'⟩ [] = ⟨img_zero_commit, q'⟩ := rfl
      rw [e2]
      show install_loop 12 f ⟨img_zero_commit, q'⟩
        ((8 + get16 (journal_at img_zero_commit 8) 2) % 2 ^ 32) [] (n + 1) = none
      rw [e]
      exact ih (n + 1) q'
  have e12 : (Direct.read_journal_header img_zero_commit).nbytes_used = 12 := by decide
  refine ⟨by decide, fun fuel => ?_⟩
  apply journal_install_loop_none fuel img_zero_commit (by decide) (by decide)
  rw [e12]
  exact key fuel 0 2

end Vsfs
